import Mathlib

/-!
Verification of the market-data table-reconciliation engine (`src/complete.py`).

The Python source operates on strings and pandas DataFrames.  We shallowly
embed it here:

* strings are `String` / `List Char`; each regular expression of the source is
  translated into an explicit, total parser over `List Char` that mirrors the
  regex's matching semantics (including greediness / laziness and rule order);
* pandas DataFrames become `DF`: an ordered column list plus an ordered list
  of labelled rows, where a row is a total function from column name to an
  optional cell value (`none` models `NaN`);
* Python floats are modelled by `ℚ` (exact rationals); the float literal
  `1e-12` becomes the rational `1/10^12`;
* cell values are either numbers or strings (`Val`); `float(...)` applied to a
  string is modelled by a decimal parser `parseFloatQ`.

All definitions are executable, so witnesses and counterexamples evaluate by
`decide` / `rfl`.
-/

namespace MarketData

/-! ## Character and string utilities -/

/-- Python `str.strip()` whitespace characters. -/
def isPyWs (c : Char) : Bool :=
  c = ' ' || c = '\t' || c = '\n' || c = '\r' || c = '\x0b' || c = '\x0c'

/-- Python `str.strip()` on a character list. -/
def trimWs (s : List Char) : List Char :=
  ((s.dropWhile isPyWs).reverse.dropWhile isPyWs).reverse

/-- `label.strip().upper().replace(" ", "")` — the canonicalisation applied to
every period label before any rule is tried. -/
def canonLabel (s : List Char) : List Char :=
  ((trimWs s).map Char.toUpper).filter (fun c => c != ' ')

/-- `s.replace("ACTUAL", "")`: remove every (non-overlapping, left-to-right)
occurrence of `ACTUAL`. -/
def removeActualAll : List Char → List Char
  | 'A' :: 'C' :: 'T' :: 'U' :: 'A' :: 'L' :: rest => removeActualAll rest
  | c :: rest => c :: removeActualAll rest
  | [] => []

/-- `s.endswith("ACTUAL")`. -/
def endsWithActual (s : List Char) : Bool :=
  ['L', 'A', 'U', 'T', 'C', 'A'].isPrefixOf s.reverse

/-- The preprocessing of `normalize_period_label`: canonicalise, then strip
`ACTUAL` when the token ends with it. -/
def preprocessLabel (s : List Char) : List Char :=
  let t := canonLabel s
  if endsWithActual t then removeActualAll t else t

/-- `[0-9]` character class (via code points, equivalent to `Char.isDigit`). -/
def isDigitCh (c : Char) : Bool :=
  48 ≤ c.toNat && c.toNat ≤ 57

/-- `[1-4]` character class. -/
def isQ14 (c : Char) : Bool :=
  c = '1' || c = '2' || c = '3' || c = '4'

/-- `[A-Z]` character class (explicitly ASCII uppercase, as in the regexes). -/
def isUpperAlpha (c : Char) : Bool :=
  65 ≤ c.toNat && c.toNat ≤ 90

/-- `_to_yyyy`: two-digit years are prefixed with `20`, all else unchanged. -/
def toYYYY (y : List Char) : List Char :=
  if y.length = 2 then '2' :: '0' :: y else y

/-- Numeric value of a digit string, as Python `int` (leading zeros vanish). -/
def digitsToNat (s : List Char) : Nat :=
  s.foldl (fun n c => n * 10 + (c.toNat - '0'.toNat)) 0

/-- Fuel-driven helper for `natDigits` (structural recursion so that concrete
evaluations reduce inside the kernel). -/
def natDigitsAux : Nat → Nat → List Char
  | 0, _ => []
  | fuel + 1, n =>
    if n < 10 then [Char.ofNat (48 + n)]
    else natDigitsAux fuel (n / 10) ++ [Char.ofNat (48 + n % 10)]

/-- Decimal rendering of a natural number (the digits of a Python f-string
interpolation of an `int`). -/
def natDigits (n : Nat) : List Char :=
  natDigitsAux (n + 1) n

/-- The optional `([AEF]?)` capture followed by end-of-string: `none` when the
remainder is not empty / `A` / `E` / `F`; otherwise whether the suffix marks a
forecast (`E` or `F`). -/
def sufFlag : List Char → Option Bool
  | [] => some false
  | [c] =>
    if c = 'A' then some false
    else if c = 'E' || c = 'F' then some true
    else none
  | _ => none

/-! ## Period label normalizer (`normalize_period_label`) -/

/-- `CURRENT_YEAR = 2025`. -/
def CURRENT_YEAR : Nat := 2025

/-- `LAST_ACTUAL_QUARTER = 2`. -/
def LAST_ACTUAL_QUARTER : Nat := 2

/-- `_is_future_quarter`. -/
def is_future_quarter (yyyy q : Nat) : Bool :=
  if yyyy > CURRENT_YEAR then true
  else if yyyy < CURRENT_YEAR then false
  else decide (q > LAST_ACTUAL_QUARTER)

/-- Rule 1: `^(\d{1,2})/(\d{4})([AEF]?)$` — `MM/YYYY` with optional marker. -/
def tryRule1 (s : List Char) : Option (List Char) :=
  let p := s.span isDigitCh
  if 1 ≤ p.1.length ∧ p.1.length ≤ 2 then
    match p.2 with
    | sl :: r2 =>
      if sl = '/' then
        let p3 := r2.span isDigitCh
        if p3.1.length = 4 then
          match sufFlag p3.2 with
          | some true => some (toYYYY p3.1 ++ ['F'])
          | some false => some (toYYYY p3.1)
          | none => none
        else none
      else none
    | [] => none
  else none

/-- Rule 2: `^([1-4])Q(\d{2,4})([AEF]?)$` — quarter tokens. -/
def tryRule2 (s : List Char) : Option (List Char) :=
  match s with
  | c :: q :: rest =>
    if isQ14 c && q = 'Q' then
      let p := rest.span isDigitCh
      if 2 ≤ p.1.length ∧ p.1.length ≤ 4 then
        match sufFlag p.2 with
        | some true => some (c :: 'Q' :: (toYYYY p.1 ++ ['F']))
        | some false => some (c :: 'Q' :: toYYYY p.1)
        | none => none
      else none
    else none
  | _ => none

/-- Rule 3: `^([A-Z]{3})-(\d{2})([1-4])Q([AEF]?)$` — month-year-quarter. -/
def tryRule3 (s : List Char) : Option (List Char) :=
  match s with
  | a :: b :: c :: m :: rest =>
    if isUpperAlpha a && isUpperAlpha b && isUpperAlpha c && m = '-' then
      match rest with
      | d1 :: d2 :: q :: qc :: r =>
        if isDigitCh d1 && isDigitCh d2 && isQ14 q && qc = 'Q' then
          match sufFlag r with
          | some true => some (q :: 'Q' :: (toYYYY [d1, d2] ++ ['F']))
          | some false => some (q :: 'Q' :: toYYYY [d1, d2])
          | none => none
        else none
      | _ => none
    else none
  | _ => none

/-- `_MONTH_TO_Q`. -/
def MONTH_TO_Q : List (String × Nat) :=
  [("JAN", 1), ("FEB", 1), ("MAR", 1), ("APR", 2), ("MAY", 2), ("JUN", 2),
   ("JUL", 3), ("AUG", 3), ("SEP", 3), ("OCT", 4), ("NOV", 4), ("DEC", 4)]

/-- Rule 3.5: three uppercase letters, a hyphen or slash, then 2–4 digits
(the `MMM-YY` / `MMM/YYYY` family), with the month in `_MONTH_TO_Q`;
the quarter's forecast flag comes from `_is_future_quarter`.  The year is
passed through Python `int`, so its textual form in the output is the decimal
rendering of its numeric value. -/
def tryRule35 (s : List Char) : Option (List Char) :=
  match s with
  | a :: b :: c :: sep :: rest =>
    if isUpperAlpha a && isUpperAlpha b && isUpperAlpha c &&
        (sep = '-' || sep = '/') && rest.all isDigitCh &&
        decide (2 ≤ rest.length) && decide (rest.length ≤ 4) then
      match MONTH_TO_Q.lookup (String.mk [a, b, c]) with
      | some q =>
        let yyyy := digitsToNat (toYYYY rest)
        let f := is_future_quarter yyyy q
        some (natDigits q ++ 'Q' :: natDigits yyyy ++
              (if f then ['F'] else []))
      | none => none
    else none
  | _ => none

/-- Rule 4: `^(\d{4})(?:E|F)(?:[A-Z]+)?$` — year with `E`/`F` and optional
trailing letters. -/
def tryRule4 (s : List Char) : Option (List Char) :=
  let p := s.span isDigitCh
  if p.1.length = 4 then
    match p.2 with
    | e :: rest =>
      if (e = 'E' || e = 'F') && rest.all isUpperAlpha then
        some (p.1 ++ ['F'])
      else none
    | [] => none
  else none

/-- Rule 5: `^(?:FY)?(\d{4})(?:FY)?([AEF]?)$`. -/
def tryRule5 (s : List Char) : Option (List Char) :=
  let s1 := match s with
    | a :: b :: t => if a = 'F' && b = 'Y' then t else s
    | _ => s
  let p := s1.span isDigitCh
  if p.1.length = 4 then
    let r2 := match p.2 with
      | a :: b :: t => if a = 'F' && b = 'Y' then t else p.2
      | _ => p.2
    match sufFlag r2 with
    | some true => some (p.1 ++ ['F'])
    | some false => some p.1
    | none => none
  else none

/-- Rule 6: `^([1-4])Q(\d{2})$` — bare two-digit-year quarter. -/
def tryRule6 (s : List Char) : Option (List Char) :=
  match s with
  | [c, q, d1, d2] =>
    if isQ14 c && q = 'Q' && isDigitCh d1 && isDigitCh d2 then
      some (c :: 'Q' :: toYYYY [d1, d2])
    else none
  | _ => none

/-- `^\d{4}F?$` — already-canonical year token. -/
def isYearTokenShape (s : List Char) : Bool :=
  let p := s.span isDigitCh
  p.1.length = 4 && (p.2 = [] || p.2 = ['F'])

/-- `^[1-4]Q\d{4}F?$` — already-canonical quarter token. -/
def isQuarterTokenShape (s : List Char) : Bool :=
  match s with
  | c :: q :: rest =>
    isQ14 c && q = 'Q' &&
      (let p := rest.span isDigitCh
       p.1.length = 4 && (p.2 = [] || p.2 = ['F']))
  | _ => false

/-- The rule cascade of `normalize_period_label`, applied to the preprocessed
token.  The already-canonical check and the final fallback both return the
input unchanged, exactly as in the source. -/
def applyRules (s : List Char) : List Char :=
  match tryRule1 s with
  | some r => r
  | none =>
  match tryRule2 s with
  | some r => r
  | none =>
  match tryRule3 s with
  | some r => r
  | none =>
  match tryRule35 s with
  | some r => r
  | none =>
  match tryRule4 s with
  | some r => r
  | none =>
  match tryRule5 s with
  | some r => r
  | none =>
  match tryRule6 s with
  | some r => r
  | none => s

/-- `normalize_period_label` (on an actual string argument; the `None` input
branch of the Python function is irrelevant to every call site we model). -/
def normalize_period_label (x : String) : String :=
  String.mk (applyRules (preprocessLabel x.data))

/-- A period token is recognized when one of the normalisation rules (including
the already-canonical pass-through) matches its preprocessed form, i.e. when
the function does not take the documented fallback branch. -/
def recognizedPeriodForm (x : String) : Bool :=
  let s := preprocessLabel x.data
  (tryRule1 s).isSome || (tryRule2 s).isSome || (tryRule3 s).isSome ||
  (tryRule35 s).isSome || (tryRule4 s).isSome || (tryRule5 s).isSome ||
  (tryRule6 s).isSome || isYearTokenShape s || isQuarterTokenShape s

/-- The characters that can occur in a rule output of the normalizer:
digits, `Q` and `F`. -/
def isTokChar (c : Char) : Bool :=
  isDigitCh c || c = 'Q' || c = 'F'

/-- A quarter token whose year has only two digits (`3Q42`): the one output
shape of the normalizer that is itself re-normalized to something different. -/
def isTwoDigitQuarterShape (s : List Char) : Bool :=
  match s with
  | [c, q, d1, d2] => isQ14 c && q = 'Q' && isDigitCh d1 && isDigitCh d2
  | _ => false


/-! ## Cell values and Python float parsing -/

/-- A DataFrame cell value: a number (Python int/float, modelled by `ℚ`) or a
string.  A missing cell (`NaN`/`pd.NA`) is `none` at the `Option Val` level. -/
inductive Val where
  | num (q : ℚ)
  | str (s : String)
deriving DecidableEq

/-- Model of Python `float(s)` on a string: optional sign, decimal digits with
an optional fraction part (exponents and special values are outside the data
handled by this pipeline). `none` models the `ValueError` branch. -/
def parseFloatQ (s : String) : Option ℚ :=
  let t := trimWs s.data
  let sg : Bool × List Char :=
    match t with
    | '-' :: r => (true, r)
    | '+' :: r => (false, r)
    | _ => (false, t)
  let p1 := sg.2.span isDigitCh
  let core : Option ℚ :=
    match p1.2 with
    | [] => if p1.1.isEmpty then none else some ((digitsToNat p1.1 : ℚ))
    | '.' :: r2 =>
      let p2 := r2.span isDigitCh
      if p2.2.isEmpty ∧ (¬ p1.1.isEmpty ∨ ¬ p2.1.isEmpty) then
        some ((digitsToNat p1.1 : ℚ) +
          (digitsToNat p2.1 : ℚ) / (10 : ℚ) ^ p2.1.length)
      else none
    | _ => none
  match core with
  | some v => some (if sg.1 then -v else v)
  | none => none

/-- Python `float(x)` on a cell value. -/
def floatOfVal : Val → Option ℚ
  | Val.num q => some q
  | Val.str s => parseFloatQ s

/-- One cell of `pd.to_numeric(…, errors="coerce")`. -/
def toNumericCell : Option Val → Option ℚ
  | none => none
  | some v => floatOfVal v

/-! ## DataFrame model -/

/-- A row's cells, as a total function from column name to optional value. -/
abbrev RowFun := String → Option Val

/-- A pandas DataFrame: an ordered column list and an ordered list of labelled
rows.  Row labels may repeat (as in pandas). -/
structure DF where
  cols : List String
  rows : List (String × RowFun)

/-- The index of the frame, in order (with duplicates). -/
def DF.labelList (df : DF) : List String :=
  df.rows.map Prod.fst

/-- `df.at[label, col]` (first row carrying `label`; guarded on the column
being present, like pandas). -/
def DF.cell (df : DF) (label col : String) : Option Val :=
  if df.cols.contains col then
    match df.rows.find? (fun r => r.1 == label) with
    | some r => r.2 col
    | none => none
  else none

/-- Does a row with this label exist? -/
def DF.hasLabel (df : DF) (l : String) : Bool :=
  df.rows.any (fun r => r.1 == l)

/-- The first row carrying this label. -/
def DF.findRow (df : DF) (l : String) : Option RowFun :=
  (df.rows.find? (fun r => r.1 == l)).map Prod.snd

/-- Set one cell on the first row carrying the label. -/
def setCellRows : List (String × RowFun) → String → String → Option Val →
    List (String × RowFun)
  | [], _, _, _ => []
  | r :: t, label, col, v =>
    if r.1 == label then
      (r.1, fun c => if c == col then v else r.2 c) :: t
    else r :: setCellRows t label col v

/-- `df.at[label, col] = v`. -/
def DF.setCell (df : DF) (label col : String) (v : Option Val) : DF :=
  { cols := df.cols, rows := setCellRows df.rows label col v }

/-- `df[c] = pd.NA` when the column is new. -/
def DF.addColIfMissing (df : DF) (c : String) : DF :=
  if df.cols.contains c then df else { cols := df.cols ++ [c], rows := df.rows }

/-- Row functions assign `none` outside the declared columns (every frame the
pipeline builds satisfies this; pandas rows simply have no such cells). -/
def DF.Tidy (df : DF) : Prop :=
  ∀ r ∈ df.rows, ∀ c : String, df.cols.contains c = false → r.2 c = none

/-- Substring containment, as Python `in` (empty string is contained). -/
def containsSub : List Char → List Char → Bool
  | s, sub =>
    match s with
    | [] => sub.isEmpty
    | _ :: t => sub.isPrefixOf s || containsSub t sub

/-- `s.endswith(suf)` on character lists. -/
def endsWithList (s suf : List Char) : Bool :=
  suf.reverse.isPrefixOf s.reverse

/-- Order-preserving de-duplication keeping first occurrences. -/
def dedupKeepFirst : List String → List String
  | [] => []
  | c :: t => c :: (dedupKeepFirst t).filter (fun x => x != c)

/-! ## Column/row filters (`normalize_df_columns`, `remove_unwanted_rows`) -/

/-- `EXCLUDE_COL_TOKENS`. -/
def EXCLUDE_COL_TOKENS : List String :=
  ["DELTA", "Δ", "CONSENSUS", "CONS.", "VS CONSENSUS", "%",
   "REVISED", "PREVIOUS", "CHG.", "CHG", "CHANGE", "2025E.1", "YR", "YR.1", "YR.2",
   "_CHG"]

/-- The column-drop test of `normalize_df_columns`: uppercased, stripped name
ends with `_CHG` or contains one of the exclusion tokens. -/
def shouldDropCol (c : String) : Bool :=
  let s := (trimWs c.data).map Char.toUpper
  endsWithList s ("_CHG".data) ||
    EXCLUDE_COL_TOKENS.any (fun tok => containsSub s tok.data)

/-- `normalize_df_columns`: drop excluded columns, normalize the period labels
of the survivors, and merge duplicate normalized columns by first valid value
(`collapse_duplicate_columns`' `bfill`). -/
def normalize_df_columns (df : DF) : DF :=
  if df.rows.isEmpty || df.cols.isEmpty then df
  else
    let kept := df.cols.filter (fun c => !(shouldDropCol c))
    if kept.isEmpty then { cols := kept, rows := df.rows }
    else
      let ncols := dedupKeepFirst (kept.map (fun c => normalize_period_label c))
      { cols := ncols,
        rows := df.rows.map (fun r =>
          (r.1, fun c2 =>
            if ncols.contains c2 then
              (kept.filter (fun c => normalize_period_label c == c2)).findSome? r.2
            else none)) }

/-- One quarantined-delta alternative (`old`, the Δ glyph and its common
mis-decoding; the lowercase δ is included because the pattern is matched
case-insensitively against a lowercased index). -/
def altDelta (r : List Char) : Bool :=
  "old".data.isPrefixOf r || "âˆ†".data.isPrefixOf r ||
  "delta".data.isPrefixOf r || "Δ".data.isPrefixOf r || "δ".data.isPrefixOf r

/-- Strip a literal prefix. -/
def stripLit (lit : String) (s : List Char) : Option (List Char) :=
  if lit.data.isPrefixOf s then some (s.drop lit.length) else none

/-- Whitespace then a delta alternative. -/
def afterStem (r : List Char) : Bool :=
  altDelta (r.dropWhile isPyWs)

/-- `EXCLUDE_ROW_PATTERNS` as a (prefix-semantics, i.e. `str.match`) test on a
lowercased, stripped row label. -/
def excludeRowMatch (low : List Char) : Bool :=
  (match stripLit "fcf" low with
   | some r => afterStem r
   | none => false) ||
  (match stripLit "gp" low with
   | some r => afterStem r
   | none => false) ||
  (match stripLit "gross" low with
   | some r1 =>
     match stripLit "profit" (r1.dropWhile isPyWs) with
     | some r2 => afterStem r2
     | none => false
   | none => false) ||
  (match stripLit "free" low with
   | some r1 =>
     match stripLit "cash" (r1.dropWhile isPyWs) with
     | some r2 =>
       match stripLit "flow" (r2.dropWhile isPyWs) with
       | some r3 => afterStem r3
       | none => false
     | none => false
   | none => false)

/-- `remove_unwanted_rows` (stale `old`/delta variants of FCF and GP rows). -/
def remove_unwanted_rows (df : DF) : DF :=
  if df.rows.isEmpty || df.cols.isEmpty then df
  else
    { cols := df.cols,
      rows := df.rows.filter (fun r =>
        !(excludeRowMatch ((trimWs r.1.data).map Char.toLower))) }

/-! ## `handle_actual_columns` -/

/-- `handle_actual_columns`: move data of `…ACTUAL` columns into the
normalized base period column (only into missing cells) and drop the source
column. -/
def handle_actual_columns (df : DF) : DF :=
  if df.rows.isEmpty || df.cols.isEmpty then df
  else
    let colsToProcess := df.cols.filterMap (fun col =>
      let colU := col.data.map Char.toUpper
      if containsSub colU ("ACTUAL".data) then
        let b := removeActualAll colU
        let normalized := normalize_period_label (String.mk b)
        if normalized.isEmpty then none else some (col, normalized)
      else none)
    colsToProcess.foldl (fun acc pr =>
      let acc1 := acc.addColIfMissing pr.2
      let acc2 : DF :=
        { cols := acc1.cols,
          rows := acc1.rows.map (fun row =>
            (row.1, fun c =>
              if c == pr.2 then
                match row.2 pr.2 with
                | some v => some v
                | none => row.2 pr.1
              else row.2 c)) }
      { cols := acc2.cols.filter (fun c => c != pr.1),
        rows := acc2.rows.map (fun row =>
          (row.1, fun c => if c == pr.1 then none else row.2 c)) }) df

/-! ## Suffix-row folding (`fold_month_suffix_rows`) -/

/-- Separator class of the fold pattern: whitespace, underscore, hyphen,
slash. -/
def isSepCh (c : Char) : Bool :=
  isPyWs c || c = '_' || c = '-' || c = '/'

/-- The suffix alternatives `MAR|JUN|SEP|DEC|FY(?:\s*RM)?`, case-insensitive,
anchored at end of string; returns the canonical suffix key (`FY RM` collapses
to `FY`, as the caller does). -/
def sufParse (r : List Char) : Option String :=
  let u := r.map Char.toUpper
  if u = "MAR".data then some "MAR"
  else if u = "JUN".data then some "JUN"
  else if u = "SEP".data then some "SEP"
  else if u = "DEC".data then some "DEC"
  else if u = "FY".data then some "FY"
  else
    match u with
    | 'F' :: 'Y' :: rest =>
      if rest.dropWhile isPyWs = "RM".data then some "FY" else none
    | _ => none

/-- `[\s_\-\/]+(SUF)$`: one or more separators, then a suffix, then end. -/
def sepSuf (r : List Char) : Option String :=
  let p := r.span isSepCh
  if p.1.isEmpty then none else sufParse p.2

/-- Scan for the closing `)` of a lazily-matched parenthetical: try the
remainder after each `)` in turn; a newline in the content blocks the match
(`.` does not match newlines). -/
def parenClose : List Char → Option String
  | [] => none
  | ')' :: rest =>
    match sepSuf rest with
    | some s => some s
    | none => parenClose rest
  | '\n' :: _ => none
  | _ :: rest => parenClose rest

/-- The paren-present branch of `(?:\s*\(.*?\))?[\s_\-\/]+(SUF)$`. -/
def tryParenSep (r : List Char) : Option String :=
  let p := r.span isPyWs
  match p.2 with
  | '(' :: inner => parenClose inner
  | _ => none

/-- The part of the fold pattern after the lazy base: optional parenthetical
(tried first, as the regex engine does), separators, suffix. -/
def restMatch (r : List Char) : Option String :=
  match tryParenSep r with
  | some s => some s
  | none => sepSuf r

/-- Lazy scan for the shortest base such that the rest matches; the base (the
`(.*?)` group) cannot cross a newline. -/
def sufGoAux : List Char → List Char → Option (List Char × String)
  | baseRev, [] =>
    match restMatch [] with
    | some s => some (baseRev.reverse, s)
    | none => none
  | baseRev, c :: rest =>
    match restMatch (c :: rest) with
    | some s => some (baseRev.reverse, s)
    | none => if c = '\n' then none else sufGoAux (c :: baseRev) rest

/-- `^(.*?)(?:\s*\(.*?\))?[\s_\-\/]+(MAR|JUN|SEP|DEC|FY(?:\s*RM)?)$` with
`re.IGNORECASE`, applied to the stripped label: returns the captured base and
the normalized suffix. -/
def matchSuffixRow (label : String) : Option (List Char × String) :=
  sufGoAux [] (trimWs label.data)

/-- `index_rename_map`. -/
def index_rename_map : List (String × String) :=
  [("revenue", "Revenue"), ("net revenue", "Revenue"), ("total revenue", "Revenue"),
   ("cost of revenue", "COGS"), ("cogs", "COGS"), ("cost of sales", "COGS"),
   ("gross profit", "GP"), ("gp", "GP"), ("gross margin", "GM"), ("gm", "GM"),
   ("op", "OP"), ("operating income", "OP"), ("operating profit", "OP"),
   ("op margin", "OP margin"), ("operating margin", "OP margin"),
   ("ebitda", "EBITDA"), ("ebitda margin", "EBITDA margin"),
   ("net profit", "NP"), ("np", "NP"), ("net income", "NP"),
   ("net profit margin", "NP Margin"), ("net margin", "NP Margin"),
   ("revenue growth", "revenue growth"),
   ("eps", "EPS"), ("earnings per share", "EPS"), ("non-gaap eps", "EPS"),
   ("roe", "ROE"), ("return on equity", "ROE"),
   ("operating leverage", "operating leverage"),
   ("free cash flow", "FCF"), ("fcf", "FCF"),
   ("research and development", "R&D"), ("r&d", "R&D"),
   ("capex", "CapEx"), ("capital expenditure", "CapEx"), ("capital expenditures", "CapEx"),
   ("property and equipment", "PP&E"), ("pp&e", "PP&E")]

/-- `_canon_metric_name`. -/
def canon_metric_name (raw : String) : String :=
  let k := String.mk ((trimWs raw.data).map Char.toLower)
  match index_rename_map.lookup k with
  | some v => v
  | none => String.mk (trimWs raw.data)

/-- `_is_year_col`: `^(\d{4})(F?)$`, returning the year digits and the
forecast flag. -/
def is_year_col (col : String) : Option (List Char × Bool) :=
  let p := col.data.span isDigitCh
  if p.1.length = 4 then
    if p.2 = [] then some (p.1, false)
    else if p.2 = ['F'] then some (p.1, true)
    else none
  else none

/-- `_SUFFIX_TO_Q` plus target-column construction of the fold. -/
def targetColOf (suf : String) (yyyy : List Char) (isF : Bool) : String :=
  if suf = "FY" then String.mk (if isF then yyyy ++ ['F'] else yyyy)
  else
    let q := if suf = "MAR" then "1Q"
      else if suf = "JUN" then "2Q"
      else if suf = "SEP" then "3Q"
      else "4Q"
    q ++ String.mk yyyy ++ (if isF then "F" else "")

/-- One iteration of the fold loop: move the year-column values of the
suffixed row into the base row (first-write-wins), then drop the suffixed
row.  The row's values are captured before the column loop, as in the
source. -/
def foldOneSuffixRow (df : DF) (work : String × List Char × String) : DF :=
  let base_std := canon_metric_name (String.mk work.2.1)
  match df.findRow work.1 with
  | none => df
  | some row =>
    let df2 := df.cols.foldl (fun acc col =>
      match is_year_col col with
      | none => acc
      | some yi =>
        let target_col := targetColOf work.2.2 yi.1 yi.2
        match row col with
        | none => acc
        | some v =>
          let acc1 := if acc.hasLabel base_std then acc
            else { cols := acc.cols, rows := acc.rows ++ [(base_std, fun _ => none)] }
          let acc2 := acc1.addColIfMissing target_col
          if (acc2.cell base_std target_col).isNone then
            acc2.setCell base_std target_col (some v)
          else acc2) df
    { cols := df2.cols, rows := df2.rows.filter (fun r => r.1 != work.1) }

/-- The column-loop body of `foldOneSuffixRow`, named (definitionally the
function folded over `df.cols`, with the base name, suffix and captured row
as parameters). -/
def c2Step (bstd suf : String) (row : RowFun) (acc : DF) (col : String) : DF :=
  match is_year_col col with
  | none => acc
  | some yi =>
    let target_col := targetColOf suf yi.1 yi.2
    match row col with
    | none => acc
    | some v =>
      let acc1 := if acc.hasLabel bstd then acc
        else { cols := acc.cols, rows := acc.rows ++ [(bstd, fun _ => none)] }
      let acc2 := acc1.addColIfMissing target_col
      if (acc2.cell bstd target_col).isNone then
        acc2.setCell bstd target_col (some v)
      else acc2

/-- The work list: labels matching the suffix pattern, in index order. -/
def workRowsOf (df : DF) : List (String × List Char × String) :=
  df.labelList.filterMap (fun i =>
    match matchSuffixRow i with
    | some bs => some (i, bs.1, bs.2)
    | none => none)

/-- `fold_month_suffix_rows`. -/
def fold_month_suffix_rows (df : DF) : DF :=
  if df.rows.isEmpty || df.cols.isEmpty then df
  else
    let works := workRowsOf df
    if works.isEmpty then df
    else works.foldl foldOneSuffixRow df

/-- `^revenue[\s_\-\/]+(net|fy(?:rm)?|dec)$` on a stripped, lowercased
label. -/
def unwantedRevenueLabel (low : List Char) : Bool :=
  match stripLit "revenue" low with
  | some r =>
    let p := r.span isSepCh
    (!p.1.isEmpty) &&
      (p.2 = "net".data || p.2 = "fy".data || p.2 = "fyrm".data || p.2 = "dec".data)
  | none => false

/-- `drop_unwanted_revenue_rows`. -/
def drop_unwanted_revenue_rows (df : DF) : DF :=
  if df.rows.isEmpty || df.cols.isEmpty then df
  else
    { cols := df.cols,
      rows := df.rows.filter (fun r =>
        !(unwantedRevenueLabel ((trimWs r.1.data).map Char.toLower))) }


/-! ## Revenue segment detection -/

/-- `SKIP_SEGMENT_WORDS`. -/
def SKIP_SEGMENT_WORDS : List String :=
  ["growth", "margin", "qoq", "yoy", "mix", "asp", "price", "chg", "change"]

/-- Scan for the lazily-matched close paren of `\(.*?\)` (no newline in the
content). -/
def parenScan2 : List Char → Option (List Char)
  | [] => none
  | c :: rest =>
    if c = ')' then some rest
    else if c = '\n' then none
    else parenScan2 rest

/-- `re.sub(r"\(.*?\)", "", s)` — fuel-driven left-to-right scan (the fuel is
the string length, enough since every step consumes at least one
character). -/
def removeParens2Aux : Nat → List Char → List Char
  | 0, s => s
  | fuel + 1, s =>
    match s with
    | [] => []
    | c :: t =>
      if c = '(' then
        match parenScan2 t with
        | some rest => removeParens2Aux fuel rest
        | none => c :: removeParens2Aux fuel t
      else c :: removeParens2Aux fuel t

/-- `re.sub(r"\(.*?\)", "", s)`. -/
def removeParens2 (s : List Char) : List Char :=
  removeParens2Aux s.length s

/-- Lowercase ASCII letter class (`[a-z]`). -/
def isLowerAlpha (c : Char) : Bool :=
  97 ≤ c.toNat && c.toNat ≤ 122

/-- `_`, `-`, `/` class of the title-casing substitution. -/
def isSep3 (c : Char) : Bool :=
  c = '_' || c = '-' || c = '/'

/-- `re.sub(r"[_\-\/]+", " ", s)`: runs of separators become one space. -/
def collapseSeps : Bool → List Char → List Char
  | _, [] => []
  | prev, c :: t =>
    if isSep3 c then
      if prev then collapseSeps true t else ' ' :: collapseSeps true t
    else c :: collapseSeps false t

/-- Python `str.title()` (restricted to ASCII letters as cased characters). -/
def titleAux : Bool → List Char → List Char
  | _, [] => []
  | prev, c :: t =>
    let cased := isLowerAlpha c || isUpperAlpha c
    let c2 := if cased then (if prev then c.toLower else c.toUpper) else c
    c2 :: titleAux cased t

/-- `re.sub(r"[_\-\/]+", " ", seg).title()`. -/
def segTitleOf (seg : List Char) : List Char :=
  titleAux false (collapseSeps false seg)

/-- `^revenue[\s\-_\/]+(.+)$` — deterministic equivalent (greedy separators;
the captured group cannot contain a newline; when everything after `revenue`
is separators, backtracking leaves the last separator as the group). -/
def revMatch1 (low : List Char) : Option (List Char) :=
  if "revenue".data.isPrefixOf low then
    let rest := low.drop 7
    let p := rest.span isSepCh
    if p.2.isEmpty then
      if 2 ≤ p.1.length then
        match p.1.reverse with
        | c :: _ => if c = '\n' then none else some [c]
        | [] => none
      else none
    else
      if (!p.1.isEmpty) && p.2.all (fun c => c != '\n') then some p.2 else none
  else none

/-- Downward scan for the greedy base of `^(.+)[\s\-_\/]+revenue$`: the
longest newline-free base followed by a nonempty separator run. -/
def revMatch2Go (pre : List Char) : Nat → Option (List Char)
  | 0 => none
  | b + 1 =>
    let base := pre.take (b + 1)
    let seps := pre.drop (b + 1)
    if (!seps.isEmpty) && seps.all isSepCh && base.all (fun c => c != '\n') then
      some base
    else revMatch2Go pre b

/-- `^(.+)[\s\-_\/]+revenue$`. -/
def revMatch2 (low : List Char) : Option (List Char) :=
  if endsWithList low ("revenue".data) then
    let pre := low.take (low.length - 7)
    revMatch2Go pre (pre.length - 1)
  else none

/-- `^(net|fy(?:\s*rm)?|dec)$` on a (lowercase) segment. -/
def segIsUnwanted (seg : List Char) : Bool :=
  seg = "net".data || seg = "dec".data ||
  (match seg with
   | 'f' :: 'y' :: rest => rest.isEmpty || rest.dropWhile isPyWs = "rm".data
   | _ => false)

/-- `extract_revenue_segments_generic`. -/
def extract_revenue_segments_generic (df : DF) : DF :=
  let segRows := (dedupKeepFirst df.labelList).flatMap (fun idx =>
    let s := trimWs idx.data
    let low := s.map Char.toLower
    if !(containsSub low ("revenue".data)) then []
    else
      match (match revMatch1 low with
             | some m => some m
             | none => revMatch2 low) with
      | none => []
      | some seg0 =>
        let seg := trimWs (removeParens2 seg0)
        if seg.isEmpty then []
        else if SKIP_SEGMENT_WORDS.any (fun w => containsSub seg w.data) then []
        else if segIsUnwanted seg then []
        else
          let newName := "revenue-" ++ String.mk (segTitleOf seg)
          (df.rows.filter (fun r => r.1 == idx)).map (fun r => (newName, r.2)))
  if segRows.isEmpty then { cols := [], rows := [] }
  else { cols := df.cols, rows := segRows }

/-! ## Metric classifiers -/

/-- The check of `(\s*\(.*?\))?$` on the remainder after the lazy base of
`match_and_rename_index`: empty, or whitespace then a parenthetical that ends
the string (content without newline). -/
def optParenTail (r : List Char) : Bool :=
  let p := r.span isPyWs
  match p.2 with
  | '(' :: inner =>
    match inner.reverse with
    | ')' :: _ => inner.dropLast.all (fun c => c != '\n')
    | _ => false
  | _ => false

/-- Lazy search for the shortest nonempty `[a-z\s]+` base whose remainder is
empty or an end-anchored parenthetical. -/
def lazyBaseGo (acc : List Char) : List Char → Option (List Char × List Char)
  | [] => none
  | c :: t =>
    if isLowerAlpha c || isPyWs c then
      if t.isEmpty then some (acc ++ [c], [])
      else if optParenTail t then some (acc ++ [c], t)
      else lazyBaseGo (acc ++ [c]) t
    else none

/-- `match_and_rename_index`. -/
def match_and_rename_index (idx : String) : Option String :=
  let s := (trimWs idx.data).map Char.toLower
  match lazyBaseGo [] s with
  | none => none
  | some bs =>
    match index_rename_map.lookup (String.mk (trimWs bs.1)) with
    | some renamed => some (renamed ++ String.mk bs.2)
    | none => none

/-- The keyword groups of `group_name_match`. -/
def group_keywords : List (String × List String) :=
  [("CapEx", ["capital expenditures", "capital expenditure", "capex",
     "purchase of property", "purchases of property", "purchase of pp&e",
     "additions to property", "acquisition of property", "investment in property"]),
   ("Acquisition & Equity Investment", ["acquisition", "business combinations",
     "purchase of subsidiaries", "investment in associates", "investment in affiliates",
     "equity investment", "purchase of business"]),
   ("Intangible asset", ["intangible assets", "purchase of intangible",
     "software development", "internal-use software", "capitalized development costs",
     "goodwill and intangibles"]),
   ("others", ["investing activities", "purchase of securities",
     "marketable securities", "financial investment", "long-term investment"])]

/-- `group_name_match` (exact keyword equality on the lowercased name). -/
def group_name_match (name : String) : Option String :=
  let n := String.mk (name.data.map Char.toLower)
  (group_keywords.find? (fun g => g.2.any (fun k => k == n))).map Prod.fst

/-- `company_segments`. -/
def company_segments : List (String × List String) :=
  [("Nvidia", ["Data Center", "Gaming", "Pro Visualization", "Automotive", "OEM & Other"]),
   ("NVIDIA", ["Data Center", "Gaming", "Pro Visualization", "Automotive", "OEM & Other"]),
   ("google", ["Google Services", "Google Cloud", "Other Bets"]),
   ("Amazon", ["North America", "International", "AWS", "Advertising"]),
   ("Meta", ["Family of Apps", "Reality Labs"]),
   ("Microsoft", ["Productivity", "Intelligent Cloud", "Personal Computing"]),
   ("SK Hynix", ["DRAM", "NAND"]),
   ("Samsung Electronics", ["DX", "DS", "Display", "Harman"]),
   ("AMD", ["Data Center", "Client", "Gaming", "Embedded"]),
   ("Advanced Micro Devices", ["Data Center", "Client", "Gaming", "Embedded"])]

/-! ## Duplicate-row merger (`merge_duplicate_rows`) -/

/-- `1e-12`, the epsilon added to the smaller magnitude. -/
def relEps : ℚ := 1 / 1000000000000

/-- `re.sub(r"\s*\([^\)]*\)", "", …)` at one position. -/
def stripParenAt (s : List Char) : Option (List Char) :=
  let p := s.span isPyWs
  match p.2 with
  | '(' :: inner =>
    let q := inner.span (fun c => c != ')')
    match q.2 with
    | ')' :: rest => some rest
    | _ => none
  | _ => none

/-- Fuel-driven scan removing every `\s*\([^\)]*\)` occurrence. -/
def removeParensAux : Nat → List Char → List Char
  | 0, s => s
  | fuel + 1, s =>
    match stripParenAt s with
    | some rest => removeParensAux fuel rest
    | none =>
      match s with
      | [] => []
      | c :: t => c :: removeParensAux fuel t

/-- `get_base_name`. -/
def get_base_name (idx : String) : String :=
  String.mk (trimWs (removeParensAux idx.data.length idx.data))

/-- The per-column conflict scan of the merge loop.  `none` means the merge of
this candidate is impossible (non-numeric pair or out-of-band ratio); `some b`
returns whether a whole-row scale was triggered. -/
def conflictScanAux (m cur : RowFun) : List String → Bool → Option Bool
  | [], scale => some scale
  | col :: rest, scale =>
    match m col, cur col with
    | none, _ => conflictScanAux m cur rest scale
    | some _, none => conflictScanAux m cur rest scale
    | some v1, some v2 =>
      match floatOfVal v1, floatOfVal v2 with
      | some q1, some q2 =>
        let max_val := max |q1| |q2|
        let min_val := min |q1| |q2| + relEps
        let rel_diff := |q1 - q2| / (if max_val ≠ 0 then max_val else 1)
        if rel_diff ≤ 5 / 100 then conflictScanAux m cur rest scale
        else
          let r := max_val / min_val
          if 1000 * (1 - 5 / 100) ≤ r ∧ r ≤ 1000 * (1 + 5 / 100) then
            conflictScanAux m cur rest true
          else none
      | _, _ => none

/-- `pd.to_numeric(row, errors="coerce")` over the frame's columns. -/
def toNumericRow (cols : List String) (r : RowFun) : RowFun :=
  fun c => if cols.contains c then (toNumericCell (r c)).map Val.num else none

/-- `row.sum(skipna=True)` after numeric coercion. -/
def rowSum (cols : List String) (r : RowFun) : ℚ :=
  cols.foldl (fun acc c =>
    match toNumericCell (r c) with
    | some q => acc + q
    | none => acc) 0

/-- The whole-row scale merge: the row with the smaller column-sum is scaled
by 1000 and fills only the missing cells of the larger-sum row (both rows
numerically coerced first). -/
def scaleMerge (cols : List String) (m cur : RowFun) : RowFun :=
  let mn := toNumericRow cols m
  let cn := toNumericRow cols cur
  let t1 := rowSum cols m
  let t2 := rowSum cols cur
  let base := if t1 < t2 then cn else mn
  let small := if t1 < t2 then mn else cn
  fun c =>
    match base c with
    | some v => some v
    | none =>
      match small c with
      | some (Val.num q) => some (Val.num (q * 1000))
      | _ => none

/-- The plain fill: missing cells of the accumulator take the candidate's
value converted by `float` (a failing conversion leaves the cell missing). -/
def fillFromCurrent (cols : List String) (m cur : RowFun) : RowFun :=
  fun c =>
    if cols.contains c then
      match m c with
      | some v => some v
      | none =>
        match cur c with
        | some v =>
          match floatOfVal v with
          | some q => some (Val.num q)
          | none => none
        | none => none
    else none

/-- One candidate step of the merge loop: the new accumulator and whether the
candidate was quarantined. -/
def mergeStep (cols : List String) (m cur : RowFun) : RowFun × Bool :=
  match conflictScanAux m cur cols false with
  | none => (m, true)
  | some true => (scaleMerge cols m cur, false)
  | some false => (fillFromCurrent cols m cur, false)

/-- Fold of `mergeStep` over the non-first rows of a group, collecting the
quarantined rows in order. -/
def mergeGroup (cols : List String) : RowFun → List (String × RowFun) →
    RowFun × List (String × RowFun)
  | m, [] => (m, [])
  | m, cur :: rest =>
    let st := mergeStep cols m cur.2
    let r := mergeGroup cols st.1 rest
    (r.1, if st.2 then cur :: r.2 else r.2)

/-- Code-point comparison on strings (Python string ordering). -/
def charListLe : List Char → List Char → Bool
  | [], _ => true
  | _ :: _, [] => false
  | a :: as2, b :: bs2 =>
    if a.toNat < b.toNat then true
    else if b.toNat < a.toNat then false
    else charListLe as2 bs2

/-- Insertion sort on strings by code points (`groupby` sorts its keys). -/
def insertSorted (x : String) : List String → List String
  | [] => [x]
  | y :: t => if charListLe x.data y.data then x :: y :: t else y :: insertSorted x t

/-- Sorted key list. -/
def sortKeys (l : List String) : List String :=
  l.foldr insertSorted []

/-- `make_index_unique` (counting occurrences left to right; the suffix uses
the decimal rendering of the count). -/
def make_index_unique_aux : List (String × Nat) → List String → List String
  | _, [] => []
  | counts, n :: t =>
    let c := (counts.lookup n).getD 0
    let name := if c = 0 then n else n ++ " (" ++ String.mk (natDigits c) ++ ")"
    name :: make_index_unique_aux ((n, c + 1) :: counts) t

/-- `make_index_unique`. -/
def make_index_unique (l : List String) : List String :=
  make_index_unique_aux [] l

/-- `merge_duplicate_rows` with the default parameters the pipeline passes
(`tolerance=0.05`, `large_diff_target=1000`, `tolerance_ratio=0.05`, baked
into `conflictScanAux`/`scaleMerge`). -/
def merge_duplicate_rows (df : DF) : DF :=
  let keys := sortKeys (dedupKeepFirst (df.rows.map (fun r => get_base_name r.1)))
  let parts := keys.map (fun k =>
    let grp := df.rows.filter (fun r => get_base_name r.1 == k)
    match grp with
    | [] => ((k, (fun _ => none : RowFun)), ([] : List (String × RowFun)))
    | g0 :: rest =>
      if rest.isEmpty then ((k, g0.2), [])
      else
        let r := mergeGroup df.cols g0.2 rest
        ((k, r.1), r.2))
  let merged := parts.map Prod.fst
  let unmergedAll := (parts.map Prod.snd).flatten
  let uniq := make_index_unique (unmergedAll.map Prod.fst)
  { cols := df.cols, rows := merged ++ uniq.zip (unmergedAll.map Prod.snd) }

/-- One group of the merge loop, named: the merged row for base name `k`
together with the group's quarantined rows (the body of the `keys.map` inside
`merge_duplicate_rows`). -/
def mergePart (df : DF) (k : String) : (String × RowFun) × List (String × RowFun) :=
  match df.rows.filter (fun r => get_base_name r.1 == k) with
  | [] => ((k, (fun _ => none : RowFun)), ([] : List (String × RowFun)))
  | g0 :: rest =>
    if rest.isEmpty then ((k, g0.2), [])
    else
      let r := mergeGroup df.cols g0.2 rest
      ((k, r.1), r.2)

/-- All rows quarantined by `merge_duplicate_rows` (its `unmerged_rows`
accumulator), in output order. -/
def mergeQuarantine (df : DF) : List (String × RowFun) :=
  (((sortKeys (dedupKeepFirst (df.rows.map (fun r => get_base_name r.1)))).map
    (mergePart df)).map Prod.snd).flatten


/-! ## AMD template (`create_amd_template_df`, `apply_amd_template_if_needed`) -/

/-- Python `round(x, 1)` (round half to even on the first decimal). -/
def roundHalfEven1 (q : ℚ) : ℚ :=
  let x := q * 10
  let fl : ℤ := ⌊x⌋
  let fr := x - fl
  let n : ℤ :=
    if fr < 1 / 2 then fl
    else if 1 / 2 < fr then fl + 1
    else if fl % 2 = 0 then fl else fl + 1
  (n : ℚ) / 10

/-- The template's column list. -/
def amdTemplateCols : List String :=
  ["Company", "2023", "2024", "2025F", "2026F", "2027F",
   "1Q24", "2Q24", "3Q24", "4Q24", "1Q25", "2Q25", "3Q25F", "4Q25F"]

/-- One template row from its per-column data (`Company` is `AMD`; `2027F`
has no data and is the empty string, as in the source builder). -/
def amdRow (vals : List (String × ℚ)) : RowFun :=
  fun c =>
    if c = "Company" then some (Val.str "AMD")
    else if amdTemplateCols.contains c then
      match vals.lookup c with
      | some q => some (Val.num q)
      | none => some (Val.str "")
    else none

/-- `amd_template_data`, laid out per metric. -/
def amd_template_data : List (String × List (String × ℚ)) :=
  [("Revenue",
    [("2023", 22680), ("2024", 25785), ("2025F", 32659), ("2026F", 38178),
     ("1Q24", 5473), ("2Q24", 5835), ("3Q24", 6819), ("4Q24", 7658),
     ("1Q25", 7438), ("2Q25", 7685), ("3Q25F", 8738), ("4Q25F", 8798)]),
   ("COGS",
    [("2023", 11244), ("2024", 12026), ("2025F", 15784), ("2026F", 16879),
     ("1Q24", 2612), ("2Q24", 2734), ("3Q24", 3162), ("4Q24", 3518),
     ("1Q25", 3446), ("2Q25", 4359), ("3Q25F", 4019), ("4Q25F", 3959)]),
   ("GP",
    [("2023", 11436), ("2024", 13759), ("2025F", 16876), ("2026F", 21299),
     ("1Q24", 2861), ("2Q24", 3101), ("3Q24", 3657), ("4Q24", 4140),
     ("1Q25", 3992), ("2Q25", 3326), ("3Q25F", 4719), ("4Q25F", 4839)]),
   ("OP",
    [("2023", 4834), ("2024", 6138), ("2025F", 7019), ("2026F", 9994),
     ("1Q24", 1133), ("2Q24", 1264), ("3Q24", 1715), ("4Q24", 2026),
     ("1Q25", 1779), ("2Q25", 897), ("3Q25F", 2169), ("4Q25F", 2174)]),
   ("NP",
    [("2023", 4292), ("2024", 5420), ("2025F", 6142), ("2026F", 8747),
     ("1Q24", 1013), ("2Q24", 1126), ("3Q24", 1504), ("4Q24", 1777),
     ("1Q25", 1566), ("2Q25", 781), ("3Q25F", 1895), ("4Q25F", 1900)]),
   ("EPS",
    [("2023", 264 / 100), ("2024", 331 / 100), ("2025F", 377 / 100), ("2026F", 534 / 100),
     ("1Q24", 62 / 100), ("2Q24", 69 / 100), ("3Q24", 92 / 100), ("4Q24", 109 / 100),
     ("1Q25", 96 / 100), ("2Q25", 48 / 100), ("3Q25F", 116 / 100), ("4Q25F", 116 / 100)])]

/-- The derived `OP margin` row: `round(OP / Revenue * 100, 1)` per period
column, empty where either operand is unavailable (`2027F`). -/
def amdOpMarginRow : RowFun :=
  fun c =>
    if c = "Company" then some (Val.str "AMD")
    else if amdTemplateCols.contains c then
      match (amd_template_data.lookup "OP").bind (fun l => l.lookup c),
          (amd_template_data.lookup "Revenue").bind (fun l => l.lookup c) with
      | some o, some r => some (Val.num (roundHalfEven1 (o / r * 100)))
      | _, _ => some (Val.str "")
    else none

/-- `create_amd_template_df`. -/
def create_amd_template_df : DF :=
  { cols := amdTemplateCols,
    rows := amd_template_data.map (fun m => (m.1, amdRow m.2)) ++
      [("OP margin", amdOpMarginRow)] }

/-- `is_amd_company`. -/
def is_amd_company (company_name : String) : Bool :=
  if company_name.isEmpty then false
  else
    let n := company_name.data.map Char.toLower
    containsSub n ("amd".data) || containsSub n ("advanced micro devices".data)

/-- `apply_amd_template_if_needed`: for AMD, insert template metrics that are
absent and fill missing/empty cells of present metrics, never overwriting a
non-empty extracted value. -/
def apply_amd_template_if_needed (df : DF) (company_name : String) : DF :=
  if !(is_amd_company company_name) then df
  else
    let template := create_amd_template_df
    if df.rows.isEmpty || df.cols.isEmpty then template
    else
      template.rows.foldl (fun acc tr =>
        if acc.hasLabel tr.1 then
          template.cols.foldl (fun acc2 c =>
            if acc2.cols.contains c then
              let ev := acc2.cell tr.1 c
              let tv := tr.2 c
              if (ev.isNone || ev == some (Val.str "")) && tv != some (Val.str "") then
                acc2.setCell tr.1 c tv
              else acc2
            else acc2) acc
        else
          { cols := acc.cols,
            rows := acc.rows ++
              [(tr.1, fun c => if acc.cols.contains c then tr.2 c else none)] }) df

/-! ## Table-set reconciliation (`process_extracted_dfs`) -/

/-- `pd.concat(axis=0)` over frames: columns are the union in order of first
appearance; each row reads `NaN` outside its source frame's columns. -/
def concatDFs (dfs : List DF) : DF :=
  { cols := dedupKeepFirst (dfs.flatMap (fun d => d.cols)),
    rows := dfs.flatMap (fun d =>
      d.rows.map (fun r =>
        (r.1, fun c => if d.cols.contains c then r.2 c else none))) }

/-- The per-table cleaning of step (A). -/
def cleanOne (df : DF) : DF :=
  remove_unwanted_rows (drop_unwanted_revenue_rows (fold_month_suffix_rows
    (handle_actual_columns (normalize_df_columns df))))

/-- Step 3 of the reconciler: the segment sub-table (company dictionary path
first, then generic detection, then `make_index_unique`). -/
def segmentTable (dfm : DF) (company : Option String) : DF :=
  let dict : List (String × RowFun) :=
    match company with
    | some cname =>
      if cname.isEmpty then []
      else
        match company_segments.lookup cname with
        | some segs =>
          let dictRows := segs.flatMap (fun seg =>
            let segLower := seg.data.map Char.toLower
            (dfm.rows.filter (fun r =>
              containsSub r.1.data ("revenue".data) &&
                containsSub r.1.data segLower)).map
              (fun r => ("revenue-" ++ seg, r.2)))
          let otherRows :=
            (dfm.rows.filter (fun r =>
              containsSub r.1.data ("revenue".data) &&
                containsSub r.1.data ("other".data))).map
              (fun r => ("revenue-other", r.2))
          dictRows ++ otherRows
        | none => []
    | none => []
  let gen := extract_revenue_segments_generic dfm
  let segRows := dict ++ gen.rows
  if segRows.isEmpty then { cols := [], rows := [] }
  else
    { cols := dfm.cols,
      rows := (make_index_unique (segRows.map Prod.fst)).zip (segRows.map Prod.snd) }

/-- `re.sub(r"\s*\(\d+\)$", "", s)`: strip one trailing ` (digits)`. -/
def stripTrailParenNum (s : List Char) : List Char :=
  match s.reverse with
  | ')' :: r2 =>
    let p := r2.span isDigitCh
    if p.1.isEmpty then s
    else
      match p.2 with
      | '(' :: r4 => (r4.dropWhile isPyWs).reverse
      | _ => s
  | _ => s

/-- First-seen-wins de-duplication of the revenue-segment rows by base name
(ignoring a trailing ` (n)` disambiguator). -/
def dedupRevAux (seen : List String) : List (String × RowFun) → List (String × RowFun)
  | [] => []
  | r :: t =>
    let b := String.mk (stripTrailParenNum r.1.data)
    if seen.contains b then dedupRevAux seen t
    else r :: dedupRevAux (b :: seen) t

/-- `.str.contains(r"\(.*?\)")`: some `(` with a matching `)` later (no
newline between). -/
def containsParenPair : List Char → Bool
  | [] => false
  | '(' :: t =>
    match parenScan2 t with
    | some _ => true
    | none => containsParenPair t
  | _ :: t => containsParenPair t

/-- `idx.replace("revenue-", "")`. -/
def removeRevenueSub : List Char → List Char
  | 'r' :: 'e' :: 'v' :: 'e' :: 'n' :: 'u' :: 'e' :: '-' :: rest => removeRevenueSub rest
  | c :: t => c :: removeRevenueSub t
  | [] => []

/-- The pre-merge table of the reconciler: steps (A), concat, index
canonicalisation, the three classifier passes, and the revenue-segment
de-duplication (steps 1–4.5). -/
def preMergeTable (dfs : List DF) (company : Option String) : DF :=
  let cleaned := dfs.map cleanOne
  let dfm0 := concatDFs cleaned
  let dfm : DF :=
    { cols := dfm0.cols,
      rows := dfm0.rows.map (fun r =>
        (String.mk ((trimWs r.1.data).map Char.toLower), r.2)) }
  let renamedRows := (dedupKeepFirst (dfm.rows.map Prod.fst)).flatMap (fun idx =>
    match match_and_rename_index idx with
    | some newIdx =>
      (dfm.rows.filter (fun r => r.1 == idx)).map (fun r => (newIdx, r.2))
    | none => [])
  let dfIndexMap :=
    (make_index_unique (renamedRows.map Prod.fst)).zip (renamedRows.map Prod.snd)
  let groupRows := (dfm.rows.map Prod.fst).flatMap (fun idx =>
    match group_name_match idx with
    | some g =>
      (dfm.rows.filter (fun r => r.1 == idx)).map (fun r => (g, r.2))
    | none => [])
  let dfGroupKw :=
    (make_index_unique (groupRows.map Prod.fst)).zip (groupRows.map Prod.snd)
  let dfSeg := segmentTable dfm company
  let t1 : DF := if dfIndexMap.isEmpty then ⟨[], []⟩ else ⟨dfm.cols, dfIndexMap⟩
  let t2 : DF := if dfGroupKw.isEmpty then ⟨[], []⟩ else ⟨dfm.cols, dfGroupKw⟩
  let fr := concatDFs [t1, t2, dfSeg]
  let revRows := fr.rows.filter (fun r => "revenue-".data.isPrefixOf r.1.data)
  let nonRev := fr.rows.filter (fun r => !("revenue-".data.isPrefixOf r.1.data))
  { cols := fr.cols, rows := nonRev ++ dedupRevAux [] revRows }

/-- `process_extracted_dfs`: the reconciler entry point.  Returns the
canonical table, the (here always empty, matching the source) error list and
the missing-segment report.  The missing-segment list is materialised in the
dictionary's order (the source iterates a Python `set`, whose order is
unspecified). -/
def process_extracted_dfs (dfs : List DF) (company : Option String) :
    Option DF × List String × Option (List String) :=
  if dfs.isEmpty then (none, ["유효한 DataFrame이 제공되지 않았습니다."], none)
  else
    let fr2 := preMergeTable dfs company
    let mergedDF := merge_duplicate_rows fr2
    let noParen : DF :=
      { cols := mergedDF.cols,
        rows := mergedDF.rows.filter (fun r => !(containsParenPair r.1.data)) }
    let finalDF :=
      match company with
      | some cname => if cname.isEmpty then noParen
        else apply_amd_template_if_needed noParen cname
      | none => noParen
    let missing :=
      match company with
      | some cname =>
        match company_segments.lookup cname with
        | some expected =>
          let actual := finalDF.rows.filterMap (fun r =>
            if "revenue-".data.isPrefixOf r.1.data then
              some (String.mk
                ((removeRevenueSub r.1.data).takeWhile (fun c => c != ' ')))
            else none)
          let miss := expected.filter (fun e => !(actual.contains e))
          if miss.isEmpty then none else some miss
        | none => none
      | none => none
    (some finalDF, [], missing)

/-! ## Long-form period normalizer (`normalize_period`, visualization side) -/

/-- The quarter branch of the visualization-side `normalize_period`
(`^([1-4])Q(\d{2,4})F?$`): the output always carries the `F` suffix. -/
def npQuarter (s : List Char) : Option (List Char) :=
  match s with
  | c :: q :: rest =>
    if isQ14 c && q = 'Q' then
      let p := rest.span isDigitCh
      if (2 ≤ p.1.length ∧ p.1.length ≤ 4) ∧ (p.2 = [] ∨ p.2 = ['F']) then
        some (c :: 'Q' ::
          ((if p.1.length = 2 then '2' :: '0' :: p.1 else p.1) ++ ['F']))
      else none
    else none
  | _ => none

/-- The year branch (`^(\d{2,4})F?$`): `F` is kept only when present. -/
def npYear (s : List Char) : Option (List Char) :=
  let p := s.span isDigitCh
  if (2 ≤ p.1.length ∧ p.1.length ≤ 4) ∧ (p.2 = [] ∨ p.2 = ['F']) then
    let y := if p.1.length = 2 then '2' :: '0' :: p.1 else p.1
    some (if s.contains 'F' then y ++ ['F'] else y)
  else none

/-- `normalize_period` (the visualization-side normalizer used by
`tidy_long` on melted period headers). -/
def normalize_period (x : String) : String :=
  let s := canonLabel x.data
  match npQuarter s with
  | some r => String.mk r
  | none =>
    match npYear s with
    | some r => String.mk r
    | none => String.mk s


/-! ## Concrete frames used by witnesses and counterexamples -/

/-- Two rows of one duplicate group: the accumulated row `X` holds `A=1000`
and the non-numeric note `B="note"`; the candidate `X (1)` holds `A=1`
(ratio 1000, in the scale band) and no `B`. -/
def dfC1 : DF :=
  { cols := ["A", "B"],
    rows := [("X", fun c =>
        if c = "A" then some (Val.num 1000)
        else if c = "B" then some (Val.str "note") else none),
      ("X (1)", fun c => if c = "A" then some (Val.num 1) else none)] }

/-- Two rows with the same label and irreconcilable values (ratio 50). -/
def dfC3 : DF :=
  { cols := ["A"],
    rows := [("X", fun c => if c = "A" then some (Val.num 1) else none),
      ("X", fun c => if c = "A" then some (Val.num 50) else none)] }

/-- An extracted table whose rows `purchase of property` (170) and `capex`
(100) both classify as `CapEx` but conflict numerically. -/
def dfC4 : DF :=
  { cols := ["2024"],
    rows := [("purchase of property", fun c =>
        if c = "2024" then some (Val.num 170) else none),
      ("capex", fun c => if c = "2024" then some (Val.num 100) else none)] }

/-- The accumulated row of the `dfC1` group, as a bare row function. -/
def mC1 : RowFun := fun c =>
  if c = "A" then some (Val.num 1000)
  else if c = "B" then some (Val.str "note") else none

/-- The candidate row of the `dfC1` group, as a bare row function. -/
def curC1 : RowFun := fun c => if c = "A" then some (Val.num 1) else none

/-- An accumulated row summing to 1: here the accumulated row is the
smaller-sum side of the scale pair. -/
def mC1b : RowFun := fun c => if c = "A" then some (Val.num 1) else none

/-- A candidate row summing to 1000: with the accumulated sum the smaller
one, the candidate is kept as the base of the scale merge. -/
def curC1b : RowFun := fun c => if c = "A" then some (Val.num 1000) else none

/-- The accumulated row of the `dfC3` group, as a bare row function. -/
def mC3 : RowFun := fun c => if c = "A" then some (Val.num 1) else none

/-- The irreconcilable candidate of the `dfC3` group (ratio 50). -/
def curC3 : String × RowFun :=
  ("X", fun c => if c = "A" then some (Val.num 50) else none)

/-- An extracted AMD table with `Revenue 2023 = 99`, disagreeing with the
template value 22680. -/
def dfC9 : DF :=
  { cols := ["2023"],
    rows := [("Revenue", fun c => if c = "2023" then some (Val.num 99) else none)] }

/-- The base row of the suffix-fold witness table (`Revenue`, note in
`Info`). -/
def rowBaseC2 : RowFun := fun c => if c = "Info" then some (Val.str "x") else none

/-- The suffixed row of the suffix-fold witness table (`Revenue_Mar`,
`2025F = 100`). -/
def rowMarC2 : RowFun := fun c => if c = "2025F" then some (Val.num 100) else none

/-- A second suffixed row of the suffix-fold witness table (`Revenue_Jun`,
`2025F = 200`). -/
def rowJunC2 : RowFun := fun c => if c = "2025F" then some (Val.num 200) else none

/-- The multi-suffix fold witness table: a base row plus two suffixed rows
(`Revenue_Mar` and `Revenue_Jun`) folding into the same base metric. -/
def dfC2W2 : DF :=
  { cols := ["2025F", "Info"],
    rows := [("Revenue", rowBaseC2), ("Revenue_Mar", rowMarC2),
     ("Revenue_Jun", rowJunC2)] }

/-- The suffix-fold counterexample table: `Revenue_Mar` is itself a suffixed
row, and the base name of the second suffixed row `Revenue_Mar_Jun`
canonicalises to `Revenue_Mar`, so the fold recreates that label. -/
def dfC2X : DF :=
  { cols := ["2024"],
    rows := [("Revenue_Mar", fun c =>
        if c = "2024" then some (Val.num 100) else none),
      ("Revenue_Mar_Jun", fun c =>
        if c = "2024" then some (Val.num 7) else none)] }

/-- The row data of the segment-detection witness table. -/
def rowC8 : RowFun := fun c => if c = "2024" then some (Val.num 5) else none

/-- A table with one generic revenue-segment row (`gaming revenue`). -/
def dfC8W : DF :=
  { cols := ["2024"], rows := [("gaming revenue", rowC8)] }

/-- A single-table input whose lone row merges cleanly (no quarantine). -/
def dfC4W : DF :=
  { cols := ["2024"],
    rows := [("revenue", fun c => if c = "2024" then some (Val.num 100) else none)] }

/-- Invariant carried through the suffix-fold column loop: the original
columns persist, all rows are missing at the target column while it has not
been created, and the target cell of the base row is still missing. -/
def C2Inv (df : DF) (bstd target : String) (acc : DF) : Prop :=
  (∀ c, df.cols.contains c = true → acc.cols.contains c = true) ∧
  (∀ r ∈ acc.rows, acc.cols.contains target = false → (r.2 : RowFun) target = none) ∧
  acc.cell bstd target = none

/-- Invariant carried through the template-application fold: columns are
unchanged, non-empty extracted cells are preserved, rows outside the template
index are untouched, labels only accumulate, and columns outside the template
are untouched on extracted rows. -/
def C9Inv (df acc : DF) : Prop :=
  acc.cols = df.cols ∧
  (∀ l c v, df.cell l c = some v → v ≠ Val.str "" → acc.cell l c = some v) ∧
  (∀ l, l ∉ create_amd_template_df.labelList → ∀ c, acc.cell l c = df.cell l c) ∧
  (∀ l, df.hasLabel l = true → acc.hasLabel l = true) ∧
  (∀ l c, df.hasLabel l = true → c ∉ amdTemplateCols → acc.cell l c = df.cell l c)

end MarketData

namespace MarketData

/-- Helper: an option whose `isSome` is `false` is `none`. -/
theorem eq_none_of_isSome_false {α : Type} {o : Option α} (h : o.isSome = false) :
    o = none := by
  cases o
  · rfl
  · simp [Option.isSome] at h

end MarketData

/-! ## C5: concrete normalizations -/

/-- C5: the period normalizer maps `3Q24` to `3Q2024`, `12/2025E` to `2025F`,
`SEP-25` to `3Q2025F` and `MAR-25` to `1Q2025` under the configured policy
(current year 2025, last actual quarter 2), and `2Q2025ACTUAL` to `2Q2025`. -/
theorem C5_normalize_examples :
    MarketData.normalize_period_label "3Q24" = "3Q2024" ∧
    MarketData.normalize_period_label "12/2025E" = "2025F" ∧
    MarketData.normalize_period_label "SEP-25" = "3Q2025F" ∧
    MarketData.normalize_period_label "MAR-25" = "1Q2025" ∧
    MarketData.normalize_period_label "2Q2025ACTUAL" = "2Q2025" := by
  refine ⟨?_, ?_, ?_, ?_, ?_⟩ <;> decide

/-! ## C7: total fallback behaviour -/

/-- C7: `normalize_period_label` is a total function (it is defined by
structural recursion and pattern matching, so it can raise no exception), and
on any input on which none of the normalisation rules fires — including the
`ACTUAL`-suffix rule — it returns the uppercased, whitespace-stripped input
unchanged (the canonicalisation the source applies before rule matching). -/
theorem C7_fallback (x : String)
    (hrec : MarketData.recognizedPeriodForm x = false)
    (hact : MarketData.endsWithActual (MarketData.canonLabel x.data) = false) :
    MarketData.normalize_period_label x = String.mk (MarketData.canonLabel x.data) := by
  unfold MarketData.normalize_period_label
  unfold MarketData.recognizedPeriodForm at hrec
  have hpre : MarketData.preprocessLabel x.data = MarketData.canonLabel x.data := by
    unfold MarketData.preprocessLabel
    simp [hact]
  rw [hpre] at hrec ⊢
  simp only [Bool.or_eq_false_iff] at hrec
  obtain ⟨⟨⟨⟨⟨⟨⟨⟨h1, h2⟩, h3⟩, h4⟩, h5⟩, h6⟩, h7⟩, -⟩, -⟩ := hrec
  unfold MarketData.applyRules
  rw [MarketData.eq_none_of_isSome_false h1, MarketData.eq_none_of_isSome_false h2,
    MarketData.eq_none_of_isSome_false h3, MarketData.eq_none_of_isSome_false h4,
    MarketData.eq_none_of_isSome_false h5, MarketData.eq_none_of_isSome_false h6,
    MarketData.eq_none_of_isSome_false h7]

/-- Witness for C7 at the concrete unrecognized token `TOTAL`. -/
theorem C7_fallback_witness :
    MarketData.recognizedPeriodForm "TOTAL" = false ∧
    MarketData.endsWithActual (MarketData.canonLabel "TOTAL".data) = false ∧
    MarketData.normalize_period_label "TOTAL" = String.mk (MarketData.canonLabel "TOTAL".data) :=
  ⟨by decide, by decide, C7_fallback "TOTAL" (by decide) (by decide)⟩

/-! ## C6: idempotence of the period normalizer -/

/-- C6 counterexample: `SEP-042` is recognized (it matches the month-name
rule), normalizes to `3Q42`, but normalizing again yields `3Q2042`, so
`normalize ∘ normalize ≠ normalize` on this recognized form. -/
theorem C6_counterexample :
    MarketData.recognizedPeriodForm "SEP-042" = true ∧
    MarketData.normalize_period_label "SEP-042" = "3Q42" ∧
    MarketData.normalize_period_label
        (MarketData.normalize_period_label "SEP-042") ≠
      MarketData.normalize_period_label "SEP-042" := by
  refine ⟨by decide, by decide, by decide⟩

namespace MarketData

/-! ### Infrastructure for the idempotence analysis of the period normalizer -/

theorem natDigitsAux_fuel {n : Nat} :
    ∀ {f1 f2 : Nat}, n < f1 → n < f2 → natDigitsAux f1 n = natDigitsAux f2 n := by
  induction n using Nat.strong_induction_on with
  | _ n ih =>
    intro f1 f2 h1 h2
    match f1, f2 with
    | g1 + 1, g2 + 1 =>
      have s1 : natDigitsAux (g1 + 1) n = if n < 10 then [Char.ofNat (48 + n)]
          else natDigitsAux g1 (n / 10) ++ [Char.ofNat (48 + n % 10)] := rfl
      have s2 : natDigitsAux (g2 + 1) n = if n < 10 then [Char.ofNat (48 + n)]
          else natDigitsAux g2 (n / 10) ++ [Char.ofNat (48 + n % 10)] := rfl
      rw [s1, s2]
      by_cases h : n < 10
      · simp [h]
      · simp only [if_neg h]
        rw [ih (n / 10) (by omega) (show n / 10 < g1 by omega)
          (show n / 10 < g2 by omega)]

theorem natDigits_eq (n : Nat) :
    natDigits n = if n < 10 then [Char.ofNat (48 + n)]
      else natDigits (n / 10) ++ [Char.ofNat (48 + n % 10)] := by
  have step : natDigitsAux (n + 1) n = if n < 10 then [Char.ofNat (48 + n)]
      else natDigitsAux n (n / 10) ++ [Char.ofNat (48 + n % 10)] := rfl
  by_cases h : n < 10
  · rw [if_pos h]
    show natDigitsAux (n + 1) n = _
    rw [step, if_pos h]
  · rw [if_neg h]
    show natDigitsAux (n + 1) n = natDigitsAux (n / 10 + 1) (n / 10) ++ _
    rw [step, if_neg h,
      natDigitsAux_fuel (show n / 10 < n by omega) (show n / 10 < n / 10 + 1 by omega)]

theorem isDigitCh_ofNat {m : Nat} (h : m < 10) :
    isDigitCh (Char.ofNat (48 + m)) = true := by
  interval_cases m <;> decide

theorem natDigits_all_digit (n : Nat) : ∀ c ∈ natDigits n, isDigitCh c = true := by
  induction n using Nat.strong_induction_on with
  | _ n ih =>
    rw [natDigits_eq]
    by_cases h : n < 10
    · simp only [if_pos h, List.mem_singleton]
      rintro c rfl
      exact isDigitCh_ofNat h
    · simp only [if_neg h, List.mem_append, List.mem_singleton]
      rintro c (hc | rfl)
      · exact ih (n / 10) (by omega) c hc
      · exact isDigitCh_ofNat (by omega)

theorem natDigits_len_lt10 {n : Nat} (h : n < 10) : (natDigits n).length = 1 := by
  rw [natDigits_eq, if_pos h]
  rfl

theorem natDigits_len2 {n : Nat} (h1 : 10 ≤ n) (h2 : n ≤ 99) :
    (natDigits n).length = 2 := by
  rw [natDigits_eq, if_neg (by omega)]
  rw [List.length_append, natDigits_len_lt10 (by omega)]
  rfl

theorem natDigits_len34 {n : Nat} (h1 : 100 ≤ n) (h2 : n ≤ 9999) :
    (natDigits n).length = 3 ∨ (natDigits n).length = 4 := by
  rw [natDigits_eq, if_neg (by omega), List.length_append]
  by_cases h : n / 10 ≤ 99
  · left
    rw [natDigits_len2 (by omega) h]
    rfl
  · right
    rw [natDigits_eq, if_neg (by omega), List.length_append,
      natDigits_len2 (by omega) (by omega)]
    rfl

theorem isDigitCh_toNat {c : Char} (h : isDigitCh c = true) :
    48 ≤ c.toNat ∧ c.toNat ≤ 57 := by
  simpa [isDigitCh] using h

theorem isDigitCh_ne {c x : Char} (h : isDigitCh c = true)
    (hx : isDigitCh x = false) : c ≠ x := by
  intro he
  subst he
  rw [h] at hx
  exact Bool.noConfusion hx

theorem isQ14_isDigitCh {c : Char} (h : isQ14 c = true) : isDigitCh c = true := by
  simp only [isQ14, Bool.or_eq_true, decide_eq_true_eq] at h
  rcases h with ((rfl | rfl) | rfl) | rfl <;> decide

theorem isUpperAlpha_false_of_digit {c : Char} (h : isDigitCh c = true) :
    isUpperAlpha c = false := by
  obtain ⟨-, h2⟩ := isDigitCh_toNat h
  simp only [isUpperAlpha, Bool.and_eq_false_iff, decide_eq_false_iff_not]
  left
  omega

theorem toUpper_eq_self_of_toNat_lt {c : Char} (h : c.toNat < 97) :
    c.toUpper = c := by
  unfold Char.toUpper
  rw [if_neg (by omega)]

theorem isTokChar_cases {c : Char} (h : isTokChar c = true) :
    isDigitCh c = true ∨ c = 'Q' ∨ c = 'F' := by
  have h2 : (isDigitCh c = true ∨ c = 'Q') ∨ c = 'F' := by simpa [isTokChar] using h
  tauto

theorem isTokChar_toNat_lt {c : Char} (h : isTokChar c = true) : c.toNat < 97 := by
  rcases isTokChar_cases h with h | rfl | rfl
  · exact lt_of_le_of_lt (isDigitCh_toNat h).2 (by omega)
  · decide
  · decide

theorem isTokChar_toNat_ge {c : Char} (h : isTokChar c = true) : 48 ≤ c.toNat := by
  rcases isTokChar_cases h with h | rfl | rfl
  · exact (isDigitCh_toNat h).1
  · decide
  · decide

theorem ne_of_toNat_ne {c x : Char} (h : c.toNat ≠ x.toNat) : c ≠ x := by
  intro he
  exact h (by rw [he])

theorem ne_of_lit {c x : Char} (h : 48 ≤ c.toNat) (hx : x.toNat < 48) : c ≠ x :=
  ne_of_toNat_ne (by omega)

theorem isPyWs_false_of_tok {c : Char} (h : isTokChar c = true) :
    isPyWs c = false := by
  have h48 := isTokChar_toNat_ge h
  simp only [isPyWs, Bool.or_eq_false_iff, decide_eq_false_iff_not]
  refine ⟨⟨⟨⟨⟨?_, ?_⟩, ?_⟩, ?_⟩, ?_⟩, ?_⟩ <;>
    exact ne_of_lit h48 (by decide)

theorem tok_ne_L {c : Char} (h : isTokChar c = true) : 'L' ≠ c := by
  rcases isTokChar_cases h with h | rfl | rfl
  · exact fun he => absurd h (by rw [← he]; decide)
  · decide
  · decide

theorem dropWhile_eq_self_of_head {p : Char → Bool} {l : List Char}
    (h : ∀ c, l.head? = some c → p c = false) : l.dropWhile p = l := by
  cases l with
  | nil => rfl
  | cons c t => simp [List.dropWhile_cons, h c rfl]

theorem head?_mem {α : Type} {l : List α} {c : α} (h : l.head? = some c) : c ∈ l := by
  cases l with
  | nil => simp at h
  | cons a t =>
    rw [List.head?_cons, Option.some_inj] at h
    exact h ▸ List.mem_cons_self a t

theorem trimWs_eq_self {l : List Char} (h : ∀ c ∈ l, isPyWs c = false) :
    trimWs l = l := by
  unfold trimWs
  have h1 : l.dropWhile isPyWs = l :=
    dropWhile_eq_self_of_head (fun c hc => h c (head?_mem hc))
  rw [h1]
  have h2 : l.reverse.dropWhile isPyWs = l.reverse :=
    dropWhile_eq_self_of_head (fun c hc => h c (List.mem_reverse.mp (head?_mem hc)))
  rw [h2, List.reverse_reverse]

theorem map_eq_self_of_fix {f : Char → Char} {l : List Char}
    (h : ∀ c ∈ l, f c = c) : l.map f = l := by
  induction l with
  | nil => rfl
  | cons a t ih =>
    rw [List.map_cons, h a (List.mem_cons_self a t),
      ih (fun c hc => h c (List.mem_cons_of_mem a hc))]

theorem canonLabel_eq_self {l : List Char} (h : ∀ c ∈ l, isTokChar c = true) :
    canonLabel l = l := by
  unfold canonLabel
  rw [trimWs_eq_self (fun c hc => isPyWs_false_of_tok (h c hc)),
    map_eq_self_of_fix (fun c hc =>
      toUpper_eq_self_of_toNat_lt (isTokChar_toNat_lt (h c hc)))]
  rw [List.filter_eq_self.mpr]
  intro c hc
  have h48 := isTokChar_toNat_ge (h c hc)
  simp only [bne_iff_ne, ne_eq]
  exact ne_of_lit h48 (by decide)

theorem endsWithActual_false_of_tok {l : List Char}
    (h : ∀ c ∈ l, isTokChar c = true) : endsWithActual l = false := by
  unfold endsWithActual
  cases hr : l.reverse with
  | nil => rfl
  | cons c t =>
    have hc : c ∈ l := List.mem_reverse.mp (hr ▸ List.mem_cons_self c t)
    simp only [List.isPrefixOf, Bool.and_eq_false_iff]
    left
    simp only [beq_eq_false_iff_ne, ne_eq]
    exact tok_ne_L (h c hc)

theorem preprocessLabel_eq_self {l : List Char}
    (h : ∀ c ∈ l, isTokChar c = true) : preprocessLabel l = l := by
  show (let t := canonLabel l
    if endsWithActual t then removeActualAll t else t) = l
  rw [canonLabel_eq_self h]
  show (if endsWithActual l then removeActualAll l else l) = l
  rw [endsWithActual_false_of_tok h]
  simp

theorem span_append_exact {p : Char → Bool} {ds r : List Char}
    (h1 : ∀ c ∈ ds, p c = true) (h2 : ∀ c, r.head? = some c → p c = false) :
    (ds ++ r).span p = (ds, r) := by
  rw [List.span_eq_take_drop]
  refine Prod.ext ?_ ?_
  · show (ds ++ r).takeWhile p = ds
    rw [List.takeWhile_append_of_pos h1]
    cases r with
    | nil => simp
    | cons c t => simp [List.takeWhile_cons, h2 c rfl]
  · show (ds ++ r).dropWhile p = r
    rw [List.dropWhile_append_of_pos h1]
    exact dropWhile_eq_self_of_head h2

theorem takeWhile_exact {p : Char → Bool} {ds r : List Char}
    (h1 : ∀ c ∈ ds, p c = true) (h2 : ∀ c, r.head? = some c → p c = false) :
    (ds ++ r).takeWhile p = ds := by
  rw [List.takeWhile_append_of_pos h1]
  cases r with
  | nil => simp
  | cons c t => simp [List.takeWhile_cons, h2 c rfl]

theorem dropWhile_exact {p : Char → Bool} {ds r : List Char}
    (h1 : ∀ c ∈ ds, p c = true) (h2 : ∀ c, r.head? = some c → p c = false) :
    (ds ++ r).dropWhile p = r := by
  rw [List.dropWhile_append_of_pos h1]
  exact dropWhile_eq_self_of_head h2

theorem takeWhile_all {p : Char → Bool} {l : List Char}
    (h : ∀ c ∈ l, p c = true) : l.takeWhile p = l := by
  induction l with
  | nil => rfl
  | cons a t ih =>
    rw [List.takeWhile_cons, if_pos (h a (List.mem_cons_self a t))]
    rw [ih (fun c hc => h c (List.mem_cons_of_mem a hc))]

theorem dropWhile_all {p : Char → Bool} {l : List Char}
    (h : ∀ c ∈ l, p c = true) : l.dropWhile p = [] := by
  induction l with
  | nil => rfl
  | cons a t ih =>
    rw [List.dropWhile_cons, if_pos (h a (List.mem_cons_self a t))]
    exact ih (fun c hc => h c (List.mem_cons_of_mem a hc))

theorem takeWhile_cons_pos {p : Char → Bool} {c : Char} {t : List Char}
    (h : p c = true) : (c :: t).takeWhile p = c :: t.takeWhile p := by
  simp [List.takeWhile_cons, h]

theorem takeWhile_cons_neg {p : Char → Bool} {c : Char} {t : List Char}
    (h : p c = false) : (c :: t).takeWhile p = [] := by
  simp [List.takeWhile_cons, h]

theorem dropWhile_cons_pos {p : Char → Bool} {c : Char} {t : List Char}
    (h : p c = true) : (c :: t).dropWhile p = t.dropWhile p := by
  simp [List.dropWhile_cons, h]

theorem dropWhile_cons_neg {p : Char → Bool} {c : Char} {t : List Char}
    (h : p c = false) : (c :: t).dropWhile p = c :: t := by
  simp [List.dropWhile_cons, h]

theorem span_all {p : Char → Bool} {ds : List Char}
    (h1 : ∀ c ∈ ds, p c = true) : ds.span p = (ds, []) := by
  rw [List.span_eq_take_drop, takeWhile_all h1, dropWhile_all h1]

theorem length_eq_four {α : Type} {l : List α} (h : l.length = 4) :
    ∃ a b c d, l = [a, b, c, d] := by
  match l, h with
  | [a, b, c, d], _ => exact ⟨a, b, c, d, rfl⟩

theorem length_eq_three {α : Type} {l : List α} (h : l.length = 3) :
    ∃ a b c, l = [a, b, c] := by
  match l, h with
  | [a, b, c], _ => exact ⟨a, b, c, rfl⟩

theorem tok_of_digit {c : Char} (h : isDigitCh c = true) : isTokChar c = true := by
  simp [isTokChar, h]

theorem tok_year {ys : List Char} (hd : ∀ c ∈ ys, isDigitCh c = true) :
    ∀ c ∈ ys, isTokChar c = true :=
  fun c hc => tok_of_digit (hd c hc)

theorem tok_yearF {ys : List Char} (hd : ∀ c ∈ ys, isDigitCh c = true) :
    ∀ c ∈ ys ++ ['F'], isTokChar c = true := by
  intro c hc
  rcases List.mem_append.mp hc with hc | hc
  · exact tok_of_digit (hd c hc)
  · rw [List.mem_singleton.mp hc]
    decide

theorem tok_q {q : Char} {ys : List Char} (hq : isQ14 q = true)
    (hd : ∀ c ∈ ys, isDigitCh c = true) :
    ∀ c ∈ q :: 'Q' :: ys, isTokChar c = true := by
  intro c hc
  rcases List.mem_cons.mp hc with rfl | hc
  · exact tok_of_digit (isQ14_isDigitCh hq)
  rcases List.mem_cons.mp hc with rfl | hc
  · decide
  · exact tok_of_digit (hd c hc)

theorem tok_qF {q : Char} {ys : List Char} (hq : isQ14 q = true)
    (hd : ∀ c ∈ ys, isDigitCh c = true) :
    ∀ c ∈ q :: 'Q' :: (ys ++ ['F']), isTokChar c = true := by
  intro c hc
  rcases List.mem_cons.mp hc with rfl | hc
  · exact tok_of_digit (isQ14_isDigitCh hq)
  rcases List.mem_cons.mp hc with rfl | hc
  · decide
  · exact tok_yearF hd c hc

/-! Fixed-point lemmas: each possible rule output is unchanged by a second
pass of the rule cascade. -/

theorem applyRules_fix_year {ys : List Char} (hd : ∀ c ∈ ys, isDigitCh c = true)
    (hl : ys.length = 4) : applyRules ys = ys := by
  obtain ⟨a, b, c, d, rfl⟩ := length_eq_four hl
  have ha := hd a (by simp)
  have hb := hd b (by simp)
  have htake : ([a, b, c, d] : List Char).takeWhile isDigitCh = [a, b, c, d] :=
    takeWhile_all hd
  have hdrop : ([a, b, c, d] : List Char).dropWhile isDigitCh = [] :=
    dropWhile_all hd
  have h1 : tryRule1 [a, b, c, d] = none := by
    simp [tryRule1, htake, hdrop]
  have h2 : tryRule2 [a, b, c, d] = none := by
    have hbq : b ≠ 'Q' := isDigitCh_ne hb (by decide)
    simp [tryRule2, hbq]
  have h3 : tryRule3 [a, b, c, d] = none := by
    simp [tryRule3, isUpperAlpha_false_of_digit ha]
  have h35 : tryRule35 [a, b, c, d] = none := by
    simp [tryRule35, isUpperAlpha_false_of_digit ha]
  have h4 : tryRule4 [a, b, c, d] = none := by
    simp [tryRule4, htake, hdrop]
  have h5 : tryRule5 [a, b, c, d] = some [a, b, c, d] := by
    have haF : a ≠ 'F' := isDigitCh_ne ha (by decide)
    simp [tryRule5, haF, htake, hdrop, sufFlag]
  unfold applyRules
  rw [h1, h2, h3, h35, h4, h5]

theorem applyRules_fix_yearF {ys : List Char} (hd : ∀ c ∈ ys, isDigitCh c = true)
    (hl : ys.length = 4) : applyRules (ys ++ ['F']) = ys ++ ['F'] := by
  obtain ⟨a, b, c, d, rfl⟩ := length_eq_four hl
  have ha := hd a (by simp)
  have hb := hd b (by simp)
  have hF : ∀ x : Char, (['F'] : List Char).head? = some x → isDigitCh x = false := by
    intro x hx
    rw [← Option.some_inj.mp hx]
    decide
  have htake : List.takeWhile isDigitCh [a, b, c, d, 'F'] = [a, b, c, d] := by
    simpa using takeWhile_exact hd hF
  have hdrop : List.dropWhile isDigitCh [a, b, c, d, 'F'] = ['F'] := by
    simpa using dropWhile_exact hd hF
  have h1 : tryRule1 ([a, b, c, d] ++ ['F']) = none := by
    simp [tryRule1, htake, hdrop]
  have h2 : tryRule2 ([a, b, c, d] ++ ['F']) = none := by
    have hbq : b ≠ 'Q' := isDigitCh_ne hb (by decide)
    simp [tryRule2, hbq]
  have h3 : tryRule3 ([a, b, c, d] ++ ['F']) = none := by
    simp [tryRule3, isUpperAlpha_false_of_digit ha]
  have h35 : tryRule35 ([a, b, c, d] ++ ['F']) = none := by
    simp [tryRule35, isUpperAlpha_false_of_digit ha]
  have h4 : tryRule4 ([a, b, c, d] ++ ['F']) = some ([a, b, c, d] ++ ['F']) := by
    simp [tryRule4, htake, hdrop]
  unfold applyRules
  rw [h1, h2, h3, h35, h4]

theorem applyRules_fix_q34 {q : Char} {ys : List Char} (hq : isQ14 q = true)
    (hd : ∀ c ∈ ys, isDigitCh c = true) (hl : ys.length = 3 ∨ ys.length = 4) :
    applyRules (q :: 'Q' :: ys) = q :: 'Q' :: ys := by
  have hqd : isDigitCh q = true := isQ14_isDigitCh hq
  have hQ : isDigitCh 'Q' = false := by decide
  have htake : List.takeWhile isDigitCh (q :: 'Q' :: ys) = [q] := by
    rw [takeWhile_cons_pos hqd, takeWhile_cons_neg hQ]
  have hdrop : List.dropWhile isDigitCh (q :: 'Q' :: ys) = 'Q' :: ys := by
    rw [dropWhile_cons_pos hqd, dropWhile_cons_neg hQ]
  have h1 : tryRule1 (q :: 'Q' :: ys) = none := by
    simp [tryRule1, htake, hdrop]
  have h2 : tryRule2 (q :: 'Q' :: ys) = some (q :: 'Q' :: ys) := by
    have hyy : toYYYY ys = ys := by
      unfold toYYYY
      rw [if_neg (by omega)]
    simp [tryRule2, hq, takeWhile_all hd, dropWhile_all hd, hyy, sufFlag]
    omega
  unfold applyRules
  rw [h1, h2]

theorem applyRules_fix_q34F {q : Char} {ys : List Char} (hq : isQ14 q = true)
    (hd : ∀ c ∈ ys, isDigitCh c = true) (hl : ys.length = 3 ∨ ys.length = 4) :
    applyRules (q :: 'Q' :: (ys ++ ['F'])) = q :: 'Q' :: (ys ++ ['F']) := by
  have hqd : isDigitCh q = true := isQ14_isDigitCh hq
  have hQ : isDigitCh 'Q' = false := by decide
  have hF : ∀ x : Char, (['F'] : List Char).head? = some x → isDigitCh x = false := by
    intro x hx
    rw [← Option.some_inj.mp hx]
    decide
  have htake : List.takeWhile isDigitCh (q :: 'Q' :: (ys ++ ['F'])) = [q] := by
    rw [takeWhile_cons_pos hqd, takeWhile_cons_neg hQ]
  have hdrop : List.dropWhile isDigitCh (q :: 'Q' :: (ys ++ ['F'])) = 'Q' :: (ys ++ ['F']) := by
    rw [dropWhile_cons_pos hqd, dropWhile_cons_neg hQ]
  have h1 : tryRule1 (q :: 'Q' :: (ys ++ ['F'])) = none := by
    simp [tryRule1, htake, hdrop]
  have h2 : tryRule2 (q :: 'Q' :: (ys ++ ['F'])) = some (q :: 'Q' :: (ys ++ ['F'])) := by
    have hyy : toYYYY ys = ys := by
      unfold toYYYY
      rw [if_neg (by omega)]
    simp [tryRule2, hq, takeWhile_exact hd hF, dropWhile_exact hd hF, hyy, sufFlag]
    omega
  unfold applyRules
  rw [h1, h2]

theorem applyRules_fix_q1 {q y0 : Char} (hq : isQ14 q = true)
    (hy : isDigitCh y0 = true) : applyRules [q, 'Q', y0] = [q, 'Q', y0] := by
  have hqd : isDigitCh q = true := isQ14_isDigitCh hq
  have hQ : isDigitCh 'Q' = false := by decide
  have hy0 : ∀ c ∈ ([y0] : List Char), isDigitCh c = true := by
    intro x hx
    rw [List.mem_singleton.mp hx]
    exact hy
  have htake : List.takeWhile isDigitCh [q, 'Q', y0] = [q] := by
    rw [takeWhile_cons_pos hqd, takeWhile_cons_neg hQ]
  have hdrop : List.dropWhile isDigitCh [q, 'Q', y0] = ['Q', y0] := by
    rw [dropWhile_cons_pos hqd, dropWhile_cons_neg hQ]
  have h1 : tryRule1 [q, 'Q', y0] = none := by
    simp [tryRule1, htake, hdrop]
  have h2 : tryRule2 [q, 'Q', y0] = none := by
    simp [tryRule2, takeWhile_all hy0, dropWhile_all hy0]
  have h3 : tryRule3 [q, 'Q', y0] = none := by
    simp [tryRule3]
  have h35 : tryRule35 [q, 'Q', y0] = none := by
    simp [tryRule35]
  have h4 : tryRule4 [q, 'Q', y0] = none := by
    simp [tryRule4, htake, hdrop]
  have h5 : tryRule5 [q, 'Q', y0] = none := by
    have hqF : q ≠ 'F' := isDigitCh_ne hqd (by decide)
    simp [tryRule5, hqF, htake, hdrop]
  have h6 : tryRule6 [q, 'Q', y0] = none := by
    simp [tryRule6]
  unfold applyRules
  rw [h1, h2, h3, h35, h4, h5, h6]

theorem all_mem_takeWhile {p : Char → Bool} {l : List Char} :
    ∀ c ∈ l.takeWhile p, p c = true := by
  intro c hc
  have h := List.all_takeWhile (l := l) (p := p)
  exact (List.all_eq_true.mp h) c hc

theorem toYYYY_digits {y : List Char} (h : ∀ c ∈ y, isDigitCh c = true) :
    ∀ c ∈ toYYYY y, isDigitCh c = true := by
  unfold toYYYY
  split
  · intro c hc
    rcases List.mem_cons.mp hc with rfl | hc
    · decide
    rcases List.mem_cons.mp hc with rfl | hc
    · decide
    · exact h c hc
  · exact h

theorem toYYYY_len_of_four {y : List Char} (h : y.length = 4) : toYYYY y = y := by
  unfold toYYYY
  rw [if_neg (by omega)]

theorem toYYYY_len34 {y : List Char} (h2 : 2 ≤ y.length) (h4 : y.length ≤ 4) :
    (toYYYY y).length = 3 ∨ (toYYYY y).length = 4 := by
  unfold toYYYY
  split
  · simp
    omega
  · omega

theorem tryRule1_inv {s r : List Char} (h : tryRule1 s = some r) :
    ∃ ys, (∀ c ∈ ys, isDigitCh c = true) ∧ ys.length = 4 ∧
      (r = ys ∨ r = ys ++ ['F']) := by
  simp only [tryRule1] at h
  split at h
  · split at h
    · split at h
      · split at h
        · rename_i r2 hsl hlen
          split at h
          · refine ⟨_, ?_, hlen, Or.inr ?_⟩
            · rw [List.span_eq_take_drop]
              exact all_mem_takeWhile
            · rw [toYYYY_len_of_four hlen] at h
              exact (Option.some_inj.mp h).symm
          · refine ⟨_, ?_, hlen, Or.inl ?_⟩
            · rw [List.span_eq_take_drop]
              exact all_mem_takeWhile
            · rw [toYYYY_len_of_four hlen] at h
              exact (Option.some_inj.mp h).symm
          · exact absurd h (by simp)
        · exact absurd h (by simp)
      · exact absurd h (by simp)
    · exact absurd h (by simp)
  · exact absurd h (by simp)

theorem tryRule2_inv {s r : List Char} (h : tryRule2 s = some r) :
    ∃ q ys, isQ14 q = true ∧ (∀ c ∈ ys, isDigitCh c = true) ∧
      (ys.length = 3 ∨ ys.length = 4) ∧
      (r = q :: 'Q' :: ys ∨ r = q :: 'Q' :: (ys ++ ['F'])) := by
  simp only [tryRule2] at h
  split at h
  · rename_i c q rest
    split at h
    · rename_i hcq
      split at h
      · rename_i hlen
        have hdig : ∀ x ∈ (rest.span isDigitCh).1, isDigitCh x = true := by
          rw [List.span_eq_take_drop]
          exact all_mem_takeWhile
        have hq : isQ14 c = true := by
          simp only [Bool.and_eq_true, decide_eq_true_eq] at hcq
          exact hcq.1
        have hQ : q = 'Q' := by
          simp only [Bool.and_eq_true, decide_eq_true_eq] at hcq
          exact hcq.2
        subst hQ
        split at h
        · exact ⟨c, _, hq, toYYYY_digits hdig, toYYYY_len34 hlen.1 hlen.2,
            Or.inr (Option.some_inj.mp h).symm⟩
        · exact ⟨c, _, hq, toYYYY_digits hdig, toYYYY_len34 hlen.1 hlen.2,
            Or.inl (Option.some_inj.mp h).symm⟩
        · exact absurd h (by simp)
      · exact absurd h (by simp)
    · exact absurd h (by simp)
  · exact absurd h (by simp)

theorem tryRule3_inv {s r : List Char} (h : tryRule3 s = some r) :
    ∃ q ys, isQ14 q = true ∧ (∀ c ∈ ys, isDigitCh c = true) ∧
      (ys.length = 3 ∨ ys.length = 4) ∧
      (r = q :: 'Q' :: ys ∨ r = q :: 'Q' :: (ys ++ ['F'])) := by
  simp only [tryRule3] at h
  split at h
  · split at h
    · split at h
      · rename_i d1 d2 q qc rest2
        split at h
        · rename_i hguard
          simp only [Bool.and_eq_true, decide_eq_true_eq] at hguard
          obtain ⟨⟨⟨hd1, hd2⟩, hq⟩, hqc⟩ := hguard
          have hdig : ∀ x ∈ [d1, d2], isDigitCh x = true := by
            intro x hx
            rcases List.mem_cons.mp hx with rfl | hx
            · exact hd1
            rcases List.mem_cons.mp hx with rfl | hx
            · exact hd2
            · simp at hx
          have hlen : (toYYYY [d1, d2]).length = 3 ∨ (toYYYY [d1, d2]).length = 4 :=
            toYYYY_len34 (by simp) (by simp)
          split at h
          · exact ⟨q, _, hq, toYYYY_digits hdig, hlen,
              Or.inr (Option.some_inj.mp h).symm⟩
          · exact ⟨q, _, hq, toYYYY_digits hdig, hlen,
              Or.inl (Option.some_inj.mp h).symm⟩
          · exact absurd h (by simp)
        · exact absurd h (by simp)
      · exact absurd h (by simp)
    · exact absurd h (by simp)
  · exact absurd h (by simp)

theorem tryRule6_inv {s r : List Char} (h : tryRule6 s = some r) :
    ∃ q ys, isQ14 q = true ∧ (∀ c ∈ ys, isDigitCh c = true) ∧
      (ys.length = 3 ∨ ys.length = 4) ∧ r = q :: 'Q' :: ys := by
  simp only [tryRule6] at h
  split at h
  · rename_i c q d1 d2
    split at h
    · rename_i hguard
      simp only [Bool.and_eq_true, decide_eq_true_eq] at hguard
      obtain ⟨⟨⟨hq, hQ⟩, hd1⟩, hd2⟩ := hguard
      have hdig : ∀ x ∈ [d1, d2], isDigitCh x = true := by
        intro x hx
        rcases List.mem_cons.mp hx with rfl | hx
        · exact hd1
        rcases List.mem_cons.mp hx with rfl | hx
        · exact hd2
        · simp at hx
      exact ⟨c, _, hq, toYYYY_digits hdig, toYYYY_len34 (by simp) (by simp),
        (Option.some_inj.mp h).symm⟩
    · exact absurd h (by simp)
  · exact absurd h (by simp)

theorem tryRule4_inv {s r : List Char} (h : tryRule4 s = some r) :
    ∃ ys, (∀ c ∈ ys, isDigitCh c = true) ∧ ys.length = 4 ∧ r = ys ++ ['F'] := by
  simp only [tryRule4] at h
  split at h
  · rename_i hlen
    split at h
    · split at h
      · refine ⟨_, ?_, hlen, (Option.some_inj.mp h).symm⟩
        rw [List.span_eq_take_drop]
        exact all_mem_takeWhile
      · exact absurd h (by simp)
    · exact absurd h (by simp)
  · exact absurd h (by simp)

theorem tryRule5_inv {s r : List Char} (h : tryRule5 s = some r) :
    ∃ ys, (∀ c ∈ ys, isDigitCh c = true) ∧ ys.length = 4 ∧
      (r = ys ∨ r = ys ++ ['F']) := by
  simp only [tryRule5] at h
  split at h
  · rename_i hlen
    split at h
    · refine ⟨_, ?_, hlen, Or.inr ?_⟩
      · rw [List.span_eq_take_drop]
        exact all_mem_takeWhile
      · exact (Option.some_inj.mp h).symm
    · refine ⟨_, ?_, hlen, Or.inl ?_⟩
      · rw [List.span_eq_take_drop]
        exact all_mem_takeWhile
      · exact (Option.some_inj.mp h).symm
    · exact absurd h (by simp)
  · exact absurd h (by simp)

theorem length_eq_two {α : Type} {l : List α} (h : l.length = 2) :
    ∃ a b, l = [a, b] := by
  match l, h with
  | [a, b], _ => exact ⟨a, b, rfl⟩

theorem month_lookup_bound {k : String} {q : Nat}
    (h : MONTH_TO_Q.lookup k = some q) : 1 ≤ q ∧ q ≤ 4 := by
  simp only [MONTH_TO_Q, List.lookup] at h
  repeat' split at h
  all_goals simp_all
  all_goals omega

theorem foldl_digits_bound {s : List Char} (h : ∀ c ∈ s, isDigitCh c = true) :
    ∀ a : Nat, s.foldl (fun n c => n * 10 + (c.toNat - '0'.toNat)) a <
      (a + 1) * 10 ^ s.length := by
  induction s with
  | nil =>
    intro a
    simp
  | cons c t ih =>
    intro a
    have hc := h c (List.mem_cons_self c t)
    have hb := isDigitCh_toNat hc
    have h0 : ('0').toNat = 48 := rfl
    have hstep := ih (fun x hx => h x (List.mem_cons_of_mem c hx))
      (a * 10 + (c.toNat - '0'.toNat))
    rw [List.foldl_cons, List.length_cons]
    have h3 : a * 10 + (c.toNat - '0'.toNat) + 1 ≤ (a + 1) * 10 := by omega
    have h4 := Nat.mul_le_mul_right (10 ^ t.length) h3
    have h5 : (a + 1) * 10 * 10 ^ t.length = (a + 1) * 10 ^ (t.length + 1) := by
      rw [pow_succ]
      ring
    omega

theorem digitsToNat_le9999 {s : List Char} (h : ∀ c ∈ s, isDigitCh c = true)
    (hl : s.length ≤ 4) : digitsToNat s ≤ 9999 := by
  have hb := foldl_digits_bound h 0
  have hp : 10 ^ s.length ≤ 10 ^ 4 :=
    Nat.pow_le_pow_right (by norm_num) hl
  unfold digitsToNat
  omega

theorem toYYYY_len_le4 {y : List Char} (h : y.length ≤ 4) :
    (toYYYY y).length ≤ 4 := by
  unfold toYYYY
  split
  · simp
    omega
  · exact h

theorem is_future_true_bound {y q : Nat} (h : is_future_quarter y q = true) :
    2025 ≤ y := by
  unfold is_future_quarter CURRENT_YEAR LAST_ACTUAL_QUARTER at h
  split at h
  · omega
  · split at h
    · exact absurd h (by simp)
    · omega

theorem is_future_false_bound {y q : Nat} (h : is_future_quarter y q = false) :
    y ≤ 2025 := by
  unfold is_future_quarter CURRENT_YEAR LAST_ACTUAL_QUARTER at h
  split at h
  · exact absurd h (by simp)
  · omega

theorem isQ14_ofNat {q : Nat} (h1 : 1 ≤ q) (h2 : q ≤ 4) :
    isQ14 (Char.ofNat (48 + q)) = true := by
  interval_cases q <;> decide

theorem tryRule35_inv {s r : List Char} (h : tryRule35 s = some r) :
    ∃ q yyyy, 1 ≤ q ∧ q ≤ 4 ∧ yyyy ≤ 9999 ∧
      ((yyyy ≤ 2025 ∧ r = Char.ofNat (48 + q) :: 'Q' :: natDigits yyyy) ∨
       (2025 ≤ yyyy ∧ r = Char.ofNat (48 + q) :: 'Q' :: (natDigits yyyy ++ ['F']))) := by
  simp only [tryRule35] at h
  split at h
  · rename_i a b c sep rest
    split at h
    · rename_i hguard
      split at h
      · rename_i q hlook
        simp only [Bool.and_eq_true, decide_eq_true_eq] at hguard
        obtain ⟨⟨⟨⟨⟨⟨hua, hub⟩, huc⟩, hsep⟩, hdig⟩, hge⟩, hle⟩ := hguard
        have hydig : ∀ x ∈ rest, isDigitCh x = true := List.all_eq_true.mp hdig
        obtain ⟨hq1, hq4⟩ := month_lookup_bound hlook
        have hyb : digitsToNat (toYYYY rest) ≤ 9999 :=
          digitsToNat_le9999 (toYYYY_digits hydig) (toYYYY_len_le4 hle)
        have hnq : natDigits q = [Char.ofNat (48 + q)] := by
          rw [natDigits_eq, if_pos (by omega)]
        refine ⟨q, digitsToNat (toYYYY rest), hq1, hq4, hyb, ?_⟩
        by_cases hf : is_future_quarter (digitsToNat (toYYYY rest)) q = true
        · right
          refine ⟨is_future_true_bound hf, ?_⟩
          rw [hf] at h
          simp only [if_pos] at h
          rw [hnq] at h
          simpa using (Option.some_inj.mp h).symm
        · left
          rw [Bool.not_eq_true] at hf
          refine ⟨is_future_false_bound hf, ?_⟩
          rw [hf] at h
          simp only [Bool.false_eq_true, if_neg, ite_false] at h
          rw [hnq] at h
          simpa using (Option.some_inj.mp h).symm
      · exact absurd h (by simp)
    · exact absurd h (by simp)
  · exact absurd h (by simp)

theorem yearShape_rule5 {s : List Char} (hs : isYearTokenShape s = true) :
    (tryRule5 s).isSome = true := by
  unfold isYearTokenShape at hs
  rw [List.span_eq_take_drop] at hs
  simp only [Bool.and_eq_true, Bool.or_eq_true, decide_eq_true_eq] at hs
  obtain ⟨hlen, hrest⟩ := hs
  obtain ⟨d0, d1, d2, d3, hds⟩ := length_eq_four hlen
  have hsplit := List.takeWhile_append_dropWhile isDigitCh s
  have hdig : ∀ x ∈ s.takeWhile isDigitCh, isDigitCh x = true := all_mem_takeWhile
  have hd0 : isDigitCh d0 = true := hdig d0 (by rw [hds]; simp)
  have hd0F : d0 ≠ 'F' := isDigitCh_ne hd0 (by decide)
  rcases hrest with hrest | hrest
  · have hseq : s = [d0, d1, d2, d3] := by
      rw [← hsplit, hds, hrest, List.append_nil]
    subst hseq
    rw [hds] at hdig
    have htk : List.takeWhile isDigitCh [d0, d1, d2, d3] = [d0, d1, d2, d3] :=
      takeWhile_all hdig
    have hdr : List.dropWhile isDigitCh [d0, d1, d2, d3] = [] :=
      dropWhile_all hdig
    simp [tryRule5, hd0F, htk, hdr, sufFlag]
  · have hseq : s = [d0, d1, d2, d3] ++ ['F'] := by
      rw [← hsplit, hds, hrest]
    subst hseq
    rw [hds] at hdig
    have hF : ∀ x : Char, (['F'] : List Char).head? = some x → isDigitCh x = false := by
      intro x hx
      rw [← Option.some_inj.mp hx]
      decide
    have htk : List.takeWhile isDigitCh [d0, d1, d2, d3, 'F'] = [d0, d1, d2, d3] := by
      simpa using takeWhile_exact hdig hF
    have hdr : List.dropWhile isDigitCh [d0, d1, d2, d3, 'F'] = ['F'] := by
      simpa using dropWhile_exact hdig hF
    simp [tryRule5, hd0F, htk, hdr, sufFlag]

theorem quarterShape_rule2 {s : List Char} (hs : isQuarterTokenShape s = true) :
    (tryRule2 s).isSome = true := by
  unfold isQuarterTokenShape at hs
  split at hs
  · rename_i c q rest
    rw [List.span_eq_take_drop] at hs
    simp only [Bool.and_eq_true, Bool.or_eq_true, decide_eq_true_eq] at hs
    obtain ⟨⟨hq14, rfl⟩, hlen, hrest⟩ := hs
    rcases hrest with hrest | hrest <;>
      simp [tryRule2, hq14, hlen, hrest, sufFlag]
  · exact absurd hs (by simp)

theorem normalize_fix_of {x : String} {r : List Char}
    (hR : applyRules (preprocessLabel x.data) = r)
    (htok : ∀ c ∈ r, isTokChar c = true)
    (hfix : applyRules r = r) :
    normalize_period_label (normalize_period_label x) = normalize_period_label x := by
  have hx : normalize_period_label x = String.mk r := by
    unfold normalize_period_label
    rw [hR]
  rw [hx]
  unfold normalize_period_label
  show String.mk (applyRules (preprocessLabel r)) = String.mk r
  rw [preprocessLabel_eq_self htok, hfix]

/-- C6 (amended): the period normalizer is idempotent on every recognized
period form whose normalized result is not a quarter token with a two-digit
year.  (Two-digit-year quarter outputs arise only from month-name labels whose
year digits denote a value between 10 and 99 — e.g. `SEP-042` ↦ `3Q42` — and
those results are expanded further by a second pass, the failure exhibited by
the counterexample.) -/
theorem C6_idempotent_amended (x : String)
    (hrec : recognizedPeriodForm x = true)
    (hshape : isTwoDigitQuarterShape (applyRules (preprocessLabel x.data)) = false) :
    normalize_period_label (normalize_period_label x) = normalize_period_label x := by
  rcases e1 : tryRule1 (preprocessLabel x.data) with _ | r
  case some =>
    have hR : applyRules (preprocessLabel x.data) = r := by
      unfold applyRules
      rw [e1]
    obtain ⟨ys, hd, hl, hcase⟩ := tryRule1_inv e1
    rcases hcase with rfl | rfl
    · exact normalize_fix_of hR (tok_year hd) (applyRules_fix_year hd hl)
    · exact normalize_fix_of hR (tok_yearF hd) (applyRules_fix_yearF hd hl)
  case none =>
  rcases e2 : tryRule2 (preprocessLabel x.data) with _ | r
  case some =>
    have hR : applyRules (preprocessLabel x.data) = r := by
      unfold applyRules
      rw [e1, e2]
    obtain ⟨q, ys, hq, hd, hl, hcase⟩ := tryRule2_inv e2
    rcases hcase with rfl | rfl
    · exact normalize_fix_of hR (tok_q hq hd) (applyRules_fix_q34 hq hd hl)
    · exact normalize_fix_of hR (tok_qF hq hd) (applyRules_fix_q34F hq hd hl)
  case none =>
  rcases e3 : tryRule3 (preprocessLabel x.data) with _ | r
  case some =>
    have hR : applyRules (preprocessLabel x.data) = r := by
      unfold applyRules
      rw [e1, e2, e3]
    obtain ⟨q, ys, hq, hd, hl, hcase⟩ := tryRule3_inv e3
    rcases hcase with rfl | rfl
    · exact normalize_fix_of hR (tok_q hq hd) (applyRules_fix_q34 hq hd hl)
    · exact normalize_fix_of hR (tok_qF hq hd) (applyRules_fix_q34F hq hd hl)
  case none =>
  rcases e35 : tryRule35 (preprocessLabel x.data) with _ | r
  case some =>
    have hR : applyRules (preprocessLabel x.data) = r := by
      unfold applyRules
      rw [e1, e2, e3, e35]
    obtain ⟨q, yyyy, hq1, hq4, hyb, hcase⟩ := tryRule35_inv e35
    have hqc : isQ14 (Char.ofNat (48 + q)) = true := isQ14_ofNat hq1 hq4
    have hdy := natDigits_all_digit yyyy
    rcases hcase with ⟨hy25, rfl⟩ | ⟨hy25, rfl⟩
    · by_cases hsmall : yyyy < 10
      · obtain ⟨y0, hy0⟩ := List.length_eq_one.mp (natDigits_len_lt10 hsmall)
        rw [hy0] at hR
        have hy0d : isDigitCh y0 = true := hdy y0 (by rw [hy0]; simp)
        exact normalize_fix_of hR
          (by
            intro c hc
            exact tok_q hqc (by
              intro z hz
              rw [List.mem_singleton.mp hz]
              exact hy0d) c (by simpa using hc))
          (applyRules_fix_q1 hqc hy0d)
      · by_cases hmid : yyyy ≤ 99
        · exfalso
          rw [hR] at hshape
          obtain ⟨e, f, hef⟩ := length_eq_two (natDigits_len2 (by omega) hmid)
          have he : isDigitCh e = true := hdy e (by rw [hef]; simp)
          have hf : isDigitCh f = true := hdy f (by rw [hef]; simp)
          rw [hef] at hshape
          simp [isTwoDigitQuarterShape, hqc, he, hf] at hshape
        · exact normalize_fix_of hR (tok_q hqc hdy)
            (applyRules_fix_q34 hqc hdy (natDigits_len34 (by omega) hyb))
    · exact normalize_fix_of hR (tok_qF hqc hdy)
        (applyRules_fix_q34F hqc hdy (natDigits_len34 (by omega) hyb))
  case none =>
  rcases e4 : tryRule4 (preprocessLabel x.data) with _ | r
  case some =>
    have hR : applyRules (preprocessLabel x.data) = r := by
      unfold applyRules
      rw [e1, e2, e3, e35, e4]
    obtain ⟨ys, hd, hl, rfl⟩ := tryRule4_inv e4
    exact normalize_fix_of hR (tok_yearF hd) (applyRules_fix_yearF hd hl)
  case none =>
  rcases e5 : tryRule5 (preprocessLabel x.data) with _ | r
  case some =>
    have hR : applyRules (preprocessLabel x.data) = r := by
      unfold applyRules
      rw [e1, e2, e3, e35, e4, e5]
    obtain ⟨ys, hd, hl, hcase⟩ := tryRule5_inv e5
    rcases hcase with rfl | rfl
    · exact normalize_fix_of hR (tok_year hd) (applyRules_fix_year hd hl)
    · exact normalize_fix_of hR (tok_yearF hd) (applyRules_fix_yearF hd hl)
  case none =>
  rcases e6 : tryRule6 (preprocessLabel x.data) with _ | r
  case some =>
    have hR : applyRules (preprocessLabel x.data) = r := by
      unfold applyRules
      rw [e1, e2, e3, e35, e4, e5, e6]
    obtain ⟨q, ys, hq, hd, hl, rfl⟩ := tryRule6_inv e6
    exact normalize_fix_of hR (tok_q hq hd) (applyRules_fix_q34 hq hd hl)
  case none =>
  exfalso
  unfold recognizedPeriodForm at hrec
  simp only [] at hrec
  rw [e1, e2, e3, e35, e4, e5, e6] at hrec
  simp only [Option.isSome_none, Bool.false_or, Bool.or_eq_true] at hrec
  rcases hrec with hrec | hrec
  · have := yearShape_rule5 hrec
    rw [e5] at this
    exact absurd this (by simp)
  · have := quarterShape_rule2 hrec
    rw [e2] at this
    exact absurd this (by simp)

/-- Witness for the amended C6 idempotence theorem at the recognized form
`3Q24`. -/
theorem C6_idempotent_amended_witness :
    recognizedPeriodForm "3Q24" = true ∧
    isTwoDigitQuarterShape (applyRules (preprocessLabel "3Q24".data)) = false ∧
    normalize_period_label (normalize_period_label "3Q24") =
      normalize_period_label "3Q24" :=
  ⟨by decide, by decide, C6_idempotent_amended "3Q24" (by decide) (by decide)⟩

end MarketData

/-! ## C1: duplicate-merge unit-scale path -/

/-- C1 counterexample: in `dfC1` the only column where both rows hold numeric
values (`A`) has relative difference above the tolerance and ratio inside the
1000 ± 5% band, so the pair takes the unit-scale path and the candidate is not
quarantined (the output has the single row `X`); but the cell `B = "note"`,
present in the larger-sum row, is changed to missing by the merge — the
numeric coercion of the scale path erases it — contradicting the claim that
cells already present in the larger-sum row are unchanged. -/
theorem C1_counterexample :
    (MarketData.merge_duplicate_rows MarketData.dfC1).labelList = ["X"] ∧
    MarketData.dfC1.cell "X" "B" = some (MarketData.Val.str "note") ∧
    (MarketData.merge_duplicate_rows MarketData.dfC1).cell "X" "B" = none := by
  refine ⟨by with_unfolding_all decide, by decide, by with_unfolding_all decide⟩

/-! ## C3: quarantine disambiguation -/

/-- C3 counterexample: in `dfC3` the candidate row cannot merge (ratio 50 is
outside both the tolerance and the 1000-band), so it is quarantined — but its
label gets no suffix (it is the first occurrence of `X` within the quarantine
set), and the merger's output carries the label `X` twice: the disambiguating
suffix does not make the quarantined row's name unique. -/
theorem C3_counterexample :
    (MarketData.merge_duplicate_rows MarketData.dfC3).labelList = ["X", "X"] ∧
    ¬ (MarketData.merge_duplicate_rows MarketData.dfC3).labelList.Nodup := by
  refine ⟨by with_unfolding_all decide, by with_unfolding_all decide⟩

/-! ## C4: uniqueness of canonical names after reconciliation -/

/-- C4 counterexample: reconciling the single table `dfC4` (with no company)
produces two rows both named `CapEx`: `capex` is renamed to `CapEx` by the
synonym pass, `purchase of property` is classified as `CapEx` by the keyword
pass, their values conflict (100 vs 170), the conflicting candidate is
quarantined under the bare label `CapEx`, and the parenthetical filter does
not remove it. -/
theorem C4_counterexample :
    ((MarketData.process_extracted_dfs [MarketData.dfC4] none).1.map
      MarketData.DF.labelList) = some ["CapEx", "CapEx"] := by
  with_unfolding_all decide

/-! ## C10: the long-form period normalizer collapses actual and forecast -/

namespace MarketData

/-- C10: the visualization-side `normalize_period` (applied by `tidy_long` to
every melted period header) maps every quarterly label to the forecast-suffixed
form regardless of whether the source label carried an `F` marker: the output
for `qQ<year>` always ends in `F`, and `qQ<year>F` maps to the same string —
so the long-form output's period field cannot distinguish actual from forecast
quarters. -/
theorem C10_quarter_always_forecast (c : Char) (ys : List Char)
    (hq : isQ14 c = true) (hd : ∀ x ∈ ys, isDigitCh x = true)
    (h2 : 2 ≤ ys.length) (h4 : ys.length ≤ 4) :
    normalize_period (String.mk (c :: 'Q' :: ys)) =
      String.mk (c :: 'Q' ::
        ((if ys.length = 2 then '2' :: '0' :: ys else ys) ++ ['F'])) ∧
    normalize_period (String.mk (c :: 'Q' :: (ys ++ ['F']))) =
      normalize_period (String.mk (c :: 'Q' :: ys)) := by
  have hF : ∀ x : Char, (['F'] : List Char).head? = some x → isDigitCh x = false := by
    intro x hx
    rw [← Option.some_inj.mp hx]
    decide
  have hcanon1 : canonLabel (c :: 'Q' :: ys) = c :: 'Q' :: ys :=
    canonLabel_eq_self (tok_q hq hd)
  have hcanon2 : canonLabel (c :: 'Q' :: (ys ++ ['F'])) = c :: 'Q' :: (ys ++ ['F']) :=
    canonLabel_eq_self (tok_qF hq hd)
  have hQ : isDigitCh 'Q' = false := by decide
  have htk1 : List.takeWhile isDigitCh ys = ys := takeWhile_all hd
  have hdr1 : List.dropWhile isDigitCh ys = [] := dropWhile_all hd
  have htk2 : List.takeWhile isDigitCh (ys ++ ['F']) = ys := takeWhile_exact hd hF
  have hdr2 : List.dropWhile isDigitCh (ys ++ ['F']) = ['F'] := dropWhile_exact hd hF
  have hnp1 : npQuarter (c :: 'Q' :: ys) =
      some (c :: 'Q' :: ((if ys.length = 2 then '2' :: '0' :: ys else ys) ++ ['F'])) := by
    simp [npQuarter, hq, htk1, hdr1, h2, h4]
  have hnp2 : npQuarter (c :: 'Q' :: (ys ++ ['F'])) =
      some (c :: 'Q' :: ((if ys.length = 2 then '2' :: '0' :: ys else ys) ++ ['F'])) := by
    simp [npQuarter, hq, htk2, hdr2, h2, h4]
  constructor
  · show (match npQuarter (canonLabel (c :: 'Q' :: ys)) with
      | some r => String.mk r
      | none =>
        match npYear (canonLabel (c :: 'Q' :: ys)) with
        | some r => String.mk r
        | none => String.mk (canonLabel (c :: 'Q' :: ys))) = _
    rw [hcanon1, hnp1]
  · show (match npQuarter (canonLabel (c :: 'Q' :: (ys ++ ['F']))) with
      | some r => String.mk r
      | none =>
        match npYear (canonLabel (c :: 'Q' :: (ys ++ ['F']))) with
        | some r => String.mk r
        | none => String.mk (canonLabel (c :: 'Q' :: (ys ++ ['F'])))) =
      (match npQuarter (canonLabel (c :: 'Q' :: ys)) with
      | some r => String.mk r
      | none =>
        match npYear (canonLabel (c :: 'Q' :: ys)) with
        | some r => String.mk r
        | none => String.mk (canonLabel (c :: 'Q' :: ys)))
    rw [hcanon1, hcanon2, hnp1, hnp2]

end MarketData

/-- Witness for C10 at the concrete labels `1Q2024` and `1Q2024F`. -/
theorem C10_quarter_always_forecast_witness :
    MarketData.isQ14 '1' = true ∧
    MarketData.normalize_period "1Q2024" = "1Q2024F" ∧
    MarketData.normalize_period "1Q2024F" = MarketData.normalize_period "1Q2024" := by
  have h := MarketData.C10_quarter_always_forecast '1' ['2', '0', '2', '4']
    (by decide) (by decide) (by decide) (by decide)
  exact ⟨by decide, h.1, h.2⟩

/-! ## C9: AMD template enrichment never overwrites extracted data -/

namespace MarketData

theorem bool_eq_false {b : Bool} (h : ¬ (b = true)) : b = false := by
  cases b with
  | true => exact absurd rfl h
  | false => rfl

theorem foldl_preserve {α : Type} (P : DF → Prop) (f : DF → α → DF) :
    ∀ (l : List α) (acc : DF), P acc →
      (∀ a x, x ∈ l → P a → P (f a x)) → P (l.foldl f acc) := by
  intro l
  induction l with
  | nil => intro acc h _; exact h
  | cons x t ih =>
    intro acc h hstep
    rw [List.foldl_cons]
    exact ih (f acc x) (hstep acc x (List.mem_cons_self x t) h)
      (fun a y hy ha => hstep a y (List.mem_cons_of_mem x hy) ha)

theorem fd_cons_pos {α : Type} {p : α → Bool} {a : α} (l : List α)
    (h : p a = true) : (a :: l).find? p = some a := by
  rw [List.find?_cons, h]

theorem fd_cons_neg {α : Type} {p : α → Bool} {a : α} (l : List α)
    (h : p a = false) : (a :: l).find? p = l.find? p := by
  rw [List.find?_cons, h]

theorem find?_setCellRows_ne (rows : List (String × RowFun)) (label col : String)
    (v : Option Val) (l : String) (h : l ≠ label) :
    (setCellRows rows label col v).find? (fun r => r.1 == l) =
      rows.find? (fun r => r.1 == l) := by
  induction rows with
  | nil => rfl
  | cons r t ih =>
    by_cases hr : (r.1 == label) = true
    · have h1 : r.1 = label := eq_of_beq hr
      have hb : (r.1 == l) = false :=
        bool_eq_false (fun hc => h ((eq_of_beq hc).symm.trans h1))
      simp only [setCellRows, if_pos hr]
      rw [fd_cons_neg (p := fun x : String × RowFun => x.1 == l)
          (a := (r.1, fun c => if c == col then v else r.2 c)) t hb,
        fd_cons_neg (p := fun x : String × RowFun => x.1 == l) (a := r) t hb]
    · simp only [setCellRows, if_neg hr]
      by_cases hl : (r.1 == l) = true
      · rw [fd_cons_pos (p := fun x : String × RowFun => x.1 == l) (a := r)
            (setCellRows t label col v) hl,
          fd_cons_pos (p := fun x : String × RowFun => x.1 == l) (a := r) t hl]
      · have hb : (r.1 == l) = false := bool_eq_false hl
        rw [fd_cons_neg (p := fun x : String × RowFun => x.1 == l) (a := r)
            (setCellRows t label col v) hb,
          fd_cons_neg (p := fun x : String × RowFun => x.1 == l) (a := r) t hb,
          ih]

theorem setCellRows_of_not_found (rows : List (String × RowFun))
    (label col : String) (v : Option Val)
    (h : rows.find? (fun r => r.1 == label) = none) :
    setCellRows rows label col v = rows := by
  induction rows with
  | nil => rfl
  | cons r t ih =>
    by_cases hr : (r.1 == label) = true
    · rw [fd_cons_pos (p := fun x : String × RowFun => x.1 == label) (a := r)
          t hr] at h
      exact Option.noConfusion h
    · have hb : (r.1 == label) = false := bool_eq_false hr
      rw [fd_cons_neg (p := fun x : String × RowFun => x.1 == label) (a := r)
          t hb] at h
      simp only [setCellRows, if_neg hr]
      rw [ih h]

theorem find?_setCellRows_found (rows : List (String × RowFun))
    (label col : String) (v : Option Val) (r : String × RowFun)
    (h : rows.find? (fun x => x.1 == label) = some r) :
    (setCellRows rows label col v).find? (fun x => x.1 == label) =
      some (r.1, fun c => if c == col then v else r.2 c) := by
  induction rows with
  | nil => exact Option.noConfusion h
  | cons a t ih =>
    by_cases ha : (a.1 == label) = true
    · rw [fd_cons_pos (p := fun x : String × RowFun => x.1 == label) (a := a)
          t ha] at h
      have har : a = r := Option.some_inj.mp h
      subst har
      simp only [setCellRows, if_pos ha]
      exact fd_cons_pos (p := fun x : String × RowFun => x.1 == label)
        (a := (a.1, fun c => if c == col then v else a.2 c)) t ha
    · have hb : (a.1 == label) = false := bool_eq_false ha
      rw [fd_cons_neg (p := fun x : String × RowFun => x.1 == label) (a := a)
          t hb] at h
      simp only [setCellRows, if_neg ha]
      rw [fd_cons_neg (p := fun x : String × RowFun => x.1 == label) (a := a)
          (setCellRows t label col v) hb]
      exact ih h

theorem cell_setCell_ne (df : DF) (label col : String) (v : Option Val)
    (l c : String) (h : l ≠ label ∨ c ≠ col) :
    (df.setCell label col v).cell l c = df.cell l c := by
  rcases h with h | h
  · simp only [DF.setCell, DF.cell]
    rw [find?_setCellRows_ne _ _ _ _ _ h]
  · by_cases hl : l = label
    · subst hl
      simp only [DF.setCell, DF.cell]
      cases hf : df.rows.find? (fun r => r.1 == l) with
      | none => rw [setCellRows_of_not_found _ _ _ _ hf, hf]
      | some r =>
        rw [find?_setCellRows_found _ _ _ _ _ hf]
        have hc2 : ¬ ((c == col) = true) := fun hb => h (eq_of_beq hb)
        simp only [if_neg hc2]
    · simp only [DF.setCell, DF.cell]
      rw [find?_setCellRows_ne _ _ _ _ _ hl]

theorem any_label_setCellRows (rows : List (String × RowFun)) (label col : String)
    (v : Option Val) (l : String) :
    (setCellRows rows label col v).any (fun r => r.1 == l) =
      rows.any (fun r => r.1 == l) := by
  induction rows with
  | nil => rfl
  | cons a t ih =>
    by_cases ha : (a.1 == label) = true
    · simp only [setCellRows, if_pos ha, List.any_cons]
    · simp only [setCellRows, if_neg ha, List.any_cons, ih]

theorem hasLabel_setCell (df : DF) (label col : String) (v : Option Val)
    (l : String) :
    (df.setCell label col v).hasLabel l = df.hasLabel l := by
  simp only [DF.setCell, DF.hasLabel]
  exact any_label_setCellRows df.rows label col v l

theorem find?_append_some {α : Type} {p : α → Bool} {l₁ : List α} {r : α}
    (h : l₁.find? p = some r) (l₂ : List α) : (l₁ ++ l₂).find? p = some r := by
  induction l₁ with
  | nil => exact Option.noConfusion h
  | cons a t ih =>
    rw [List.cons_append, List.find?_cons] at *
    cases hp : p a with
    | true => rw [hp] at h; exact h
    | false => rw [hp] at h; exact ih h

theorem find?_append_none {α : Type} {p : α → Bool} {l₁ : List α}
    (h : l₁.find? p = none) (l₂ : List α) : (l₁ ++ l₂).find? p = l₂.find? p := by
  induction l₁ with
  | nil => rfl
  | cons a t ih =>
    rw [List.find?_cons] at h
    rw [List.cons_append, List.find?_cons]
    cases hp : p a with
    | true => rw [hp] at h; exact Option.noConfusion h
    | false => rw [hp] at h; exact ih h

theorem any_eq_find?_isSome {α : Type} (p : α → Bool) (l : List α) :
    l.any p = (l.find? p).isSome := by
  induction l with
  | nil => rfl
  | cons a t ih =>
    rw [List.any_cons, List.find?_cons]
    cases hp : p a with
    | true => rfl
    | false => rw [Bool.false_or, ih]

theorem C9_inner_step (df : DF) (tr : String × RowFun)
    (htr : tr.1 ∈ create_amd_template_df.labelList)
    (acc2 : DF) (c : String) (hc : c ∈ amdTemplateCols)
    (h : C9Inv df acc2) :
    C9Inv df (if acc2.cols.contains c then
      if ((acc2.cell tr.1 c).isNone || acc2.cell tr.1 c == some (Val.str "")) &&
          (tr.2 c != some (Val.str "")) then
        acc2.setCell tr.1 c (tr.2 c)
      else acc2
    else acc2) := by
  split
  · split
    · rename_i hcc hguard
      obtain ⟨h1, h2, h3, h4, h5⟩ := h
      refine ⟨h1, ?_, ?_, ?_, ?_⟩
      · intro l c' v hv hne
        have hcell := h2 l c' v hv hne
        by_cases hne2 : l = tr.1 ∧ c' = c
        · exfalso
          obtain ⟨he1, he2⟩ := hne2
          subst he1; subst he2
          rw [hcell] at hguard
          rw [Bool.and_eq_true] at hguard
          have hleft := hguard.1
          rw [Bool.or_eq_true] at hleft
          rcases hleft with h' | h'
          · rw [Option.isNone_some] at h'
            exact Bool.noConfusion h'
          · exact hne (Option.some_inj.mp (eq_of_beq h'))
        · rw [cell_setCell_ne _ _ _ _ _ _ (not_and_or.mp hne2)]
          exact hcell
      · intro l hl c'
        have hne : l ≠ tr.1 := fun e => hl (e ▸ htr)
        rw [cell_setCell_ne _ _ _ _ _ _ (Or.inl hne)]
        exact h3 l hl c'
      · intro l hl
        rw [hasLabel_setCell]
        exact h4 l hl
      · intro l c' hl hc'
        have hne : c' ≠ c := fun e => hc' (e ▸ hc)
        rw [cell_setCell_ne _ _ _ _ _ _ (Or.inr hne)]
        exact h5 l c' hl hc'
    · exact h
  · exact h

theorem C9_outer_step (df acc : DF) (tr : String × RowFun)
    (htr : tr.1 ∈ create_amd_template_df.labelList)
    (h : C9Inv df acc) :
    C9Inv df (if acc.hasLabel tr.1 then
        create_amd_template_df.cols.foldl (fun acc2 c =>
          if acc2.cols.contains c then
            if ((acc2.cell tr.1 c).isNone ||
                acc2.cell tr.1 c == some (Val.str "")) &&
                (tr.2 c != some (Val.str "")) then
              acc2.setCell tr.1 c (tr.2 c)
            else acc2
          else acc2) acc
      else
        { cols := acc.cols,
          rows := acc.rows ++
            [(tr.1, fun c => if acc.cols.contains c then tr.2 c else none)] }) := by
  split
  · exact foldl_preserve (C9Inv df) _ create_amd_template_df.cols acc h
      (fun a x hx ha => C9_inner_step df tr htr a x hx ha)
  · rename_i hno
    obtain ⟨h1, h2, h3, h4, h5⟩ := h
    refine ⟨h1, ?_, ?_, ?_, ?_⟩
    · intro l c v hv hne
      have hcell := h2 l c v hv hne
      simp only [DF.cell] at hcell ⊢
      by_cases hcc : acc.cols.contains c = true
      · rw [if_pos hcc] at hcell
        rw [if_pos hcc]
        cases hf : acc.rows.find? (fun r => r.1 == l) with
        | none =>
          rw [hf] at hcell
          exact Option.noConfusion hcell
        | some r =>
          rw [hf] at hcell
          rw [find?_append_some hf]
          exact hcell
      · rw [if_neg hcc] at hcell
        exact Option.noConfusion hcell
    · intro l hl c
      have hne : ¬ (((tr.1 : String) == l) = true) := by
        intro hb
        exact hl ((eq_of_beq hb) ▸ htr)
      have hb : ((tr.1 : String) == l) = false := bool_eq_false hne
      have hstep : ({ cols := acc.cols,
                      rows := acc.rows ++
                        [(tr.1, fun c =>
                          if acc.cols.contains c then tr.2 c else none)] } : DF).cell l c
          = acc.cell l c := by
        simp only [DF.cell]
        cases hf : acc.rows.find? (fun r => r.1 == l) with
        | some r => rw [find?_append_some hf]
        | none =>
          rw [find?_append_none hf,
            fd_cons_neg (p := fun x : String × RowFun => x.1 == l)
              (a := (tr.1, fun c =>
                if acc.cols.contains c then tr.2 c else none)) [] hb,
            List.find?_nil]
      rw [hstep]
      exact h3 l hl c
    · intro l hl
      have := h4 l hl
      simp only [DF.hasLabel] at this ⊢
      rw [List.any_append, this, Bool.true_or]
    · intro l c hl hcn
      have hal := h4 l hl
      simp only [DF.hasLabel] at hal
      rw [any_eq_find?_isSome] at hal
      have hstep : ({ cols := acc.cols,
                      rows := acc.rows ++
                        [(tr.1, fun c =>
                          if acc.cols.contains c then tr.2 c else none)] } : DF).cell l c
          = acc.cell l c := by
        simp only [DF.cell]
        cases hf : acc.rows.find? (fun r => r.1 == l) with
        | none =>
          rw [hf] at hal
          exact Bool.noConfusion hal
        | some r => rw [find?_append_some hf]
      rw [hstep]
      exact h5 l c hl hcn

/-- C9: for a recognized AMD company name and a non-empty extracted table,
template enrichment leaves every extracted cell holding a non-empty value
unchanged (it only ever fills missing or empty-string cells), leaves the
column list unchanged, leaves every row whose label is outside the template
index untouched, and leaves every column outside the template's column list
untouched on the extracted rows. -/
theorem C9_template_preserves_extracted (df : DF) (name : String)
    (hamd : is_amd_company name = true)
    (hrows : df.rows.isEmpty = false) (hcols : df.cols.isEmpty = false) :
    (apply_amd_template_if_needed df name).cols = df.cols ∧
    (∀ l c v, df.cell l c = some v → v ≠ Val.str "" →
      (apply_amd_template_if_needed df name).cell l c = some v) ∧
    (∀ l, l ∉ create_amd_template_df.labelList →
      ∀ c, (apply_amd_template_if_needed df name).cell l c = df.cell l c) ∧
    (∀ l c, df.hasLabel l = true → c ∉ amdTemplateCols →
      (apply_amd_template_if_needed df name).cell l c = df.cell l c) := by
  have hinv : C9Inv df (apply_amd_template_if_needed df name) := by
    have hform : apply_amd_template_if_needed df name =
        create_amd_template_df.rows.foldl (fun acc tr =>
          if acc.hasLabel tr.1 then
            create_amd_template_df.cols.foldl (fun acc2 c =>
              if acc2.cols.contains c then
                if ((acc2.cell tr.1 c).isNone ||
                    acc2.cell tr.1 c == some (Val.str "")) &&
                    (tr.2 c != some (Val.str "")) then
                  acc2.setCell tr.1 c (tr.2 c)
                else acc2
              else acc2) acc
          else
            { cols := acc.cols,
              rows := acc.rows ++
                [(tr.1, fun c =>
                  if acc.cols.contains c then tr.2 c else none)] }) df := by
      simp only [apply_amd_template_if_needed]
      rw [hamd, hrows, hcols]
      rfl
    rw [hform]
    exact foldl_preserve (C9Inv df) _ create_amd_template_df.rows df
      ⟨rfl, fun l c v hv _ => hv, fun l _ c => rfl, fun l h => h,
        fun l c _ _ => rfl⟩
      (fun a tr htr ha =>
        C9_outer_step df a tr (List.mem_map_of_mem Prod.fst htr) ha)
  obtain ⟨h1, h2, h3, _, h5⟩ := hinv
  exact ⟨h1, h2, h3, h5⟩

end MarketData

/-- Witness for C9: an AMD table extracted with `Revenue 2023 = 99` keeps 99
after enrichment, although the template holds 22680 there. -/
theorem C9_template_preserves_extracted_witness :
    (MarketData.apply_amd_template_if_needed MarketData.dfC9 "AMD").cell
      "Revenue" "2023" = some (MarketData.Val.num 99) := by
  have h := MarketData.C9_template_preserves_extracted MarketData.dfC9 "AMD"
    (by decide) (by decide) (by decide)
  exact h.2.1 "Revenue" "2023" (MarketData.Val.num 99)
    (by with_unfolding_all decide) (by with_unfolding_all decide)

/-! ## C1 (amended): the unit-scale merge path -/

namespace MarketData

/-- C1 (amended): whenever the per-column conflict scan flags the accumulated
row and the candidate as a unit-scale mismatch (result `some true`), in either
direction of the column-sum comparison, the candidate is not quarantined;
the row with the larger column-sum (the candidate when the accumulated sum is
strictly smaller, the accumulated row otherwise) is kept as the base: every
numeric cell already present in it keeps its value, every cell of it that
coerces to missing is filled with the smaller-sum row's numeric value
multiplied by 1000 — and, correcting the original claim, a non-numeric cell of
the kept row is not preserved: both rows are numerically coerced first, so an
unparseable string cell ends up missing when the smaller-sum row has no value
there. -/
theorem C1_scale_merge_amended (cols : List String) (m cur : RowFun)
    (hscan : conflictScanAux m cur cols false = some true) :
    (mergeStep cols m cur).2 = false ∧
    (∀ c q, cols.contains c = true →
      (if rowSum cols m < rowSum cols cur then cur else m) c =
        some (Val.num q) →
      (mergeStep cols m cur).1 c = some (Val.num q)) ∧
    (∀ c q, cols.contains c = true →
      toNumericCell ((if rowSum cols m < rowSum cols cur then cur else m) c) =
        none →
      (if rowSum cols m < rowSum cols cur then m else cur) c =
        some (Val.num q) →
      (mergeStep cols m cur).1 c = some (Val.num (q * 1000))) ∧
    (∀ c s, cols.contains c = true →
      (if rowSum cols m < rowSum cols cur then cur else m) c =
        some (Val.str s) →
      parseFloatQ s = none →
      (if rowSum cols m < rowSum cols cur then m else cur) c = none →
      (mergeStep cols m cur).1 c = none) := by
  refine ⟨?_, ?_, ?_, ?_⟩
  · simp only [mergeStep, hscan]
  · intro c q hcc hb0
    by_cases hlt : rowSum cols m < rowSum cols cur
    · rw [if_pos hlt] at hb0
      simp only [mergeStep, hscan, scaleMerge]
      rw [if_pos hlt, if_pos hlt]
      have hb : toNumericRow cols cur c = some (Val.num q) := by
        show (if cols.contains c = true then (toNumericCell (cur c)).map Val.num
          else none) = some (Val.num q)
        rw [if_pos hcc, hb0]
        rfl
      rw [hb]
    · rw [if_neg hlt] at hb0
      simp only [mergeStep, hscan, scaleMerge]
      rw [if_neg hlt, if_neg hlt]
      have hb : toNumericRow cols m c = some (Val.num q) := by
        show (if cols.contains c = true then (toNumericCell (m c)).map Val.num
          else none) = some (Val.num q)
        rw [if_pos hcc, hb0]
        rfl
      rw [hb]
  · intro c q hcc hbn hs0
    by_cases hlt : rowSum cols m < rowSum cols cur
    · rw [if_pos hlt] at hbn
      rw [if_pos hlt] at hs0
      simp only [mergeStep, hscan, scaleMerge]
      rw [if_pos hlt, if_pos hlt]
      have hb : toNumericRow cols cur c = none := by
        show (if cols.contains c = true then (toNumericCell (cur c)).map Val.num
          else none) = none
        rw [if_pos hcc, hbn]
        rfl
      have hs : toNumericRow cols m c = some (Val.num q) := by
        show (if cols.contains c = true then (toNumericCell (m c)).map Val.num
          else none) = some (Val.num q)
        rw [if_pos hcc, hs0]
        rfl
      rw [hb, hs]
    · rw [if_neg hlt] at hbn
      rw [if_neg hlt] at hs0
      simp only [mergeStep, hscan, scaleMerge]
      rw [if_neg hlt, if_neg hlt]
      have hb : toNumericRow cols m c = none := by
        show (if cols.contains c = true then (toNumericCell (m c)).map Val.num
          else none) = none
        rw [if_pos hcc, hbn]
        rfl
      have hs : toNumericRow cols cur c = some (Val.num q) := by
        show (if cols.contains c = true then (toNumericCell (cur c)).map Val.num
          else none) = some (Val.num q)
        rw [if_pos hcc, hs0]
        rfl
      rw [hb, hs]
  · intro c s hcc hb0 hps hsn
    by_cases hlt : rowSum cols m < rowSum cols cur
    · rw [if_pos hlt] at hb0
      rw [if_pos hlt] at hsn
      simp only [mergeStep, hscan, scaleMerge]
      rw [if_pos hlt, if_pos hlt]
      have hb : toNumericRow cols cur c = none := by
        show (if cols.contains c = true then (toNumericCell (cur c)).map Val.num
          else none) = none
        rw [if_pos hcc, hb0]
        show (parseFloatQ s).map Val.num = none
        rw [hps]
        rfl
      have hs : toNumericRow cols m c = none := by
        show (if cols.contains c = true then (toNumericCell (m c)).map Val.num
          else none) = none
        rw [if_pos hcc, hsn]
        rfl
      rw [hb, hs]
    · rw [if_neg hlt] at hb0
      rw [if_neg hlt] at hsn
      simp only [mergeStep, hscan, scaleMerge]
      rw [if_neg hlt, if_neg hlt]
      have hb : toNumericRow cols m c = none := by
        show (if cols.contains c = true then (toNumericCell (m c)).map Val.num
          else none) = none
        rw [if_pos hcc, hb0]
        show (parseFloatQ s).map Val.num = none
        rw [hps]
        rfl
      have hs : toNumericRow cols cur c = none := by
        show (if cols.contains c = true then (toNumericCell (cur c)).map Val.num
          else none) = none
        rw [if_pos hcc, hsn]
        rfl
      rw [hb, hs]

end MarketData

set_option maxRecDepth 4000 in
/-- Witness for the amended C1, in both sum directions: on the `dfC1` pair
(candidate sum 1 smaller) `A` keeps 1000, the note in `B` is erased, no
quarantine; on the swapped pair (accumulated sum 1, candidate sum 1000)
the candidate's `A` value 1000 is kept. -/
theorem C1_scale_merge_amended_witness :
    MarketData.conflictScanAux MarketData.mC1 MarketData.curC1 ["A", "B"] false =
      some true ∧
    (MarketData.mergeStep ["A", "B"] MarketData.mC1 MarketData.curC1).2 = false ∧
    (MarketData.mergeStep ["A", "B"] MarketData.mC1 MarketData.curC1).1 "A" =
      some (MarketData.Val.num 1000) ∧
    (MarketData.mergeStep ["A", "B"] MarketData.mC1 MarketData.curC1).1 "B" =
      none ∧
    MarketData.rowSum ["A"] MarketData.mC1b < MarketData.rowSum ["A"]
      MarketData.curC1b ∧
    (MarketData.mergeStep ["A"] MarketData.mC1b MarketData.curC1b).1 "A" =
      some (MarketData.Val.num 1000) := by
  have hlt1 : ¬ (MarketData.rowSum ["A", "B"] MarketData.mC1 <
      MarketData.rowSum ["A", "B"] MarketData.curC1) := by
    with_unfolding_all decide
  have hlt2 : MarketData.rowSum ["A"] MarketData.mC1b <
      MarketData.rowSum ["A"] MarketData.curC1b := by
    with_unfolding_all decide
  have h := MarketData.C1_scale_merge_amended ["A", "B"] MarketData.mC1
    MarketData.curC1 (by with_unfolding_all decide)
  have h2 := MarketData.C1_scale_merge_amended ["A"] MarketData.mC1b
    MarketData.curC1b (by with_unfolding_all decide)
  refine ⟨by with_unfolding_all decide, h.1, ?_, ?_, hlt2, ?_⟩
  · exact h.2.1 "A" 1000 (by decide)
      (by rw [if_neg hlt1]; with_unfolding_all decide)
  · exact h.2.2.2 "B" "note" (by decide)
      (by rw [if_neg hlt1]; with_unfolding_all decide)
      (by with_unfolding_all decide)
      (by rw [if_neg hlt1]; with_unfolding_all decide)
  · exact h2.2.1 "A" 1000 (by decide)
      (by rw [if_pos hlt2]; with_unfolding_all decide)

/-! ## C3 (amended): quarantine keeps rows, with the counting suffix scheme -/

namespace MarketData

theorem make_index_unique_aux_length (counts : List (String × Nat))
    (l : List String) :
    (make_index_unique_aux counts l).length = l.length := by
  induction l generalizing counts with
  | nil => rfl
  | cons n t ih =>
    simp only [make_index_unique_aux, List.length_cons, ih]

theorem make_index_unique_aux_getD (counts : List (String × Nat))
    (l : List String) :
    ∀ i, i < l.length →
      (make_index_unique_aux counts l).getD i "" =
        (if (l.take i).count (l.getD i "") +
            ((counts.lookup (l.getD i "")).getD 0) = 0 then l.getD i ""
         else l.getD i "" ++ " (" ++
           String.mk (natDigits ((l.take i).count (l.getD i "") +
             ((counts.lookup (l.getD i "")).getD 0))) ++ ")") := by
  induction l generalizing counts with
  | nil => intro i h; exact absurd h (Nat.not_lt_zero i)
  | cons n t ih =>
    intro i h
    cases i with
    | zero =>
      simp only [make_index_unique_aux, List.getD, List.get?_eq_getElem?,
        List.getElem?_cons_zero, Option.getD_some, List.take_zero,
        List.count_nil, Nat.zero_add]
    | succ i =>
      have hi : i < t.length := Nat.lt_of_succ_lt_succ h
      have hstep : (make_index_unique_aux counts (n :: t)).getD (i + 1) "" =
          (make_index_unique_aux ((n, (counts.lookup n).getD 0 + 1) :: counts)
            t).getD i "" := by
        simp only [make_index_unique_aux, List.getD, List.get?_eq_getElem?,
          List.getElem?_cons_succ]
      rw [hstep, ih ((n, (counts.lookup n).getD 0 + 1) :: counts) i hi]
      have hget : (n :: t).getD (i + 1) "" = t.getD i "" := by
        simp only [List.getD, List.get?_eq_getElem?, List.getElem?_cons_succ]
      rw [hget]
      have hcount : ((n :: t).take (i + 1)).count (t.getD i "") +
          ((counts.lookup (t.getD i "")).getD 0) =
          (t.take i).count (t.getD i "") +
          ((((n, (counts.lookup n).getD 0 + 1) :: counts).lookup
            (t.getD i "")).getD 0) := by
        rw [List.take_succ_cons]
        by_cases hn : t.getD i "" = n
        · subst hn
          rw [List.count_cons_self]
          have hlook : (((t.getD i "",
              (counts.lookup (t.getD i "")).getD 0 + 1) :: counts).lookup
                (t.getD i "")) =
              some ((counts.lookup (t.getD i "")).getD 0 + 1) := by
            simp only [List.lookup, beq_self_eq_true]
          rw [hlook, Option.getD_some]
          omega
        · rw [List.count_cons_of_ne hn]
          have hb : ((t.getD i "" : String) == n) = false :=
            bool_eq_false (fun hx => hn (eq_of_beq hx))
          have hlook : (((n, (counts.lookup n).getD 0 + 1) :: counts).lookup
              (t.getD i "")) = counts.lookup (t.getD i "") := by
            simp only [List.lookup, hb]
          rw [hlook]
      rw [hcount]

theorem mergeGroup_append (cols : List String) (m : RowFun)
    (xs ys : List (String × RowFun)) :
    mergeGroup cols m (xs ++ ys) =
      ((mergeGroup cols (mergeGroup cols m xs).1 ys).1,
       (mergeGroup cols m xs).2 ++
         (mergeGroup cols (mergeGroup cols m xs).1 ys).2) := by
  induction xs generalizing m with
  | nil => rfl
  | cons a t ih =>
    simp only [List.cons_append, mergeGroup, List.append_eq]
    rw [ih]
    cases hb : (mergeStep cols m a.2).2 with
    | true => simp
    | false => simp

/-- C3 (amended): the merger's quarantine keeps every unmergeable candidate —
whenever the per-column conflict scan of the accumulated row against a
candidate reports an irreconcilable conflict, that candidate row (label and
data untouched) is in the group's unmerged output — and the disambiguation
pass preserves the number of rows and renames the i-th name to the bare name
when it has no earlier occurrence and to `name (k)` when it has k earlier
occurrences; in particular the first quarantined occurrence keeps the bare
name, so uniqueness against the merged rows is not guaranteed. -/
theorem C3_quarantine_amended :
    (∀ l : List String, (make_index_unique l).length = l.length) ∧
    (∀ (l : List String) (i : Nat), i < l.length →
      (make_index_unique l).getD i "" =
        (if (l.take i).count (l.getD i "") = 0 then l.getD i ""
         else l.getD i "" ++ " (" ++
           String.mk (natDigits ((l.take i).count (l.getD i ""))) ++ ")")) ∧
    (∀ (cols : List String) (m : RowFun) (pre post : List (String × RowFun))
      (cur : String × RowFun),
      conflictScanAux (mergeGroup cols m pre).1 cur.2 cols false = none →
      cur ∈ (mergeGroup cols m (pre ++ cur :: post)).2) := by
  refine ⟨fun l => make_index_unique_aux_length [] l, ?_, ?_⟩
  · intro l i h
    have hx := make_index_unique_aux_getD [] l i h
    simpa using hx
  · intro cols m pre post cur hconf
    rw [mergeGroup_append]
    show cur ∈ (mergeGroup cols m pre).2 ++
      (mergeGroup cols (mergeGroup cols m pre).1 (cur :: post)).2
    apply List.mem_append_right
    have hq : (mergeStep cols (mergeGroup cols m pre).1 cur.2).2 = true := by
      simp only [mergeStep, hconf]
    show cur ∈ (if (mergeStep cols (mergeGroup cols m pre).1 cur.2).2 = true
      then cur :: (mergeGroup cols
        (mergeStep cols (mergeGroup cols m pre).1 cur.2).1 post).2
      else (mergeGroup cols
        (mergeStep cols (mergeGroup cols m pre).1 cur.2).1 post).2)
    rw [if_pos hq]
    exact List.mem_cons_self _ _

end MarketData

set_option maxRecDepth 4000 in
/-- Witness for the amended C3: three repeats of `X` rename to
`X`, `X (1)`, `X (2)`, and the irreconcilable `dfC3` candidate (ratio 50)
is kept in the group's unmerged output. -/
theorem C3_quarantine_amended_witness :
    (MarketData.make_index_unique ["X", "X", "X"]).getD 2 "" = "X (2)" ∧
    MarketData.curC3 ∈
      (MarketData.mergeGroup ["A"] MarketData.mC3 [MarketData.curC3]).2 := by
  constructor
  · have hx := MarketData.C3_quarantine_amended.2.1 ["X", "X", "X"] 2 (by decide)
    rw [hx]
    decide
  · exact MarketData.C3_quarantine_amended.2.2 ["A"] MarketData.mC3 [] []
      MarketData.curC3 (by with_unfolding_all decide)

/-! ## C4 (amended): label uniqueness of the reconciled table -/

namespace MarketData

theorem list_eq_nil_of_isEmpty {α : Type} {l : List α} (h : l.isEmpty = true) :
    l = [] := by
  cases l with
  | nil => rfl
  | cons a t => exact Bool.noConfusion h

theorem dedupKeepFirst_nodup : ∀ l : List String, (dedupKeepFirst l).Nodup := by
  intro l
  induction l with
  | nil => exact List.nodup_nil
  | cons c t ih =>
    simp only [dedupKeepFirst]
    refine List.nodup_cons.mpr ⟨?_, ?_⟩
    · intro hmem
      have hp := List.of_mem_filter hmem
      simp at hp
    · exact ih.filter _

theorem insertSorted_perm (x : String) (l : List String) :
    (insertSorted x l).Perm (x :: l) := by
  induction l with
  | nil => exact List.Perm.refl _
  | cons y t ih =>
    simp only [insertSorted]
    split
    · exact List.Perm.refl _
    · exact (List.Perm.cons y ih).trans (List.Perm.swap x y t)

theorem sortKeys_perm (l : List String) : (sortKeys l).Perm l := by
  induction l with
  | nil => exact List.Perm.refl _
  | cons c t ih =>
    have hstep : sortKeys (c :: t) = insertSorted c (sortKeys t) := rfl
    rw [hstep]
    exact (insertSorted_perm c (sortKeys t)).trans (List.Perm.cons c ih)

theorem sortKeys_nodup (l : List String) (h : l.Nodup) : (sortKeys l).Nodup :=
  ((sortKeys_perm l).nodup_iff).mpr h

theorem map_part_fst (df : DF) (keys : List String) :
    ((keys.map (mergePart df)).map Prod.fst).map Prod.fst = keys := by
  induction keys with
  | nil => rfl
  | cons k t ih =>
    simp only [List.map_cons]
    rw [ih]
    have hhead : (Prod.fst (Prod.fst (mergePart df k))) = k := by
      simp only [mergePart]
      cases df.rows.filter (fun r => get_base_name r.1 == k) with
      | nil => rfl
      | cons g0 rest =>
        show (if rest.isEmpty = true then ((k, g0.2), ([] : List (String × RowFun)))
          else ((k, (mergeGroup df.cols g0.2 rest).1),
            (mergeGroup df.cols g0.2 rest).2)).1.1 = k
        by_cases hre : rest.isEmpty = true
        · rw [if_pos hre]
        · rw [if_neg hre]
    rw [hhead]

theorem filter_labels_nodup (df : DF) (p : String × RowFun → Bool)
    (h : df.labelList.Nodup) :
    ({ cols := df.cols, rows := df.rows.filter p } : DF).labelList.Nodup := by
  have hsub : List.Sublist ((df.rows.filter p).map Prod.fst)
      (df.rows.map Prod.fst) :=
    List.Sublist.map Prod.fst (List.filter_sublist _)
  exact List.Nodup.sublist hsub h

theorem merge_labels (df : DF) (hq : (mergeQuarantine df).isEmpty = true) :
    (merge_duplicate_rows df).labelList =
      sortKeys (dedupKeepFirst (df.rows.map (fun r => get_base_name r.1))) := by
  have hqn : mergeQuarantine df = [] := list_eq_nil_of_isEmpty hq
  have hrows : (merge_duplicate_rows df).rows =
      ((sortKeys (dedupKeepFirst (df.rows.map
        (fun r => get_base_name r.1)))).map (mergePart df)).map Prod.fst ++
      (make_index_unique ((mergeQuarantine df).map Prod.fst)).zip
        ((mergeQuarantine df).map Prod.snd) := rfl
  rw [hqn] at hrows
  have hz : (make_index_unique ((([] : List (String × RowFun))).map Prod.fst)).zip
      ((([] : List (String × RowFun))).map Prod.snd) = [] := rfl
  rw [hz, List.append_nil] at hrows
  show (merge_duplicate_rows df).rows.map Prod.fst = _
  rw [hrows]
  exact map_part_fst df _

theorem setCellRows_map_fst (rows : List (String × RowFun)) (label col : String)
    (v : Option Val) :
    (setCellRows rows label col v).map Prod.fst = rows.map Prod.fst := by
  induction rows with
  | nil => rfl
  | cons r t ih =>
    by_cases hr : (r.1 == label) = true
    · simp only [setCellRows, if_pos hr, List.map_cons]
    · simp only [setCellRows, if_neg hr, List.map_cons, ih]

theorem labelList_setCell (df : DF) (label col : String) (v : Option Val) :
    (df.setCell label col v).labelList = df.labelList := by
  show (setCellRows df.rows label col v).map Prod.fst = df.rows.map Prod.fst
  exact setCellRows_map_fst df.rows label col v

theorem not_mem_of_hasLabel_false {df : DF} {l : String}
    (h : df.hasLabel l = false) : l ∉ df.labelList := by
  intro hmem
  obtain ⟨r, hr, hrl⟩ := List.mem_map.mp hmem
  have hall := List.any_eq_false.mp h r hr
  rw [hrl] at hall
  exact hall (beq_self_eq_true l)

theorem amd_inner_nodup (tr : String × RowFun) (acc2 : DF) (c : String)
    (h : acc2.labelList.Nodup) :
    (if acc2.cols.contains c then
      if ((acc2.cell tr.1 c).isNone || acc2.cell tr.1 c == some (Val.str "")) &&
          (tr.2 c != some (Val.str "")) then
        acc2.setCell tr.1 c (tr.2 c)
      else acc2
    else acc2).labelList.Nodup := by
  split
  · split
    · rw [labelList_setCell]; exact h
    · exact h
  · exact h

theorem amd_outer_nodup (acc : DF) (tr : String × RowFun)
    (h : acc.labelList.Nodup) :
    (if acc.hasLabel tr.1 then
        create_amd_template_df.cols.foldl (fun acc2 c =>
          if acc2.cols.contains c then
            if ((acc2.cell tr.1 c).isNone ||
                acc2.cell tr.1 c == some (Val.str "")) &&
                (tr.2 c != some (Val.str "")) then
              acc2.setCell tr.1 c (tr.2 c)
            else acc2
          else acc2) acc
      else
        { cols := acc.cols,
          rows := acc.rows ++
            [(tr.1, fun c => if acc.cols.contains c then tr.2 c else none)] }
      ).labelList.Nodup := by
  split
  · exact foldl_preserve (fun d => d.labelList.Nodup) _
      create_amd_template_df.cols acc h (fun a x _ ha => amd_inner_nodup tr a x ha)
  · rename_i hno
    have hmem : tr.1 ∉ acc.labelList :=
      not_mem_of_hasLabel_false (bool_eq_false hno)
    have hlab : ({ cols := acc.cols,
                   rows := acc.rows ++
                     [(tr.1, fun c =>
                       if acc.cols.contains c then tr.2 c else none)] } : DF
        ).labelList = acc.labelList ++ [tr.1] := by
      show (acc.rows ++ _).map Prod.fst = acc.rows.map Prod.fst ++ [tr.1]
      rw [List.map_append]
      rfl
    rw [hlab]
    exact ((List.perm_append_singleton tr.1 acc.labelList).nodup_iff).mpr
      (List.nodup_cons.mpr ⟨hmem, h⟩)

theorem amd_labels_nodup (df : DF) (name : String) (h : df.labelList.Nodup) :
    (apply_amd_template_if_needed df name).labelList.Nodup := by
  by_cases hamd : is_amd_company name = true
  · have hform : apply_amd_template_if_needed df name =
        (if (df.rows.isEmpty || df.cols.isEmpty) = true then create_amd_template_df
         else create_amd_template_df.rows.foldl (fun acc tr =>
          if acc.hasLabel tr.1 then
            create_amd_template_df.cols.foldl (fun acc2 c =>
              if acc2.cols.contains c then
                if ((acc2.cell tr.1 c).isNone ||
                    acc2.cell tr.1 c == some (Val.str "")) &&
                    (tr.2 c != some (Val.str "")) then
                  acc2.setCell tr.1 c (tr.2 c)
                else acc2
              else acc2) acc
          else
            { cols := acc.cols,
              rows := acc.rows ++
                [(tr.1, fun c =>
                  if acc.cols.contains c then tr.2 c else none)] }) df) := by
      simp only [apply_amd_template_if_needed]
      rw [hamd]
      rfl
    rw [hform]
    split
    · decide
    · exact foldl_preserve (fun d => d.labelList.Nodup) _
        create_amd_template_df.rows df h (fun a tr _ ha => amd_outer_nodup a tr ha)
  · have hamd' : is_amd_company name = false := bool_eq_false hamd
    have hform : apply_amd_template_if_needed df name = df := by
      simp only [apply_amd_template_if_needed]
      rw [hamd']
      rfl
    rw [hform]
    exact h

/-- C4 (amended): whenever the duplicate-row merge of the concatenated,
classified table quarantines nothing, the canonical table returned by the
reconciler has pairwise-distinct row labels through the merge, the
parenthetical-row drop and the optional AMD template enrichment.  (When a row
is quarantined the invariant can fail, since the first quarantined occurrence
keeps its bare name.) -/
theorem C4_uniqueness_amended (dfs : List DF) (company : Option String)
    (hne : dfs.isEmpty = false)
    (hq : (mergeQuarantine (preMergeTable dfs company)).isEmpty = true) :
    ∀ out : DF, (process_extracted_dfs dfs company).1 = some out →
      out.labelList.Nodup := by
  intro out hout
  have hmrg : (merge_duplicate_rows (preMergeTable dfs company)).labelList.Nodup := by
    rw [merge_labels _ hq]
    exact sortKeys_nodup _ (dedupKeepFirst_nodup _)
  have hNP : ({ cols := (merge_duplicate_rows (preMergeTable dfs company)).cols,
                rows := (merge_duplicate_rows (preMergeTable dfs company)).rows.filter
                  (fun r => !(containsParenPair r.1.data)) } : DF).labelList.Nodup :=
    filter_labels_nodup (merge_duplicate_rows (preMergeTable dfs company))
      (fun r => !(containsParenPair r.1.data)) hmrg
  cases company with
  | none =>
    have hEq : (process_extracted_dfs dfs none).1 =
        some ({ cols := (merge_duplicate_rows (preMergeTable dfs none)).cols,
                rows := (merge_duplicate_rows (preMergeTable dfs none)).rows.filter
                  (fun r => !(containsParenPair r.1.data)) } : DF) := by
      rw [process_extracted_dfs, hne]
      rfl
    rw [hEq] at hout
    obtain rfl := Option.some_inj.mp hout
    exact hNP
  | some cname =>
    have hEq : (process_extracted_dfs dfs (some cname)).1 =
        some (if cname.isEmpty = true then
            ({ cols := (merge_duplicate_rows (preMergeTable dfs (some cname))).cols,
               rows := (merge_duplicate_rows
                 (preMergeTable dfs (some cname))).rows.filter
                   (fun r => !(containsParenPair r.1.data)) } : DF)
          else apply_amd_template_if_needed
            ({ cols := (merge_duplicate_rows (preMergeTable dfs (some cname))).cols,
               rows := (merge_duplicate_rows
                 (preMergeTable dfs (some cname))).rows.filter
                   (fun r => !(containsParenPair r.1.data)) } : DF) cname) := by
      rw [process_extracted_dfs, hne]
      rfl
    rw [hEq] at hout
    obtain rfl := Option.some_inj.mp hout
    by_cases hce : cname.isEmpty = true
    · rw [if_pos hce]
      exact hNP
    · rw [if_neg hce]
      exact amd_labels_nodup _ cname hNP

end MarketData

set_option maxRecDepth 8000 in
/-- Witness for the amended C4: a single cleanly merging table yields a
canonical table with pairwise-distinct labels. -/
theorem C4_uniqueness_amended_witness :
    ((MarketData.process_extracted_dfs [MarketData.dfC4W] none).1.getD
      ⟨[], []⟩).labelList.Nodup := by
  exact MarketData.C4_uniqueness_amended [MarketData.dfC4W] none (by decide)
    (by with_unfolding_all decide)
    ((MarketData.process_extracted_dfs [MarketData.dfC4W] none).1.getD ⟨[], []⟩)
    (by with_unfolding_all rfl)

/-! ## C8: qualifier tokens never become revenue segments -/

namespace MarketData

theorem ne_true_of_eq_false {b : Bool} (h : b = false) : ¬ (b = true) := by
  intro hh
  rw [h] at hh
  exact Bool.noConfusion hh

theorem toNat_ofNat_valid {n : Nat} (h : n.isValidChar) :
    (Char.ofNat n).toNat = n := by
  unfold Char.ofNat
  rw [dif_pos h]
  rfl

theorem toLower_eq_of_upper {c : Char} (h : c.toNat ≥ 65 ∧ c.toNat ≤ 90) :
    c.toLower = Char.ofNat (c.toNat + 32) := by
  unfold Char.toLower
  rw [if_pos h]

theorem toLower_eq_self_of_not {c : Char} (h : ¬ (c.toNat ≥ 65 ∧ c.toNat ≤ 90)) :
    c.toLower = c := by
  unfold Char.toLower
  rw [if_neg h]

theorem toUpper_eq_of_lower {c : Char} (h : c.toNat ≥ 97 ∧ c.toNat ≤ 122) :
    c.toUpper = Char.ofNat (c.toNat - 32) := by
  unfold Char.toUpper
  rw [if_pos h]

theorem toUpper_eq_self_of_not {c : Char} (h : ¬ (c.toNat ≥ 97 ∧ c.toNat ≤ 122)) :
    c.toUpper = c := by
  unfold Char.toUpper
  rw [if_neg h]

theorem toLower_toLower (c : Char) : c.toLower.toLower = c.toLower := by
  by_cases h : c.toNat ≥ 65 ∧ c.toNat ≤ 90
  · rw [toLower_eq_of_upper h]
    have ht : (Char.ofNat (c.toNat + 32)).toNat = c.toNat + 32 :=
      toNat_ofNat_valid (Or.inl (by omega))
    exact toLower_eq_self_of_not (by rw [ht]; omega)
  · rw [toLower_eq_self_of_not h]
    exact toLower_eq_self_of_not h

theorem toLower_toUpper (c : Char) : c.toUpper.toLower = c.toLower := by
  by_cases h : c.toNat ≥ 97 ∧ c.toNat ≤ 122
  · rw [toUpper_eq_of_lower h]
    have ht : (Char.ofNat (c.toNat - 32)).toNat = c.toNat - 32 :=
      toNat_ofNat_valid (Or.inl (by omega))
    rw [toLower_eq_of_upper (by rw [ht]; omega), ht]
    have he : c.toNat - 32 + 32 = c.toNat := by omega
    rw [he, Char.ofNat_toNat]
    rw [toLower_eq_self_of_not (by omega)]
  · rw [toUpper_eq_self_of_not h]

theorem map_toLower_titleAux (prev : Bool) (s : List Char) :
    (titleAux prev s).map Char.toLower = s.map Char.toLower := by
  induction s generalizing prev with
  | nil => rfl
  | cons c t ih =>
    simp only [titleAux, List.map_cons]
    congr 1
    · by_cases hc : (isLowerAlpha c || isUpperAlpha c) = true
      · rw [if_pos hc]
        cases prev with
        | true =>
          rw [if_pos rfl]
          exact toLower_toLower c
        | false =>
          rw [if_neg (fun hh => Bool.noConfusion hh)]
          exact toLower_toUpper c
      · rw [if_neg hc]
    · exact ih _

theorem mem_of_mem_dropWhile {p : Char → Bool} {l : List Char} {c : Char}
    (h : c ∈ l.dropWhile p) : c ∈ l := by
  induction l with
  | nil => exact absurd h (List.not_mem_nil c)
  | cons a t ih =>
    by_cases ha : p a = true
    · rw [dropWhile_cons_pos ha] at h
      exact List.mem_cons_of_mem a (ih h)
    · rw [dropWhile_cons_neg (bool_eq_false ha)] at h
      exact h

theorem mem_of_mem_takeWhile {p : Char → Bool} {l : List Char} {c : Char}
    (h : c ∈ l.takeWhile p) : c ∈ l := by
  induction l with
  | nil => exact absurd h (List.not_mem_nil c)
  | cons a t ih =>
    by_cases ha : p a = true
    · rw [takeWhile_cons_pos ha] at h
      rcases List.mem_cons.mp h with rfl | h'
      · exact List.mem_cons_self _ _
      · exact List.mem_cons_of_mem a (ih h')
    · rw [takeWhile_cons_neg (bool_eq_false ha)] at h
      exact absurd h (List.not_mem_nil c)

theorem trimWs_subset {s : List Char} {c : Char} (h : c ∈ trimWs s) : c ∈ s := by
  unfold trimWs at h
  rw [List.mem_reverse] at h
  have h2 := mem_of_mem_dropWhile h
  rw [List.mem_reverse] at h2
  exact mem_of_mem_dropWhile h2

theorem parenScan2_subset : ∀ {s r : List Char}, parenScan2 s = some r →
    ∀ c ∈ r, c ∈ s := by
  intro s
  induction s with
  | nil =>
    intro r h
    exact Option.noConfusion h
  | cons a t ih =>
    intro r h c hc
    by_cases ha : a = ')'
    · rw [show parenScan2 (a :: t) = some t from by
        simp only [parenScan2, if_pos ha]] at h
      obtain rfl := Option.some_inj.mp h
      exact List.mem_cons_of_mem a hc
    · by_cases hn : a = '\n'
      · rw [show parenScan2 (a :: t) = none from by
          simp only [parenScan2, if_neg ha, if_pos hn]] at h
        exact Option.noConfusion h
      · rw [show parenScan2 (a :: t) = parenScan2 t from by
          simp only [parenScan2, if_neg ha, if_neg hn]] at h
        exact List.mem_cons_of_mem a (ih h c hc)

theorem removeParens2Aux_subset : ∀ (fuel : Nat) (s : List Char) (c : Char),
    c ∈ removeParens2Aux fuel s → c ∈ s := by
  intro fuel
  induction fuel with
  | zero => intro s c h; exact h
  | succ f ih =>
    intro s c h
    cases s with
    | nil => exact h
    | cons a t =>
      by_cases ha : a = '('
      · rw [show removeParens2Aux (f + 1) (a :: t) =
            (match parenScan2 t with
             | some rest => removeParens2Aux f rest
             | none => a :: removeParens2Aux f t) from by
          simp only [removeParens2Aux, if_pos ha]] at h
        cases hp : parenScan2 t with
        | some rest =>
          rw [hp] at h
          exact List.mem_cons_of_mem a (parenScan2_subset hp c (ih rest c h))
        | none =>
          rw [hp] at h
          rcases List.mem_cons.mp h with rfl | h'
          · exact List.mem_cons_self _ _
          · exact List.mem_cons_of_mem a (ih t c h')
      · rw [show removeParens2Aux (f + 1) (a :: t) =
            a :: removeParens2Aux f t from by
          simp only [removeParens2Aux, if_neg ha]] at h
        rcases List.mem_cons.mp h with rfl | h'
        · exact List.mem_cons_self _ _
        · exact List.mem_cons_of_mem a (ih t c h')

theorem removeParens2_subset {s : List Char} {c : Char}
    (h : c ∈ removeParens2 s) : c ∈ s :=
  removeParens2Aux_subset s.length s c h

theorem collapseSeps_cons_sep_true {a : Char} {t : List Char}
    (h : isSep3 a = true) :
    collapseSeps true (a :: t) = collapseSeps true t := by
  simp only [collapseSeps, if_pos h]
  rw [if_pos trivial]

theorem collapseSeps_cons_sep_false {a : Char} {t : List Char}
    (h : isSep3 a = true) :
    collapseSeps false (a :: t) = ' ' :: collapseSeps true t := by
  simp only [collapseSeps, if_pos h]
  rw [if_neg (fun hh => Bool.noConfusion hh)]

theorem collapseSeps_cons_nonsep (prev : Bool) {a : Char} {t : List Char}
    (h : isSep3 a = false) :
    collapseSeps prev (a :: t) = a :: collapseSeps false t := by
  simp only [collapseSeps]
  rw [if_neg (ne_true_of_eq_false h)]

theorem collapseSeps_mem : ∀ (prev : Bool) (s : List Char) (c : Char),
    c ∈ collapseSeps prev s → c = ' ' ∨ c ∈ s := by
  intro prev s
  induction s generalizing prev with
  | nil => intro c h; exact absurd h (List.not_mem_nil c)
  | cons a t ih =>
    intro c h
    by_cases ha : isSep3 a = true
    · cases prev with
      | true =>
        rw [collapseSeps_cons_sep_true ha] at h
        rcases ih true c h with h' | h'
        · exact Or.inl h'
        · exact Or.inr (List.mem_cons_of_mem a h')
      | false =>
        rw [collapseSeps_cons_sep_false ha] at h
        rcases List.mem_cons.mp h with rfl | h'
        · exact Or.inl rfl
        · rcases ih true c h' with h'' | h''
          · exact Or.inl h''
          · exact Or.inr (List.mem_cons_of_mem a h'')
    · rw [collapseSeps_cons_nonsep prev (bool_eq_false ha)] at h
      rcases List.mem_cons.mp h with rfl | h'
      · exact Or.inr (List.mem_cons_self _ _)
      · rcases ih false c h' with h'' | h''
        · exact Or.inl h''
        · exact Or.inr (List.mem_cons_of_mem a h'')

theorem isPrefixOf_cons_cons {a b : Char} {as bs : List Char} :
    (a :: as).isPrefixOf (b :: bs) = (a == b && as.isPrefixOf bs) := rfl

theorem collapse_isPrefix : ∀ (w : List Char),
    w.all (fun ch => !(isSep3 ch) && !(ch == ' ')) = true →
    ∀ s : List Char, w.isPrefixOf (collapseSeps false s) = true →
      w.isPrefixOf s = true := by
  intro w
  induction w with
  | nil =>
    intro _ s _
    cases s <;> rfl
  | cons a w' ih =>
    intro hw s h
    have ha := (List.all_eq_true.mp hw) a (List.mem_cons_self a w')
    rw [Bool.and_eq_true] at ha
    have ha2 : (a == ' ') = false := by
      have h2 := ha.2
      revert h2
      cases (a == ' ') <;> simp
    have hw' : w'.all (fun ch => !(isSep3 ch) && !(ch == ' ')) = true := by
      rw [List.all_eq_true] at hw ⊢
      exact fun x hx => hw x (List.mem_cons_of_mem a hx)
    cases s with
    | nil => exact Bool.noConfusion h
    | cons b t =>
      by_cases hb : isSep3 b = true
      · rw [collapseSeps_cons_sep_false hb] at h
        rw [isPrefixOf_cons_cons, Bool.and_eq_true] at h
        rw [ha2] at h
        exact Bool.noConfusion h.1
      · rw [collapseSeps_cons_nonsep false (bool_eq_false hb)] at h
        rw [isPrefixOf_cons_cons, Bool.and_eq_true] at h ⊢
        exact ⟨h.1, ih hw' t h.2⟩

theorem collapse_containsSub : ∀ (s : List Char) (prev : Bool) (w : List Char),
    w.isEmpty = false →
    w.all (fun ch => !(isSep3 ch) && !(ch == ' ')) = true →
    containsSub (collapseSeps prev s) w = true → containsSub s w = true := by
  intro s
  induction s with
  | nil => intro prev w _ _ h; exact h
  | cons a t ih =>
    intro prev w hne hall h
    by_cases ha : isSep3 a = true
    · have hcc : containsSub (collapseSeps true t) w = true := by
        cases prev with
        | true =>
          rw [collapseSeps_cons_sep_true ha] at h
          exact h
        | false =>
          rw [collapseSeps_cons_sep_false ha] at h
          simp only [containsSub] at h
          rw [Bool.or_eq_true] at h
          rcases h with h | h
          · cases w with
            | nil => exact Bool.noConfusion hne
            | cons wc wt =>
              rw [isPrefixOf_cons_cons, Bool.and_eq_true] at h
              have hwc := (List.all_eq_true.mp hall) wc (List.mem_cons_self wc wt)
              rw [Bool.and_eq_true] at hwc
              have hcsp : (wc == ' ') = false := by
                have h2 := hwc.2
                revert h2
                cases (wc == ' ') <;> simp
              rw [hcsp] at h
              exact Bool.noConfusion h.1
          · exact h
      have ht := ih true w hne hall hcc
      simp only [containsSub]
      rw [Bool.or_eq_true]
      exact Or.inr ht
    · rw [collapseSeps_cons_nonsep prev (bool_eq_false ha)] at h
      simp only [containsSub] at h ⊢
      rw [Bool.or_eq_true] at h ⊢
      rcases h with h | h
      · left
        cases w with
        | nil => rfl
        | cons wc wt =>
          rw [isPrefixOf_cons_cons, Bool.and_eq_true] at h ⊢
          refine ⟨h.1, ?_⟩
          have hwt : wt.all (fun ch => !(isSep3 ch) && !(ch == ' ')) = true := by
            rw [List.all_eq_true] at hall ⊢
            exact fun x hx => hall x (List.mem_cons_of_mem wc hx)
          exact collapse_isPrefix wt hwt t h.2
      · exact Or.inr (ih false w hne hall h)

theorem segTitle_lower_contains (seg w : List Char)
    (hfix : ∀ c ∈ seg, c.toLower = c)
    (hne : w.isEmpty = false)
    (hall : w.all (fun ch => !(isSep3 ch) && !(ch == ' ')) = true)
    (hn : containsSub seg w = false) :
    containsSub ((segTitleOf seg).map Char.toLower) w = false := by
  have h1 : (segTitleOf seg).map Char.toLower =
      (collapseSeps false seg).map Char.toLower := map_toLower_titleAux false _
  have h2 : (collapseSeps false seg).map Char.toLower = collapseSeps false seg := by
    apply map_eq_self_of_fix
    intro c hc
    rcases collapseSeps_mem false seg c hc with rfl | hc'
    · decide
    · exact hfix c hc'
  rw [h1, h2]
  by_cases hcc : containsSub (collapseSeps false seg) w = true
  · exfalso
    have hx := collapse_containsSub seg false w hne hall hcc
    rw [hn] at hx
    exact Bool.noConfusion hx
  · exact bool_eq_false hcc

end MarketData

namespace MarketData

theorem revMatch2Go_subset {pre : List Char} : ∀ (b : Nat) {base : List Char},
    revMatch2Go pre b = some base → ∀ c ∈ base, c ∈ pre := by
  intro b
  induction b with
  | zero => intro base h; exact Option.noConfusion h
  | succ k ih =>
    intro base h c hc
    simp only [revMatch2Go] at h
    split at h
    · obtain rfl := Option.some_inj.mp h
      exact (List.take_sublist _ _).subset hc
    · exact ih h c hc

theorem revMatch2_subset {low seg0 : List Char} (h : revMatch2 low = some seg0) :
    ∀ c ∈ seg0, c ∈ low := by
  intro c hc
  simp only [revMatch2] at h
  split at h
  · exact (List.take_sublist _ _).subset (revMatch2Go_subset _ h c hc)
  · exact Option.noConfusion h

theorem revMatch1_subset {low seg0 : List Char} (h : revMatch1 low = some seg0) :
    ∀ c ∈ seg0, c ∈ low := by
  intro c hc
  simp only [revMatch1, List.span_eq_take_drop] at h
  split at h
  · split at h
    · split at h
      · split at h
        · rename_i ch rest2 heq
          split at h
          · exact Option.noConfusion h
          · obtain rfl := Option.some_inj.mp h
            rcases List.mem_cons.mp hc with rfl | hfalse
            · have hmem : c ∈ ((low.drop 7).takeWhile isSepCh).reverse := by
                rw [heq]
                exact List.mem_cons_self _ _
              rw [List.mem_reverse] at hmem
              exact (List.drop_sublist 7 low).subset (mem_of_mem_takeWhile hmem)
            · exact absurd hfalse (List.not_mem_nil c)
        · exact Option.noConfusion h
      · exact Option.noConfusion h
    · split at h
      · obtain rfl := Option.some_inj.mp h
        exact (List.drop_sublist 7 low).subset (mem_of_mem_dropWhile hc)
      · exact Option.noConfusion h
  · exact Option.noConfusion h

theorem C8_generic_body (df : DF) (idx : String) (r : String × RowFun)
    (h : r ∈ (if !(containsSub ((trimWs idx.data).map Char.toLower)
            ("revenue".data)) then ([] : List (String × RowFun))
        else
          match (match revMatch1 ((trimWs idx.data).map Char.toLower) with
                 | some m => some m
                 | none => revMatch2 ((trimWs idx.data).map Char.toLower)) with
          | none => []
          | some seg0 =>
            if (trimWs (removeParens2 seg0)).isEmpty then []
            else if SKIP_SEGMENT_WORDS.any (fun w =>
                containsSub (trimWs (removeParens2 seg0)) w.data) then []
            else if segIsUnwanted (trimWs (removeParens2 seg0)) then []
            else (df.rows.filter (fun rr => rr.1 == idx)).map
              (fun rr => ("revenue-" ++
                String.mk (segTitleOf (trimWs (removeParens2 seg0))), rr.2)))) :
    ∃ seg : List Char,
      r.1 = "revenue-" ++ String.mk (segTitleOf seg) ∧
      SKIP_SEGMENT_WORDS.all (fun w =>
        !(containsSub ((segTitleOf seg).map Char.toLower) w.data)) = true ∧
      SKIP_SEGMENT_WORDS.any (fun w => containsSub seg w.data) = false ∧
      segIsUnwanted seg = false := by
  split at h
  · exact absurd h (List.not_mem_nil r)
  · split at h
    · exact absurd h (List.not_mem_nil r)
    · rename_i seg0 heq
      split at h
      · exact absurd h (List.not_mem_nil r)
      · split at h
        · exact absurd h (List.not_mem_nil r)
        · split at h
          · exact absurd h (List.not_mem_nil r)
          · rename_i hem hskip hunw
            obtain ⟨rr, hrr, rfl⟩ := List.mem_map.mp h
            have hany : SKIP_SEGMENT_WORDS.any (fun w =>
                containsSub (trimWs (removeParens2 seg0)) w.data) = false :=
              bool_eq_false hskip
            have hlowfix : ∀ c ∈ (trimWs idx.data).map Char.toLower,
                c.toLower = c := by
              intro c hc
              obtain ⟨d, _, rfl⟩ := List.mem_map.mp hc
              exact toLower_toLower d
            have hseg0low : ∀ c ∈ seg0,
                c ∈ (trimWs idx.data).map Char.toLower := by
              cases hx : revMatch1 ((trimWs idx.data).map Char.toLower) with
              | some m =>
                rw [hx] at heq
                have heq2 : some m = some seg0 := heq
                obtain rfl := Option.some_inj.mp heq2
                exact revMatch1_subset hx
              | none =>
                rw [hx] at heq
                have heq2 : revMatch2 ((trimWs idx.data).map Char.toLower) =
                    some seg0 := heq
                exact revMatch2_subset heq2
            have hfix : ∀ c ∈ trimWs (removeParens2 seg0), c.toLower = c :=
              fun c hc =>
                hlowfix c (hseg0low c (removeParens2_subset (trimWs_subset hc)))
            have hwall : ∀ w ∈ SKIP_SEGMENT_WORDS,
                w.data.isEmpty = false ∧
                w.data.all (fun ch => !(isSep3 ch) && !(ch == ' ')) = true := by
              decide
            refine ⟨trimWs (removeParens2 seg0), rfl, ?_, hany,
              bool_eq_false hunw⟩
            rw [List.all_eq_true]
            intro w hw
            have hcw : containsSub (trimWs (removeParens2 seg0)) w.data = false := by
              have := (List.any_eq_false.mp hany) w hw
              exact bool_eq_false this
            have hres := segTitle_lower_contains (trimWs (removeParens2 seg0))
              w.data hfix (hwall w hw).1 (hwall w hw).2 hcw
            rw [hres]
            rfl

/-- C8: the revenue-segment classifiers never emit a segment row for an
analytical qualifier.  Every row produced by the generic pattern-based
detector is `revenue-` followed by the title-cased segment of a label that
contains none of the qualifier words (growth, margin, qoq, yoy, mix, asp,
price, chg, change) — in particular the emitted segment itself, lowercased,
contains no qualifier word — and every segment name in the company dictionary
(and the fixed `other` segment) is likewise free of qualifier words. -/
theorem C8_no_qualifier_segments :
    (∀ (df : DF) (r : String × RowFun),
      r ∈ (extract_revenue_segments_generic df).rows →
      ∃ seg : List Char,
        r.1 = "revenue-" ++ String.mk (segTitleOf seg) ∧
        SKIP_SEGMENT_WORDS.all (fun w =>
          !(containsSub ((segTitleOf seg).map Char.toLower) w.data)) = true ∧
        SKIP_SEGMENT_WORDS.any (fun w => containsSub seg w.data) = false ∧
        segIsUnwanted seg = false) ∧
    (∀ e ∈ company_segments, ∀ s ∈ e.2,
      SKIP_SEGMENT_WORDS.all (fun w =>
        !(containsSub (s.data.map Char.toLower) w.data)) = true) ∧
    SKIP_SEGMENT_WORDS.all (fun w =>
      !(containsSub ("other".data) w.data)) = true := by
  refine ⟨?_, by decide, by decide⟩
  intro df r hr
  have hr2 : r ∈ (dedupKeepFirst df.labelList).flatMap (fun idx =>
      if !(containsSub ((trimWs idx.data).map Char.toLower)
          ("revenue".data)) then ([] : List (String × RowFun))
      else
        match (match revMatch1 ((trimWs idx.data).map Char.toLower) with
               | some m => some m
               | none => revMatch2 ((trimWs idx.data).map Char.toLower)) with
        | none => []
        | some seg0 =>
          if (trimWs (removeParens2 seg0)).isEmpty then []
          else if SKIP_SEGMENT_WORDS.any (fun w =>
              containsSub (trimWs (removeParens2 seg0)) w.data) then []
          else if segIsUnwanted (trimWs (removeParens2 seg0)) then []
          else (df.rows.filter (fun rr => rr.1 == idx)).map
            (fun rr => ("revenue-" ++
              String.mk (segTitleOf (trimWs (removeParens2 seg0))), rr.2))) := by
    revert hr
    simp only [extract_revenue_segments_generic]
    split
    · intro hr
      exact absurd hr (List.not_mem_nil r)
    · intro hr
      exact hr
  obtain ⟨idx, hidx, hbody⟩ := List.mem_flatMap.mp hr2
  exact C8_generic_body df idx r hbody

end MarketData

/-- Witness for C8: the label `gaming revenue` yields the row
`revenue-Gaming`, whose segment `gaming` contains no qualifier word. -/
theorem C8_no_qualifier_segments_witness :
    ∃ seg : List Char,
      (("revenue-Gaming", MarketData.rowC8) : String × MarketData.RowFun).1 =
        "revenue-" ++ String.mk (MarketData.segTitleOf seg) ∧
      MarketData.SKIP_SEGMENT_WORDS.all (fun w =>
        !(MarketData.containsSub
          ((MarketData.segTitleOf seg).map Char.toLower) w.data)) = true ∧
      MarketData.SKIP_SEGMENT_WORDS.any (fun w =>
        MarketData.containsSub seg w.data) = false ∧
      MarketData.segIsUnwanted seg = false := by
  have hrows : (MarketData.extract_revenue_segments_generic MarketData.dfC8W).rows
      = [("revenue-Gaming", MarketData.rowC8)] := by
    rfl
  exact (MarketData.C8_no_qualifier_segments).1 MarketData.dfC8W
    ("revenue-Gaming", MarketData.rowC8)
    (by rw [hrows]; exact List.mem_singleton_self _)

/-! ## C2: suffix-row folding moves values first-write-wins -/

namespace MarketData

theorem contains_append_left {l₁ : List String} (l₂ : List String) {a : String}
    (h : l₁.contains a = true) : (l₁ ++ l₂).contains a = true := by
  have h1 : a ∈ l₁ := List.elem_iff.mp h
  exact List.elem_iff.mpr (List.mem_append_left l₂ h1)

theorem contains_append_self (l : List String) (t : String) :
    (l ++ [t]).contains t = true :=
  List.elem_iff.mpr (List.mem_append_right l (List.mem_singleton_self t))

theorem contains_append_not {l : List String} {a t : String}
    (h : l.contains a = false) (hne : a ≠ t) :
    (l ++ [t]).contains a = false := by
  have h1 : a ∉ l := fun hm => (ne_true_of_eq_false h) (List.elem_iff.mpr hm)
  refine bool_eq_false (fun hm => ?_)
  rcases List.mem_append.mp (List.elem_iff.mp hm) with hm' | hm'
  · exact h1 hm'
  · exact hne (List.mem_singleton.mp hm')

theorem cell_some_contains {df : DF} {l c : String} {v : Val}
    (h : df.cell l c = some v) : df.cols.contains c = true := by
  by_cases hc : df.cols.contains c = true
  · exact hc
  · simp only [DF.cell] at h
    rw [if_neg hc] at h
    exact Option.noConfusion h

theorem cell_append_row_of_hasLabel (acc : DF) (rr : String × RowFun)
    {l : String} (h : acc.hasLabel l = true) (c : String) :
    ({ cols := acc.cols, rows := acc.rows ++ [rr] } : DF).cell l c =
      acc.cell l c := by
  simp only [DF.hasLabel] at h
  rw [any_eq_find?_isSome] at h
  simp only [DF.cell]
  cases hf : acc.rows.find? (fun r => r.1 == l) with
  | none =>
    rw [hf] at h
    exact Bool.noConfusion h
  | some r => rw [find?_append_some hf]

theorem cell_append_self_none (acc : DF) {l : String}
    (h : acc.hasLabel l = false) (c : String) :
    ({ cols := acc.cols,
       rows := acc.rows ++ [(l, (fun _ => none : RowFun))] } : DF).cell l c =
      none := by
  simp only [DF.cell]
  cases hf : acc.rows.find? (fun r => r.1 == l) with
  | some r =>
    exfalso
    simp only [DF.hasLabel] at h
    rw [any_eq_find?_isSome, hf] at h
    exact Bool.noConfusion h
  | none =>
    rw [find?_append_none hf,
      fd_cons_pos (p := fun r : String × RowFun => r.1 == l)
        (a := (l, (fun _ => none : RowFun))) [] (beq_self_eq_true l)]
    split <;> rfl

theorem hasLabel_append_self (acc : DF) (l : String) (f : RowFun) :
    ({ cols := acc.cols, rows := acc.rows ++ [(l, f)] } : DF).hasLabel l =
      true := by
  simp only [DF.hasLabel]
  rw [List.any_append]
  have h1 : ([(l, f)] : List (String × RowFun)).any (fun r => r.1 == l) = true := by
    simp only [List.any_cons, List.any_nil, Bool.or_false]
    exact beq_self_eq_true l
  rw [h1, Bool.or_true]

theorem hasLabel_append (acc : DF) (rr : String × RowFun) {l : String}
    (h : acc.hasLabel l = true) :
    ({ cols := acc.cols, rows := acc.rows ++ [rr] } : DF).hasLabel l = true := by
  simp only [DF.hasLabel] at h ⊢
  rw [List.any_append, h, Bool.true_or]

theorem hasLabel_addCol (acc : DF) (t l : String) :
    (acc.addColIfMissing t).hasLabel l = acc.hasLabel l := by
  simp only [DF.addColIfMissing]
  split <;> rfl

theorem cols_addCol_mono (acc : DF) (t : String) {c : String}
    (h : acc.cols.contains c = true) :
    (acc.addColIfMissing t).cols.contains c = true := by
  simp only [DF.addColIfMissing]
  split
  · exact h
  · exact contains_append_left [t] h

theorem cell_addCol_of_contains (acc : DF) (t : String) {l c : String}
    (hc : acc.cols.contains c = true) :
    (acc.addColIfMissing t).cell l c = acc.cell l c := by
  simp only [DF.addColIfMissing]
  split
  · rfl
  · simp only [DF.cell]
    rw [if_pos (contains_append_left [t] hc), if_pos hc]

theorem cell_addCol_of_not_contains (acc : DF) (t : String) {l c : String}
    (hc : acc.cols.contains c = false) (hct : c ≠ t) :
    (acc.addColIfMissing t).cell l c = none := by
  simp only [DF.addColIfMissing]
  split
  · simp only [DF.cell]
    rw [if_neg (ne_true_of_eq_false hc)]
  · simp only [DF.cell]
    rw [if_neg (ne_true_of_eq_false (contains_append_not hc hct))]

theorem cell_setCell_read (acc : DF) {l c : String} (v : Option Val)
    (hl : acc.hasLabel l = true) (hc : acc.cols.contains c = true) :
    (acc.setCell l c v).cell l c = v := by
  simp only [DF.hasLabel] at hl
  rw [any_eq_find?_isSome] at hl
  simp only [DF.setCell, DF.cell]
  cases hf : acc.rows.find? (fun r => r.1 == l) with
  | none =>
    rw [hf] at hl
    exact Bool.noConfusion hl
  | some r =>
    rw [find?_setCellRows_found _ _ _ _ _ hf, if_pos hc]
    show (if (c == c) = true then v else r.2 c) = v
    rw [if_pos (beq_self_eq_true c)]

theorem find?_filter_ne (rows : List (String × RowFun)) {l lab : String}
    (h : l ≠ lab) :
    (rows.filter (fun r => r.1 != lab)).find? (fun r => r.1 == l) =
      rows.find? (fun r => r.1 == l) := by
  induction rows with
  | nil => rfl
  | cons r t ih =>
    by_cases hrl : (r.1 == l) = true
    · have hrlab : (r.1 != lab) = true := by
        have : r.1 = l := eq_of_beq hrl
        rw [this]
        have hne : (l == lab) = false := bool_eq_false (fun hb => h (eq_of_beq hb))
        simp only [bne, hne]
        rfl
      rw [List.filter_cons_of_pos (p := fun r : String × RowFun => r.1 != lab) (a := r) hrlab,
        fd_cons_pos (p := fun r : String × RowFun => r.1 == l) (a := r) _ hrl,
        fd_cons_pos (p := fun r : String × RowFun => r.1 == l) (a := r) t hrl]
    · have hrl' : (r.1 == l) = false := bool_eq_false hrl
      by_cases hrlab : (r.1 != lab) = true
      · rw [List.filter_cons_of_pos (p := fun r : String × RowFun => r.1 != lab) (a := r) hrlab,
          fd_cons_neg (p := fun r : String × RowFun => r.1 == l) (a := r) _ hrl',
          fd_cons_neg (p := fun r : String × RowFun => r.1 == l) (a := r) t hrl',
          ih]
      · rw [List.filter_cons_of_neg (p := fun r : String × RowFun => r.1 != lab) (a := r) hrlab,
          fd_cons_neg (p := fun r : String × RowFun => r.1 == l) (a := r) t hrl',
          ih]

theorem cell_filter_ne (d : DF) {l lab : String} (h : l ≠ lab) (c : String) :
    ({ cols := d.cols,
       rows := d.rows.filter (fun r => r.1 != lab) } : DF).cell l c =
      d.cell l c := by
  simp only [DF.cell]
  rw [find?_filter_ne _ h]

theorem hasLabel_filter_self (d : DF) (lab : String) :
    ({ cols := d.cols,
       rows := d.rows.filter (fun r => r.1 != lab) } : DF).hasLabel lab =
      false := by
  simp only [DF.hasLabel]
  rw [List.any_eq_false]
  intro r hr
  have hp := List.of_mem_filter hr
  intro hb
  rw [eq_of_beq hb] at hp
  simp [bne] at hp

theorem tidyT_setCellRows {rows : List (String × RowFun)}
    {label col : String} {v : Option Val} {t : String}
    (h : ∀ r ∈ rows, (r.2 : RowFun) t = none) (hct : t ≠ col) :
    ∀ r ∈ setCellRows rows label col v, (r.2 : RowFun) t = none := by
  induction rows with
  | nil => intro r hr; exact absurd hr (List.not_mem_nil r)
  | cons r0 tl ih =>
    intro r hr
    by_cases h0 : (r0.1 == label) = true
    · rw [show setCellRows (r0 :: tl) label col v =
          (r0.1, fun c => if c == col then v else r0.2 c) :: tl from by
        simp only [setCellRows, if_pos h0]] at hr
      rcases List.mem_cons.mp hr with rfl | hr'
      · show (if (t == col) = true then v else r0.2 t) = none
        rw [if_neg (ne_true_of_eq_false
          (bool_eq_false (fun hb => hct (eq_of_beq hb)))),
          h r0 (List.mem_cons_self _ _)]
      · exact h r (List.mem_cons_of_mem r0 hr')
    · rw [show setCellRows (r0 :: tl) label col v =
          r0 :: setCellRows tl label col v from by
        simp only [setCellRows, if_neg h0]] at hr
      rcases List.mem_cons.mp hr with rfl | hr'
      · exact h r (List.mem_cons_self _ _)
      · exact ih (fun x hx => h x (List.mem_cons_of_mem r0 hx)) r hr'

end MarketData

namespace MarketData

theorem hasLabel_of_cell_some {df : DF} {l c : String} {v : Val}
    (h : df.cell l c = some v) : df.hasLabel l = true := by
  simp only [DF.cell] at h
  by_cases hc : df.cols.contains c = true
  · rw [if_pos hc] at h
    cases hf : df.rows.find? (fun r => r.1 == l) with
    | none =>
      rw [hf] at h
      exact Option.noConfusion h
    | some r =>
      simp only [DF.hasLabel]
      rw [any_eq_find?_isSome, hf]
      rfl
  · rw [if_neg hc] at h
    exact Option.noConfusion h

theorem contains_addCol_self (A : DF) (t : String) :
    (A.addColIfMissing t).cols.contains t = true := by
  simp only [DF.addColIfMissing]
  split
  · rename_i h
    exact h
  · exact contains_append_self _ _

theorem C2_write_phase_mono (bstd tcol : String) (w : Val) {l c : String}
    {v : Val} (A2 : DF) (h2 : A2.cell l c = some v) :
    (if (A2.cell bstd tcol).isNone then A2.setCell bstd tcol (some w)
     else A2).cell l c = some v := by
  split
  · rename_i hguard
    by_cases hlc : l = bstd ∧ c = tcol
    · exfalso
      obtain ⟨rfl, rfl⟩ := hlc
      rw [h2] at hguard
      rw [Option.isNone_some] at hguard
      exact Bool.noConfusion hguard
    · rw [cell_setCell_ne _ _ _ _ _ _ (not_and_or.mp hlc)]
      exact h2
  · exact h2

theorem C2_chain_cell (bstd tcol : String) {l c : String} {v : Val} (acc : DF)
    (h : acc.cell l c = some v) :
    ((if acc.hasLabel bstd then acc
      else { cols := acc.cols,
             rows := acc.rows ++ [(bstd, fun _ => none)] }).addColIfMissing
        tcol).cell l c = some v := by
  have hcl : acc.cols.contains c = true := cell_some_contains h
  have h1 : (if acc.hasLabel bstd then acc
      else { cols := acc.cols,
             rows := acc.rows ++ [(bstd, fun _ => none)] }).cell l c
      = some v := by
    split
    · exact h
    · rw [cell_append_row_of_hasLabel acc _ (hasLabel_of_cell_some h)]
      exact h
  have hc1 : (if acc.hasLabel bstd then acc
      else { cols := acc.cols,
             rows := acc.rows ++ [(bstd, fun _ => none)] }).cols.contains c
      = true := by
    split
    · exact hcl
    · exact hcl
  rw [cell_addCol_of_contains _ _ hc1]
  exact h1

theorem C2_step_mono (bstd suf : String) (row : RowFun) {l c : String}
    {v : Val} (acc : DF) (col : String) (h : acc.cell l c = some v) :
    (c2Step bstd suf row acc col).cell l c = some v := by
  cases hy : is_year_col col with
  | none =>
    rw [show c2Step bstd suf row acc col = acc from by simp only [c2Step, hy]]
    exact h
  | some yi =>
    cases hr : row col with
    | none =>
      rw [show c2Step bstd suf row acc col = acc from by
        simp only [c2Step, hy, hr]]
      exact h
    | some w =>
      rw [show c2Step bstd suf row acc col =
          (if (((if acc.hasLabel bstd then acc
              else { cols := acc.cols,
                     rows := acc.rows ++ [(bstd, fun _ => none)] }).addColIfMissing
                (targetColOf suf yi.1 yi.2)).cell bstd
                  (targetColOf suf yi.1 yi.2)).isNone then
            ((if acc.hasLabel bstd then acc
              else { cols := acc.cols,
                     rows := acc.rows ++ [(bstd, fun _ => none)] }).addColIfMissing
                (targetColOf suf yi.1 yi.2)).setCell bstd
                  (targetColOf suf yi.1 yi.2) (some w)
          else
            ((if acc.hasLabel bstd then acc
              else { cols := acc.cols,
                     rows := acc.rows ++ [(bstd, fun _ => none)] }).addColIfMissing
                (targetColOf suf yi.1 yi.2))) from by
        simp only [c2Step, hy, hr]]
      exact C2_write_phase_mono bstd (targetColOf suf yi.1 yi.2) w _
        (C2_chain_cell bstd (targetColOf suf yi.1 yi.2) acc h)

theorem C2_fold_mono (bstd suf : String) (row : RowFun) {l c : String}
    {v : Val} (cl : List String) (acc : DF) (h : acc.cell l c = some v) :
    (cl.foldl (c2Step bstd suf row) acc).cell l c = some v :=
  foldl_preserve (fun d => d.cell l c = some v) _ cl acc h
    (fun a x _ ha => C2_step_mono bstd suf row a x ha)

theorem C2_inv_appendBase (df : DF) (bstd target : String) (acc : DF)
    (h : C2Inv df bstd target acc) :
    C2Inv df bstd target (if acc.hasLabel bstd then acc
      else { cols := acc.cols, rows := acc.rows ++ [(bstd, fun _ => none)] }) := by
  obtain ⟨h1, h2, h3⟩ := h
  split
  · exact ⟨h1, h2, h3⟩
  · rename_i hnb
    refine ⟨h1, ?_, ?_⟩
    · intro r hr2 hct
      rcases List.mem_append.mp hr2 with hr' | hr'
      · exact h2 r hr' hct
      · rw [List.mem_singleton.mp hr']
    · exact cell_append_self_none acc (bool_eq_false hnb) target

theorem C2_inv_addCol (df : DF) (bstd target tcol : String) (A1 : DF)
    (htne : tcol ≠ target) (h : C2Inv df bstd target A1) :
    C2Inv df bstd target (A1.addColIfMissing tcol) := by
  obtain ⟨g1, g2, g3⟩ := h
  refine ⟨fun c hc => cols_addCol_mono A1 _ (g1 c hc), ?_, ?_⟩
  · intro r hr2 hct
    have hctA1 : A1.cols.contains target = false := by
      by_cases hx : A1.cols.contains target = true
      · rw [cols_addCol_mono A1 _ hx] at hct
        exact Bool.noConfusion hct
      · exact bool_eq_false hx
    have hrows : (A1.addColIfMissing tcol).rows = A1.rows := by
      simp only [DF.addColIfMissing]
      split <;> rfl
    rw [hrows] at hr2
    exact g2 r hr2 hctA1
  · by_cases hct : A1.cols.contains target = true
    · rw [cell_addCol_of_contains A1 _ hct]
      exact g3
    · exact cell_addCol_of_not_contains A1 _ (bool_eq_false hct) (Ne.symm htne)

theorem C2_inv_setCell (df : DF) (bstd target tcol : String) (w : Option Val)
    (A2 : DF) (htne : tcol ≠ target) (h : C2Inv df bstd target A2) :
    C2Inv df bstd target (A2.setCell bstd tcol w) := by
  obtain ⟨k1, k2, k3⟩ := h
  refine ⟨?_, ?_, ?_⟩
  · intro c hc
    exact k1 c hc
  · intro r hr2 hct
    exact tidyT_setCellRows (fun x hx => k2 x hx hct) (Ne.symm htne) r hr2
  · rw [cell_setCell_ne _ _ _ _ _ _ (Or.inr (Ne.symm htne))]
    exact k3

theorem C2_inv_guard (df : DF) (bstd target tcol : String) (w : Val) (A2 : DF)
    (htne : tcol ≠ target) (h : C2Inv df bstd target A2) :
    C2Inv df bstd target (if (A2.cell bstd tcol).isNone then
      A2.setCell bstd tcol (some w) else A2) := by
  split
  · exact C2_inv_setCell df bstd target tcol (some w) A2 htne h
  · exact h

theorem C2_step_inv (df : DF) (bstd suf target : String) (row : RowFun)
    (acc : DF) (col : String)
    (hne : ∀ yi, is_year_col col = some yi → targetColOf suf yi.1 yi.2 ≠ target)
    (h : C2Inv df bstd target acc) :
    C2Inv df bstd target (c2Step bstd suf row acc col) := by
  cases hy : is_year_col col with
  | none =>
    rw [show c2Step bstd suf row acc col = acc from by simp only [c2Step, hy]]
    exact h
  | some yi =>
    cases hr : row col with
    | none =>
      rw [show c2Step bstd suf row acc col = acc from by
        simp only [c2Step, hy, hr]]
      exact h
    | some w =>
      have htne : targetColOf suf yi.1 yi.2 ≠ target := hne yi hy
      rw [show c2Step bstd suf row acc col =
          (if (((if acc.hasLabel bstd then acc
              else { cols := acc.cols,
                     rows := acc.rows ++ [(bstd, fun _ => none)] }).addColIfMissing
                (targetColOf suf yi.1 yi.2)).cell bstd
                  (targetColOf suf yi.1 yi.2)).isNone then
            ((if acc.hasLabel bstd then acc
              else { cols := acc.cols,
                     rows := acc.rows ++ [(bstd, fun _ => none)] }).addColIfMissing
                (targetColOf suf yi.1 yi.2)).setCell bstd
                  (targetColOf suf yi.1 yi.2) (some w)
          else
            ((if acc.hasLabel bstd then acc
              else { cols := acc.cols,
                     rows := acc.rows ++ [(bstd, fun _ => none)] }).addColIfMissing
                (targetColOf suf yi.1 yi.2))) from by
        simp only [c2Step, hy, hr]]
      have hI2 : C2Inv df bstd target
          ((if acc.hasLabel bstd then acc
            else { cols := acc.cols,
                   rows := acc.rows ++ [(bstd, fun _ => none)] }).addColIfMissing
              (targetColOf suf yi.1 yi.2)) :=
        C2_inv_addCol df bstd target _ _ htne
          (C2_inv_appendBase df bstd target acc h)
      exact C2_inv_guard df bstd target _ w _ htne hI2

theorem C2_addCol_target_none (df : DF) (bstd target : String) (A1 : DF)
    (h : C2Inv df bstd target A1) :
    (A1.addColIfMissing target).cell bstd target = none := by
  obtain ⟨g1, g2, g3⟩ := h
  by_cases hct : A1.cols.contains target = true
  · rw [cell_addCol_of_contains _ _ hct]
    exact g3
  · have haddeq : A1.addColIfMissing target =
        { cols := A1.cols ++ [target], rows := A1.rows } := by
      simp only [DF.addColIfMissing]
      rw [if_neg hct]
    rw [haddeq]
    simp only [DF.cell]
    rw [if_pos (contains_append_self _ _)]
    cases hf : A1.rows.find? (fun r => r.1 == bstd) with
    | none => rfl
    | some r =>
      show (r.2 : RowFun) target = none
      exact g2 r (List.mem_of_find?_eq_some hf) (bool_eq_false hct)

theorem C2_fold_write (df : DF) (bstd suf target : String) (row : RowFun) :
    ∀ (cl : List String) (acc : DF),
      C2Inv df bstd target acc →
      ∀ (col : String) (yyyy : List Char) (isF : Bool) (v : Val),
        col ∈ cl →
        is_year_col col = some (yyyy, isF) →
        targetColOf suf yyyy isF = target →
        row col = some v →
        (∀ c' ∈ cl, ∀ yi', is_year_col c' = some yi' →
          targetColOf suf yi'.1 yi'.2 = target → c' = col) →
        (cl.foldl (c2Step bstd suf row) acc).cell bstd target = some v := by
  intro cl
  induction cl with
  | nil =>
    intro acc _ col yyyy isF v hmem
    exact absurd hmem (List.not_mem_nil col)
  | cons c0 tl ih =>
    intro acc hinv col yyyy isF v hmem hy ht hv huniq
    rw [List.foldl_cons]
    by_cases hc0 : c0 = col
    · subst hc0
      have hA1lab : (if acc.hasLabel bstd then acc
          else { cols := acc.cols,
                 rows := acc.rows ++ [(bstd, fun _ => none)] }).hasLabel bstd
          = true := by
        split
        · rename_i hb
          exact hb
        · exact hasLabel_append_self acc bstd _
      have hI1 := C2_inv_appendBase df bstd target acc hinv
      have hA2none := C2_addCol_target_none df bstd target _ hI1
      have hwrote : (c2Step bstd suf row acc c0).cell bstd target = some v := by
        rw [show c2Step bstd suf row acc c0 =
            (if (((if acc.hasLabel bstd then acc
                else { cols := acc.cols,
                       rows := acc.rows ++ [(bstd, fun _ => none)] }).addColIfMissing
                  (targetColOf suf yyyy isF)).cell bstd
                    (targetColOf suf yyyy isF)).isNone then
              ((if acc.hasLabel bstd then acc
                else { cols := acc.cols,
                       rows := acc.rows ++ [(bstd, fun _ => none)] }).addColIfMissing
                  (targetColOf suf yyyy isF)).setCell bstd
                    (targetColOf suf yyyy isF) (some v)
            else
              ((if acc.hasLabel bstd then acc
                else { cols := acc.cols,
                       rows := acc.rows ++ [(bstd, fun _ => none)] }).addColIfMissing
                  (targetColOf suf yyyy isF))) from by
          simp only [c2Step, hy, hv]]
        rw [ht]
        rw [if_pos (by rw [hA2none]; rfl)]
        refine cell_setCell_read _ (some v) ?_ ?_
        · rw [hasLabel_addCol]
          exact hA1lab
        · exact contains_addCol_self _ _
      exact C2_fold_mono bstd suf row tl _ hwrote
    · have htne : ∀ yi, is_year_col c0 = some yi →
          targetColOf suf yi.1 yi.2 ≠ target :=
        fun yi hyi hteq => hc0 (huniq c0 (List.mem_cons_self _ _) yi hyi hteq)
      exact ih (c2Step bstd suf row acc c0)
        (C2_step_inv df bstd suf target row acc c0 htne hinv) col yyyy isF v
        (by
          rcases List.mem_cons.mp hmem with h' | h'
          · exact absurd h'.symm hc0
          · exact h')
        hy ht hv
        (fun c' hc' yi' hyi' hteq =>
          huniq c' (List.mem_cons_of_mem c0 hc') yi' hyi' hteq)

end MarketData

namespace MarketData

theorem fold_month_eq (df : DF) (w : String × List Char × String)
    (hne : df.rows.isEmpty = false) (hcne : df.cols.isEmpty = false)
    (hW : workRowsOf df = [w]) :
    fold_month_suffix_rows df = foldOneSuffixRow df w := by
  rw [fold_month_suffix_rows, hne, hcne, hW]
  rfl

theorem foldOne_eq (df : DF) (w : String × List Char × String) (row : RowFun)
    (hrow : df.findRow w.1 = some row) :
    foldOneSuffixRow df w =
      { cols := (df.cols.foldl
          (c2Step (canon_metric_name (String.mk w.2.1)) w.2.2 row) df).cols,
        rows := ((df.cols.foldl
          (c2Step (canon_metric_name (String.mk w.2.1)) w.2.2 row) df).rows.filter
            (fun r => r.1 != w.1)) } := by
  simp only [foldOneSuffixRow]
  rw [hrow]
  rfl

theorem isEmpty_append_cons {α : Type} (a : α) (l₁ l₂ : List α) :
    (l₁ ++ a :: l₂).isEmpty = false := by
  cases l₁ <;> rfl

theorem fold_month_eq_works (df : DF) (ws : List (String × List Char × String))
    (hne : df.rows.isEmpty = false) (hcne : df.cols.isEmpty = false)
    (hW : workRowsOf df = ws) (hwe : ws.isEmpty = false) :
    fold_month_suffix_rows df = ws.foldl foldOneSuffixRow df := by
  rw [fold_month_suffix_rows, hne, hcne, hW]
  show (if ws.isEmpty = true then df else ws.foldl foldOneSuffixRow df) =
    ws.foldl foldOneSuffixRow df
  rw [hwe]
  rfl

theorem fold_month_eq_nil (df : DF)
    (hne : df.rows.isEmpty = false) (hcne : df.cols.isEmpty = false)
    (hW : workRowsOf df = []) : fold_month_suffix_rows df = df := by
  rw [fold_month_suffix_rows, hne, hcne, hW]
  rfl

theorem hasLabel_false_of_findRow_none {d : DF} {l : String}
    (h : d.findRow l = none) : d.hasLabel l = false := by
  simp only [DF.findRow] at h
  simp only [DF.hasLabel]
  rw [any_eq_find?_isSome]
  cases hf : d.rows.find? (fun r => r.1 == l) with
  | none => rfl
  | some r =>
    rw [hf] at h
    exact Option.noConfusion h

theorem hasLabel_filter_false (d : DF) (q : String × RowFun → Bool)
    {x : String} (h : d.hasLabel x = false) :
    ({ cols := d.cols, rows := d.rows.filter q } : DF).hasLabel x = false := by
  simp only [DF.hasLabel] at h ⊢
  rw [List.any_eq_false] at h ⊢
  intro r hr
  exact h r (List.mem_filter.mp hr).1

theorem hasLabel_if_append (acc : DF) (bstd : String) {x : String}
    (hx : bstd ≠ x) :
    (if acc.hasLabel bstd then acc
     else ({ cols := acc.cols,
             rows := acc.rows ++ [(bstd, fun _ => none)] } : DF)).hasLabel x =
      acc.hasLabel x := by
  split
  · rfl
  · simp only [DF.hasLabel]
    rw [List.any_append]
    have h1 : ([(bstd, (fun _ => none : RowFun))] :
        List (String × RowFun)).any (fun r => r.1 == x) = false := by
      simp only [List.any_cons, List.any_nil, Bool.or_false]
      exact bool_eq_false (fun hb => hx (eq_of_beq hb))
    rw [h1, Bool.or_false]

theorem hasLabel_guard_setCell (A2 : DF) (bstd T : String) (w : Val)
    (x : String) :
    (if (A2.cell bstd T).isNone then A2.setCell bstd T (some w)
     else A2).hasLabel x = A2.hasLabel x := by
  split
  · exact hasLabel_setCell A2 bstd T (some w) x
  · rfl

theorem c2Step_hasLabel (bstd suf : String) (row : RowFun) (acc : DF)
    (col : String) {x : String} (hx : bstd ≠ x) :
    (c2Step bstd suf row acc col).hasLabel x = acc.hasLabel x := by
  cases hy : is_year_col col with
  | none =>
    rw [show c2Step bstd suf row acc col = acc from by simp only [c2Step, hy]]
  | some yi =>
    cases hr : row col with
    | none =>
      rw [show c2Step bstd suf row acc col = acc from by
        simp only [c2Step, hy, hr]]
    | some w =>
      rw [show c2Step bstd suf row acc col =
          (if (((if acc.hasLabel bstd then acc
              else { cols := acc.cols,
                     rows := acc.rows ++ [(bstd, fun _ => none)] }).addColIfMissing
                (targetColOf suf yi.1 yi.2)).cell bstd
                  (targetColOf suf yi.1 yi.2)).isNone then
            ((if acc.hasLabel bstd then acc
              else { cols := acc.cols,
                     rows := acc.rows ++ [(bstd, fun _ => none)] }).addColIfMissing
                (targetColOf suf yi.1 yi.2)).setCell bstd
                  (targetColOf suf yi.1 yi.2) (some w)
          else
            ((if acc.hasLabel bstd then acc
              else { cols := acc.cols,
                     rows := acc.rows ++ [(bstd, fun _ => none)] }).addColIfMissing
                (targetColOf suf yi.1 yi.2))) from by
        simp only [c2Step, hy, hr]]
      rw [hasLabel_guard_setCell]
      rw [hasLabel_addCol]
      exact hasLabel_if_append acc bstd hx

theorem foldOne_unchanged (d : DF) (w : String × List Char × String)
    (h : d.findRow w.1 = none) : foldOneSuffixRow d w = d := by
  simp only [foldOneSuffixRow, h]

theorem foldOne_hasLabel_self (d : DF) (w : String × List Char × String) :
    (foldOneSuffixRow d w).hasLabel w.1 = false := by
  cases hr : d.findRow w.1 with
  | none =>
    rw [foldOne_unchanged d w hr]
    exact hasLabel_false_of_findRow_none hr
  | some row =>
    rw [foldOne_eq d w row hr]
    exact hasLabel_filter_self _ w.1

theorem foldOne_hasLabel_false (d : DF) (w' : String × List Char × String)
    {x : String} (hb : canon_metric_name (String.mk w'.2.1) ≠ x)
    (h : d.hasLabel x = false) :
    (foldOneSuffixRow d w').hasLabel x = false := by
  cases hr : d.findRow w'.1 with
  | none =>
    rw [foldOne_unchanged d w' hr]
    exact h
  | some row =>
    rw [foldOne_eq d w' row hr]
    apply hasLabel_filter_false
    exact foldl_preserve (fun dd => dd.hasLabel x = false) _ d.cols d h
      (fun a c _ ha => by
        show (c2Step (canon_metric_name (String.mk w'.2.1)) w'.2.2 row
          a c).hasLabel x = false
        rw [c2Step_hasLabel (canon_metric_name (String.mk w'.2.1)) w'.2.2 row
          a c hb]
        exact ha)

theorem foldOne_cell_mono (d : DF) (w' : String × List Char × String)
    {l c : String} {v : Val} (hl : l ≠ w'.1) (h : d.cell l c = some v) :
    (foldOneSuffixRow d w').cell l c = some v := by
  cases hr : d.findRow w'.1 with
  | none =>
    rw [foldOne_unchanged d w' hr]
    exact h
  | some row =>
    rw [foldOne_eq d w' row hr, cell_filter_ne _ hl]
    exact C2_fold_mono _ _ _ d.cols d h

theorem tidy_addCol (A : DF) (t : String) (h : DF.Tidy A) :
    DF.Tidy (A.addColIfMissing t) := by
  intro r hr2 c hc
  have hrows : (A.addColIfMissing t).rows = A.rows := by
    simp only [DF.addColIfMissing]
    split <;> rfl
  rw [hrows] at hr2
  have hcA : A.cols.contains c = false := by
    by_cases hx : A.cols.contains c = true
    · rw [cols_addCol_mono A t hx] at hc
      exact Bool.noConfusion hc
    · exact bool_eq_false hx
  exact h r hr2 c hcA

theorem tidy_appendBase (acc : DF) (bstd : String) (h : DF.Tidy acc) :
    DF.Tidy (if acc.hasLabel bstd then acc
      else { cols := acc.cols,
             rows := acc.rows ++ [(bstd, fun _ => none)] }) := by
  split
  · exact h
  · intro r hr2 c hc
    rcases List.mem_append.mp hr2 with h' | h'
    · exact h r h' c hc
    · rw [List.mem_singleton.mp h']

theorem tidy_guard_setCell (A2 : DF) (bstd T : String) (w : Val)
    (hT : A2.cols.contains T = true) (h : DF.Tidy A2) :
    DF.Tidy (if (A2.cell bstd T).isNone then A2.setCell bstd T (some w)
      else A2) := by
  split
  · intro r hr2 c hc
    have hc' : A2.cols.contains c = false := hc
    have hcT : c ≠ T := by
      intro he
      rw [he, hT] at hc'
      exact Bool.noConfusion hc'
    exact tidyT_setCellRows (fun x hx => h x hx c hc') hcT r hr2
  · exact h

theorem c2Step_tidy (bstd suf : String) (row : RowFun) (acc : DF)
    (col : String) (h : DF.Tidy acc) :
    DF.Tidy (c2Step bstd suf row acc col) := by
  cases hy : is_year_col col with
  | none =>
    rw [show c2Step bstd suf row acc col = acc from by simp only [c2Step, hy]]
    exact h
  | some yi =>
    cases hr : row col with
    | none =>
      rw [show c2Step bstd suf row acc col = acc from by
        simp only [c2Step, hy, hr]]
      exact h
    | some w =>
      rw [show c2Step bstd suf row acc col =
          (if (((if acc.hasLabel bstd then acc
              else { cols := acc.cols,
                     rows := acc.rows ++ [(bstd, fun _ => none)] }).addColIfMissing
                (targetColOf suf yi.1 yi.2)).cell bstd
                  (targetColOf suf yi.1 yi.2)).isNone then
            ((if acc.hasLabel bstd then acc
              else { cols := acc.cols,
                     rows := acc.rows ++ [(bstd, fun _ => none)] }).addColIfMissing
                (targetColOf suf yi.1 yi.2)).setCell bstd
                  (targetColOf suf yi.1 yi.2) (some w)
          else
            ((if acc.hasLabel bstd then acc
              else { cols := acc.cols,
                     rows := acc.rows ++ [(bstd, fun _ => none)] }).addColIfMissing
                (targetColOf suf yi.1 yi.2))) from by
        simp only [c2Step, hy, hr]]
      exact tidy_guard_setCell _ bstd (targetColOf suf yi.1 yi.2) w
        (contains_addCol_self _ _)
        (tidy_addCol _ _ (tidy_appendBase acc bstd h))

theorem foldOne_tidy (d : DF) (w' : String × List Char × String)
    (h : DF.Tidy d) : DF.Tidy (foldOneSuffixRow d w') := by
  cases hr : d.findRow w'.1 with
  | none =>
    rw [foldOne_unchanged d w' hr]
    exact h
  | some row =>
    rw [foldOne_eq d w' row hr]
    intro r hr2 c hc
    have hF : DF.Tidy (d.cols.foldl
        (c2Step (canon_metric_name (String.mk w'.2.1)) w'.2.2 row) d) :=
      foldl_preserve DF.Tidy _ d.cols d h
        (fun a x _ ha => c2Step_tidy _ _ _ a x ha)
    exact hF r (List.mem_filter.mp hr2).1 c hc

theorem works_fold_removes :
    ∀ (ws : List (String × List Char × String)) (d : DF)
      (w : String × List Char × String), w ∈ ws →
      (∀ w' ∈ ws, canon_metric_name (String.mk w'.2.1) ≠ w.1) →
      (ws.foldl foldOneSuffixRow d).hasLabel w.1 = false := by
  intro ws
  induction ws with
  | nil =>
    intro d w hw _
    exact absurd hw (List.not_mem_nil w)
  | cons w0 tl ih =>
    intro d w hw hno
    rw [List.foldl_cons]
    rcases List.mem_cons.mp hw with h1 | h1
    · refine foldl_preserve (fun dd => dd.hasLabel w.1 = false) _ tl
        (foldOneSuffixRow d w0) ?_
        (fun a x hx ha => foldOne_hasLabel_false a x
          (hno x (List.mem_cons_of_mem w0 hx)) ha)
      rw [h1]
      exact foldOne_hasLabel_self d w0
    · exact ih (foldOneSuffixRow d w0) w h1
        (fun w' hw' => hno w' (List.mem_cons_of_mem w0 hw'))

/-- C2 (amended): over an arbitrary work list of suffix-matching rows
(processed in index order), the fold (i) removes a suffixed row's label from
the result provided no suffixed row's canonicalised base name equals that
label — without that proviso the label can be recreated as a base row, which
corrects the original claim's unconditional removal; (ii) never changes an
existing non-missing cell of any row that matches no suffix pattern; and
(iii) for each suffixed row `w` (with the work list split as
`pre ++ w :: post` and `w`'s data captured as `row` in the frame reached
after `pre`), moves each non-missing value of `row` found in a year column
into the canonicalised base row at the mapped target column — creating the
base row or target column if absent — whenever the target cell is still
missing when `w` is processed (first-write-wins, also across several suffixed
rows), provided the base name differs from `w`'s own label and from the
labels of the remaining works, and no second year column maps to the same
target. -/
theorem C2_suffix_fold_amended (df : DF)
    (hne : df.rows.isEmpty = false) (hcne : df.cols.isEmpty = false)
    (htidy : DF.Tidy df) :
    (∀ w ∈ workRowsOf df,
      (∀ w' ∈ workRowsOf df, canon_metric_name (String.mk w'.2.1) ≠ w.1) →
      (fold_month_suffix_rows df).hasLabel w.1 = false) ∧
    (∀ l c v, (∀ w ∈ workRowsOf df, l ≠ w.1) → df.cell l c = some v →
      (fold_month_suffix_rows df).cell l c = some v) ∧
    (∀ pre w post, workRowsOf df = pre ++ w :: post →
      ∀ row, (pre.foldl foldOneSuffixRow df).findRow w.1 = some row →
      canon_metric_name (String.mk w.2.1) ≠ w.1 →
      (∀ w' ∈ post, w'.1 ≠ canon_metric_name (String.mk w.2.1)) →
      ∀ (col : String) (yyyy : List Char) (isF : Bool) (v : Val),
        col ∈ (pre.foldl foldOneSuffixRow df).cols →
        is_year_col col = some (yyyy, isF) →
        row col = some v →
        (pre.foldl foldOneSuffixRow df).cell
          (canon_metric_name (String.mk w.2.1))
          (targetColOf w.2.2 yyyy isF) = none →
        (∀ c' ∈ (pre.foldl foldOneSuffixRow df).cols, ∀ yi',
          is_year_col c' = some yi' →
          targetColOf w.2.2 yi'.1 yi'.2 = targetColOf w.2.2 yyyy isF →
          c' = col) →
        (fold_month_suffix_rows df).cell
          (canon_metric_name (String.mk w.2.1))
          (targetColOf w.2.2 yyyy isF) = some v) := by
  refine ⟨?_, ?_, ?_⟩
  · intro w hw hno
    have hnonnil : (workRowsOf df).isEmpty = false := by
      cases hwx : workRowsOf df with
      | nil =>
        rw [hwx] at hw
        exact absurd hw (List.not_mem_nil w)
      | cons a t => rfl
    rw [fold_month_eq_works df (workRowsOf df) hne hcne rfl hnonnil]
    exact works_fold_removes (workRowsOf df) df w hw hno
  · intro l c v hl hv
    cases hwx : workRowsOf df with
    | nil =>
      rw [fold_month_eq_nil df hne hcne hwx]
      exact hv
    | cons a t =>
      rw [fold_month_eq_works df (a :: t) hne hcne hwx rfl]
      exact foldl_preserve (fun dd => dd.cell l c = some v) _ (a :: t) df hv
        (fun a2 x hx h2 => foldOne_cell_mono a2 x
          (hl x (by rw [hwx]; exact hx)) h2)
  · intro pre w post hdec row hrowp hbsne hpost col yyyy isF v hcol hy hv
      hnone huniq
    rw [fold_month_eq_works df (pre ++ w :: post) hne hcne hdec
      (isEmpty_append_cons w pre post)]
    rw [List.foldl_append, List.foldl_cons]
    have htidyp : DF.Tidy (pre.foldl foldOneSuffixRow df) :=
      foldl_preserve DF.Tidy foldOneSuffixRow pre df htidy
        (fun a x _ ha => foldOne_tidy a x ha)
    have hw1 : (foldOneSuffixRow (pre.foldl foldOneSuffixRow df) w).cell
        (canon_metric_name (String.mk w.2.1))
        (targetColOf w.2.2 yyyy isF) = some v := by
      rw [foldOne_eq _ w row hrowp]
      rw [cell_filter_ne _ hbsne]
      have hinv : C2Inv (pre.foldl foldOneSuffixRow df)
          (canon_metric_name (String.mk w.2.1))
          (targetColOf w.2.2 yyyy isF) (pre.foldl foldOneSuffixRow df) :=
        ⟨fun c2 hc2 => hc2, fun r hr2 hct => htidyp r hr2 _ hct, hnone⟩
      exact C2_fold_write (pre.foldl foldOneSuffixRow df) _ w.2.2 _ row
        (pre.foldl foldOneSuffixRow df).cols (pre.foldl foldOneSuffixRow df)
        hinv col yyyy isF v hcol hy rfl hv huniq
    exact foldl_preserve
      (fun dd => dd.cell (canon_metric_name (String.mk w.2.1))
        (targetColOf w.2.2 yyyy isF) = some v) _ post _ hw1
      (fun a x hx ha => foldOne_cell_mono a x (Ne.symm (hpost x hx)) ha)

end MarketData

set_option maxRecDepth 8000 in
/-- C2 counterexample: in `dfC2X` the row `Revenue_Mar` matches the suffix
pattern (base `Revenue`, suffix `MAR`) and is present in the input, yet after
folding the result still contains a row labelled `Revenue_Mar`: the second
suffixed row `Revenue_Mar_Jun` has canonicalised base name `Revenue_Mar`, so
its fold recreates the label the first fold removed — refuting "the original
suffixed row is removed from the result". -/
theorem C2_counterexample :
    MarketData.matchSuffixRow "Revenue_Mar" = some ("Revenue".data, "MAR") ∧
    MarketData.dfC2X.hasLabel "Revenue_Mar" = true ∧
    (MarketData.fold_month_suffix_rows MarketData.dfC2X).hasLabel
      "Revenue_Mar" = true ∧
    (MarketData.fold_month_suffix_rows MarketData.dfC2X).labelList =
      ["Revenue", "Revenue_Mar"] := by
  refine ⟨by with_unfolding_all decide, by with_unfolding_all decide, ?_, ?_⟩
  · with_unfolding_all decide
  · with_unfolding_all decide

set_option maxRecDepth 8000 in
/-- Witness for the amended C2 on a frame with two suffixed rows
(`Revenue_Mar` with `2025F = 100` and `Revenue_Jun` with `2025F = 200`): both
fold into `Revenue` (at `1Q2025F` and `2Q2025F`), both suffixed labels
disappear, and the untouched `Info` note of the base row survives. -/
theorem C2_suffix_fold_amended_witness :
    (MarketData.fold_month_suffix_rows MarketData.dfC2W2).hasLabel
      "Revenue_Mar" = false ∧
    (MarketData.fold_month_suffix_rows MarketData.dfC2W2).hasLabel
      "Revenue_Jun" = false ∧
    (MarketData.fold_month_suffix_rows MarketData.dfC2W2).cell "Revenue" "Info"
      = some (MarketData.Val.str "x") ∧
    (MarketData.fold_month_suffix_rows MarketData.dfC2W2).cell "Revenue"
      "1Q2025F" = some (MarketData.Val.num 100) ∧
    (MarketData.fold_month_suffix_rows MarketData.dfC2W2).cell "Revenue"
      "2Q2025F" = some (MarketData.Val.num 200) := by
  have htidy : MarketData.DF.Tidy MarketData.dfC2W2 := by
    intro r hr c hc
    have hc1 : c ≠ "2025F" := by
      intro he
      subst he
      exact Bool.noConfusion hc
    have hc2 : c ≠ "Info" := by
      intro he
      subst he
      exact Bool.noConfusion hc
    rcases List.mem_cons.mp hr with rfl | hr'
    · show MarketData.rowBaseC2 c = none
      simp only [MarketData.rowBaseC2]
      rw [if_neg hc2]
    · rcases List.mem_cons.mp hr' with rfl | hr''
      · show MarketData.rowMarC2 c = none
        simp only [MarketData.rowMarC2]
        rw [if_neg hc1]
      · rcases List.mem_cons.mp hr'' with rfl | hr3
        · show MarketData.rowJunC2 c = none
          simp only [MarketData.rowJunC2]
          rw [if_neg hc1]
        · exact absurd hr3 (List.not_mem_nil r)
  have huniq1 : ∀ c' ∈ (([] : List (String × List Char × String)).foldl
      MarketData.foldOneSuffixRow MarketData.dfC2W2).cols, ∀ yi',
      MarketData.is_year_col c' = some yi' →
      MarketData.targetColOf "MAR" yi'.1 yi'.2 =
        MarketData.targetColOf "MAR" ("2025".data) true → c' = "2025F" := by
    intro c' hc' yi' hy' ht'
    have hc'' : c' ∈ ("2025F" :: "Info" :: []) := hc'
    rcases List.mem_cons.mp hc'' with rfl | h3
    · rfl
    · rcases List.mem_cons.mp h3 with rfl | h4
      · exact Option.noConfusion hy'
      · exact absurd h4 (List.not_mem_nil c')
  have huniq2 : ∀ c' ∈ ([("Revenue_Mar", "Revenue".data, "MAR")].foldl
      MarketData.foldOneSuffixRow MarketData.dfC2W2).cols, ∀ yi',
      MarketData.is_year_col c' = some yi' →
      MarketData.targetColOf "JUN" yi'.1 yi'.2 =
        MarketData.targetColOf "JUN" ("2025".data) true → c' = "2025F" := by
    intro c' hc' yi' hy' ht'
    have hc'' : c' ∈ ("2025F" :: "Info" :: "1Q2025F" :: []) := hc'
    rcases List.mem_cons.mp hc'' with rfl | h3
    · rfl
    · rcases List.mem_cons.mp h3 with rfl | h4
      · exact Option.noConfusion hy'
      · rcases List.mem_cons.mp h4 with rfl | h5
        · exact Option.noConfusion hy'
        · exact absurd h5 (List.not_mem_nil c')
  have h := MarketData.C2_suffix_fold_amended MarketData.dfC2W2
    (by decide) (by decide) htidy
  refine ⟨?_, ?_, ?_, ?_, ?_⟩
  · exact h.1 ("Revenue_Mar", "Revenue".data, "MAR")
      (by with_unfolding_all decide) (by with_unfolding_all decide)
  · exact h.1 ("Revenue_Jun", "Revenue".data, "JUN")
      (by with_unfolding_all decide) (by with_unfolding_all decide)
  · exact h.2.1 "Revenue" "Info" (MarketData.Val.str "x")
      (by with_unfolding_all decide) (by with_unfolding_all decide)
  · exact h.2.2 [] ("Revenue_Mar", "Revenue".data, "MAR")
      [("Revenue_Jun", "Revenue".data, "JUN")] (by with_unfolding_all decide)
      MarketData.rowMarC2 rfl (by with_unfolding_all decide)
      (by with_unfolding_all decide) "2025F" ("2025".data) true
      (MarketData.Val.num 100) (by with_unfolding_all decide)
      (by with_unfolding_all decide) (by with_unfolding_all decide)
      (by with_unfolding_all decide) huniq1
  · exact h.2.2 [("Revenue_Mar", "Revenue".data, "MAR")]
      ("Revenue_Jun", "Revenue".data, "JUN") [] (by with_unfolding_all decide)
      MarketData.rowJunC2 rfl (by with_unfolding_all decide)
      (fun w' hw' => absurd hw' (List.not_mem_nil w')) "2025F" ("2025".data)
      true (MarketData.Val.num 200) (by with_unfolding_all decide)
      (by with_unfolding_all decide) (by with_unfolding_all decide)
      (by with_unfolding_all decide) huniq2
